import Mathlib

/-!
# The wallet ledger (`pkg/wallet/service.go`)

A shallow embedding of the in-memory ledger engine: the `Service` store with its
accounts, payments and favorites, the ledger operations, the payment aggregator,
the two text dump formats and the chunked payment export.

Conventions of the embedding.

* A Go `string` is a byte sequence.  Every byte the code inspects (`;`, `|`,
  newline, sign and decimal digits) is a one-byte character, so a string is
  modelled as the list of its characters.
* An `int64` value (an account id, an amount of money) is an integer of the range
  `-2^63 .. 2^63 - 1`.  The additions of money, `account.Balance += ...` and
  `sum += ...`, wrap around as they do in Go (`toInt64`).  `account.Balance -= amount`
  runs under the guard `0 < amount <= account.Balance` and `s.nextAccountID++` counts
  the registrations, so neither leaves the range and both are written without the
  reduction.  `strconv.ParseInt` keeps its 64-bit range check.
* The slices hold pointers (`[]*types.Account`); every pointer is created by the
  `append` that stores it, so no two slots alias, and a pointer is modelled as
  the position of its slot in the list.
* An operation is a function from the store before the call to the result of
  the call paired with the store after the call.
* `uuid.New().String()` is an input of the operation that calls it.
-/

namespace wallet

/-- A Go string, as the list of its characters. -/
abbrev GoString := List Char

/-- The value a 64-bit signed integer holds after an arithmetic operation whose
exact result is `x`: `x` reduced modulo `2^64` into the range `-2^63 .. 2^63 - 1`
(Go's integer arithmetic wraps around on overflow). -/
def toInt64 (x : Int) : Int := (x + 2 ^ 63) % 2 ^ 64 - 2 ^ 63

namespace types

/-- Modelled from the spec: `types.Money` is declared in `pkg/types`, which is not
part of the sources; the spec describes it as an integer count of minor currency
units.  The code converts it to and from `int64` (`int64(account.Balance)`,
`types.Money(balance)`), so it is taken to be a 64-bit signed integer: a value is an
integer of the `int64` range and an addition wraps around (`toInt64`). -/
abbrev Money := Int

/-- Modelled from the spec: `types.Phone` (declared in `pkg/types`), a string. -/
abbrev Phone := GoString

/-- Modelled from the spec: `types.PaymentCategory` (declared in `pkg/types`), a string. -/
abbrev PaymentCategory := GoString

/-- Modelled from the spec: `types.PaymentStatus` (declared in `pkg/types`), a string
type: `Export` writes it with `payment.Status + "\n"` and `Import` converts any
field to it. -/
abbrev PaymentStatus := GoString

/-- Modelled from the spec: the constant `types.PaymentStatusInProgress` of
`pkg/types`, the status the spec calls `in_progress`. -/
def PaymentStatusInProgress : PaymentStatus := "in_progress".toList

/-- Modelled from the spec: the constant `types.PaymentStatusFail` of `pkg/types`,
the status the spec calls `fail`. -/
def PaymentStatusFail : PaymentStatus := "fail".toList

/-- Modelled from the spec: `types.Account` (declared in `pkg/types`), with the
fields the service reads and writes. -/
structure Account where
  ID : Int
  Phone : types.Phone
  Balance : Money
deriving DecidableEq, Repr

/-- Modelled from the spec: `types.Payment` (declared in `pkg/types`). -/
structure Payment where
  ID : GoString
  AccountID : Int
  Amount : Money
  Category : PaymentCategory
  Status : PaymentStatus
deriving DecidableEq, Repr

/-- Modelled from the spec: `types.Favorite` (declared in `pkg/types`). -/
structure Favorite where
  ID : GoString
  AccountID : Int
  Amount : Money
  Name : GoString
  Category : PaymentCategory
deriving DecidableEq, Repr

end types

open types

/-- The error values of the package, with the two `strconv` error kinds and the
"file does not exist" error of `os.Open`. -/
inductive Error where
  | ErrPhoneRegistered
  | ErrAmountMustBePositive
  | ErrAccountNotFound
  | ErrNotEnoughBalance
  | ErrPaymentNotFound
  | ErrFavoriteNotFound
  | ErrSyntax
  | ErrRange
  | ErrNotExist
deriving DecidableEq, Repr

deriving instance DecidableEq for Except

/-- The store: `type Service struct`. -/
structure Service where
  nextAccountID : Int
  accounts : List Account
  payments : List Payment
  favorites : List Favorite
deriving DecidableEq, Repr

/-- The zero value `Service{}`: counter 0 and three nil slices. -/
def Service.empty : Service :=
  { nextAccountID := 0, accounts := [], payments := [], favorites := [] }

/-- The linear scans of the service (`for _, x := range xs { if p x { return x } }`):
the position and the value of the first element that satisfies `p`. -/
def findFirst {α : Type} (p : α → Bool) : List α → Option (Nat × α)
  | [] => none
  | x :: xs =>
    if p x then some (0, x)
    else match findFirst p xs with
      | none => none
      | some (i, y) => some (i + 1, y)

/-- `Service.RegisterAccount`. -/
def Service.RegisterAccount (s : Service) (phone : Phone) : Except Error Account × Service :=
  match findFirst (fun account => account.Phone == phone) s.accounts with
  | some _ => (.error .ErrPhoneRegistered, s)
  | none =>
    let s1 := { s with nextAccountID := s.nextAccountID + 1 }
    let account : Account := { ID := s1.nextAccountID, Phone := phone, Balance := 0 }
    (.ok account, { s1 with accounts := s1.accounts ++ [account] })

/-- `Service.FindAccountByID`: the pointer (position) and the account. -/
def Service.FindAccountByID (s : Service) (accountID : Int) : Except Error (Nat × Account) :=
  match findFirst (fun account => account.ID == accountID) s.accounts with
  | some r => .ok r
  | none => .error .ErrAccountNotFound

/-- `Service.Deposit`; `account.Balance += amount` wraps around. -/
def Service.Deposit (s : Service) (accountID : Int) (amount : Money) : Except Error Unit × Service :=
  if amount ≤ 0 then (.error .ErrAmountMustBePositive, s)
  else match s.FindAccountByID accountID with
    | .error _ => (.error .ErrAccountNotFound, s)
    | .ok (i, account) =>
      (.ok (), { s with accounts := s.accounts.set i { account with Balance := toInt64 (account.Balance + amount) } })

/-- `Service.Pay`; `paymentID` is the value of `uuid.New().String()`. -/
def Service.Pay (s : Service) (accountID : Int) (amount : Money) (category : PaymentCategory)
    (paymentID : GoString) : Except Error Payment × Service :=
  if amount ≤ 0 then (.error .ErrAmountMustBePositive, s)
  else match findFirst (fun acc => acc.ID == accountID) s.accounts with
    | none => (.error .ErrAccountNotFound, s)
    | some (i, account) =>
      if account.Balance < amount then (.error .ErrNotEnoughBalance, s)
      else
        let s1 := { s with accounts := s.accounts.set i { account with Balance := account.Balance - amount } }
        let payment : Payment :=
          { ID := paymentID, AccountID := accountID, Amount := amount, Category := category,
            Status := PaymentStatusInProgress }
        (.ok payment, { s1 with payments := s1.payments ++ [payment] })

/-- `Service.FindPaymentByID`: the pointer (position) and the payment. -/
def Service.FindPaymentByID (s : Service) (paymentID : GoString) : Except Error (Nat × Payment) :=
  match findFirst (fun payment => payment.ID == paymentID) s.payments with
  | some r => .ok r
  | none => .error .ErrPaymentNotFound

/-- `Service.Reject`; `account.Balance += payment.Amount` wraps around. -/
def Service.Reject (s : Service) (paymentID : GoString) : Except Error Unit × Service :=
  match s.FindPaymentByID paymentID with
  | .error err => (.error err, s)
  | .ok (k, payment) =>
    match s.FindAccountByID payment.AccountID with
    | .error err => (.error err, s)
    | .ok (i, account) =>
      let s1 := { s with payments := s.payments.set k { payment with Status := PaymentStatusFail } }
      (.ok (), { s1 with accounts := s1.accounts.set i { account with Balance := toInt64 (account.Balance + payment.Amount) } })

/-- `Service.Repeat`; `newID` is the value of `uuid.New().String()` inside `Pay`. -/
def Service.Repeat (s : Service) (paymentID : GoString) (newID : GoString) :
    Except Error Payment × Service :=
  match s.FindPaymentByID paymentID with
  | .error err => (.error err, s)
  | .ok (_, payment) => s.Pay payment.AccountID payment.Amount payment.Category newID

/-- `Service.FavoritePayment`; `favoriteID` is the value of `uuid.New().String()`. -/
def Service.FavoritePayment (s : Service) (paymentID : GoString) (name : GoString)
    (favoriteID : GoString) : Except Error Favorite × Service :=
  match s.FindPaymentByID paymentID with
  | .error err => (.error err, s)
  | .ok (_, payment) =>
    let favorite : Favorite :=
      { ID := favoriteID, AccountID := payment.AccountID, Amount := payment.Amount, Name := name,
        Category := payment.Category }
    (.ok favorite, { s with favorites := s.favorites ++ [favorite] })

/-- `Service.FindFavoriteByID`: the pointer (position) and the favorite. -/
def Service.FindFavoriteByID (s : Service) (favoriteID : GoString) : Except Error (Nat × Favorite) :=
  match findFirst (fun favorite => favorite.ID == favoriteID) s.favorites with
  | some r => .ok r
  | none => .error .ErrFavoriteNotFound

/-- `Service.PayFromFavorite`; `newID` is the value of `uuid.New().String()` inside `Pay`.
The lookup never returns a nil favorite without an error, so the `favorite == nil`
branch of the source is dead. -/
def Service.PayFromFavorite (s : Service) (favoriteID : GoString) (newID : GoString) :
    Except Error Payment × Service :=
  match s.FindFavoriteByID favoriteID with
  | .error err => (.error err, s)
  | .ok (_, favorite) => s.Pay favorite.AccountID favorite.Amount favorite.Category newID

/-! ## The aggregator -/

/-- The worker of `SumPayments`, `func(j int, len int)`: the loop
`for ; j < len; j++ { sum += int64(s.payments[j].Amount) }` run on the shared
total `sum`, an `int64` whose addition wraps around.  Its second argument is the
chunk length the caller passes, and the loop uses it as the upper bound of the
index.  `none` is the run-time panic of an index out of range. -/
def SumPayments.worker (payments : List Payment) (j len : Nat) (sum : Int) : Option Int :=
  (List.range' j (len - j)).foldlM
    (fun acc k => match payments[k]? with
      | some payment => some (toInt64 (acc + payment.Amount))
      | none => none) sum

/-- The chunk loop of `SumPayments`,
`for i := 0; i < len(s.payments); i += sliceLen { ... go func(j, len){...}(i, sliceLen) }`,
in the barrier model: every launched worker runs to completion before the total
is read.  The workers add to the total under a mutex and integer addition is
commutative, so they are run in launch order.  The loop advances `i` by at least
one per iteration; `fuel` bounds the iterations and `none` is returned when it is
used up or a worker panics. -/
def SumPayments.loop (payments : List Payment) : Nat → Nat → Nat → Int → Option Int
  | 0, _, _, _ => none
  | fuel + 1, i, sliceLen, sum =>
    if i < payments.length then
      let sliceLen := if i + sliceLen > payments.length then payments.length - i else sliceLen
      match SumPayments.worker payments i sliceLen sum with
      | none => none
      | some sum => SumPayments.loop payments fuel (i + sliceLen) sliceLen sum
    else some sum

/-- `Service.SumPayments`.  In the sequential branch `sum` is an `int`, taken to be
64 bits wide as on the platforms Go supports for a 64-bit `Money`, and
`sum += int(payment.Amount)` wraps around.
`math.Ceil(float64(len) / float64(goroutines))` is the integer ceiling of the
quotient (the conversion to `float64` is exact for every length a slice can have).
`none` stands for a call that does not return a total (worker panic, or a chunk loop
that does not end within `len + 1` iterations). -/
def Service.SumPayments (s : Service) (goroutines : Int) : Option Money :=
  if goroutines ≤ 1 then
    some (s.payments.foldl (fun sum payment => toInt64 (sum + payment.Amount)) 0)
  else
    let sliceLen := (s.payments.length + goroutines.toNat - 1) / goroutines.toNat
    SumPayments.loop s.payments (s.payments.length + 1) 0 sliceLen 0

/-! ## `strconv`, `strings`, `bufio`, `os` -/

namespace strconv

/-- The decimal digit `d` as a character. -/
def digitChar (d : Nat) : Char := Char.ofNat (48 + d)

/-- The decimal digits of `n`, most significant first; `fuel` bounds the number of digits. -/
def formatBits : Nat → Nat → GoString
  | 0, _ => []
  | fuel + 1, n => if n < 10 then [digitChar n] else formatBits fuel (n / 10) ++ [digitChar (n % 10)]

/-- `strconv.FormatInt(i, 10)`: the decimal representation, with a leading `-` for
a negative number. -/
def FormatInt (i : Int) : GoString :=
  if i < 0 then '-' :: formatBits (i.natAbs + 1) i.natAbs else formatBits (i.natAbs + 1) i.natAbs

/-- One iteration of the digit loop of `strconv.ParseUint(s, 10, 64)`: a byte that
is not a decimal digit is a syntax error, a value that leaves the 64-bit range is
a range error. -/
def parseStep (n : Nat) (c : Char) : Except Error Nat :=
  if '0' ≤ c ∧ c ≤ '9' then
    let d := c.toNat - 48
    if n ≥ (2 ^ 64 - 1) / 10 + 1 then .error .ErrRange
    else if n * 10 + d > 2 ^ 64 - 1 then .error .ErrRange
    else .ok (n * 10 + d)
  else .error .ErrSyntax

/-- `strconv.ParseUint(s, 10, 64)`. -/
def ParseUint (s : GoString) : Except Error Nat :=
  if s = [] then .error .ErrSyntax else s.foldlM parseStep 0

/-- `strconv.ParseInt(s, 10, 64)`. -/
def ParseInt (s : GoString) : Except Error Int :=
  match s with
  | [] => .error .ErrSyntax
  | c :: cs =>
    let neg := c = '-'
    let digits := if c = '+' ∨ c = '-' then cs else c :: cs
    match ParseUint digits with
    | .error err => .error err
    | .ok un =>
      if ¬ neg ∧ un ≥ 2 ^ 63 then .error .ErrRange
      else if neg ∧ un > 2 ^ 63 then .error .ErrRange
      else .ok (if neg then - (un : Int) else (un : Int))

end strconv

namespace strings

/-- `strings.Split(s, sep)` for a one-byte separator: the substrings between the
occurrences of `sep`; the result has one element more than `s` has separators. -/
def Split : GoString → Char → List GoString
  | [], _ => [[]]
  | c :: cs, sep =>
    if c = sep then [] :: Split cs sep
    else match Split cs sep with
      | [] => [[c]]
      | w :: ws => (c :: w) :: ws

end strings

namespace bufio

/-- The strings the successive calls `reader.ReadString('\n')` return with a nil
error, `cur` being the part of the current line already read: each ends with its
newline.  At the end of the input `ReadString` returns `io.EOF` (with the
unterminated data, which the import loops drop by leaving the loop). -/
def readLinesFrom (cur : GoString) : GoString → List GoString
  | [] => []
  | c :: cs => if c = '\n' then (cur ++ [c]) :: readLinesFrom [] cs else readLinesFrom (cur ++ [c]) cs

/-- The lines a `bufio.Reader` yields on a file content. -/
def readLines (content : GoString) : List GoString := readLinesFrom [] content

end bufio

/-- The files on disk: path and content, in the order of their creation. -/
abbrev FileSystem := List (GoString × GoString)

namespace os

/-- `os.Create(name)`: the file is created empty (an existing file is truncated). -/
def Create (fs : FileSystem) (name : GoString) : FileSystem :=
  fs.filter (fun f => f.1 != name) ++ [(name, [])]

/-- `os.Open(name)` followed by reading the file to its end: its content, or `none`
when the file does not exist. -/
def Open (fs : FileSystem) (name : GoString) : Option GoString :=
  match fs.find? (fun f => f.1 == name) with
  | some f => some f.2
  | none => none

/-- `file.Write(data)` on the file created as `name`: the data is appended. -/
def Write (fs : FileSystem) (name : GoString) (data : GoString) : FileSystem :=
  fs.map (fun f => if f.1 == name then (f.1, f.2 ++ data) else f)

end os

/-! ## The dump formats -/

/-- How a call of an import or export function ends: it returns a nil error, it
returns an error value, or it stops with the run-time panic of an index out of
range. -/
inductive Outcome where
  | ok
  | err (e : Error)
  | panic
deriving DecidableEq, Repr

/-- One record of `accounts.dump`, as `Export` writes it: `id;phone;balance` and a newline. -/
def accountLine (account : Account) : GoString :=
  strconv.FormatInt account.ID ++ [';'] ++ (account.Phone ++ [';']) ++
    (strconv.FormatInt account.Balance ++ ['\n'])

/-- One record of a payments file: `id;account_id;amount;category;status` and a newline. -/
def paymentLine (payment : Payment) : GoString :=
  payment.ID ++ [';'] ++ (strconv.FormatInt payment.AccountID ++ [';']) ++
    (strconv.FormatInt payment.Amount ++ [';']) ++ (payment.Category ++ [';']) ++
    (payment.Status ++ ['\n'])

/-- One record of `favorites.dump`: `id;account_id;amount;name;category` and a newline. -/
def favoriteLine (favorite : Favorite) : GoString :=
  favorite.ID ++ [';'] ++ (strconv.FormatInt favorite.AccountID ++ [';']) ++
    (strconv.FormatInt favorite.Amount ++ [';']) ++ (favorite.Name ++ [';']) ++
    (favorite.Category ++ ['\n'])

/-- `Service.Export`.  `filepath.Abs` is the identity on the absolute paths of the
model, a nil slice is the empty list, and the consecutive `file.Write` calls of
one record are the write of their concatenation.  The store is only read. -/
def Service.Export (s : Service) (fs : FileSystem) (dir : GoString) : Outcome × FileSystem :=
  if s.accounts = [] then (.ok, fs)
  else
    let accountsFile := dir ++ "/accounts.dump".toList
    let fs := os.Create fs accountsFile
    let fs := s.accounts.foldl (fun fs account => os.Write fs accountsFile (accountLine account)) fs
    if s.payments = [] then (.ok, fs)
    else
      let paymentsFile := dir ++ "/payments.dump".toList
      let fs := os.Create fs paymentsFile
      let fs := s.payments.foldl (fun fs payment => os.Write fs paymentsFile (paymentLine payment)) fs
      if s.favorites = [] then (.ok, fs)
      else
        let favoritesFile := dir ++ "/favorites.dump".toList
        let fs := os.Create fs favoritesFile
        let fs := s.favorites.foldl
          (fun fs favorite => os.Write fs favoritesFile (favoriteLine favorite)) fs
        (.ok, fs)

/-- The body of the accounts loop of `Import` for one line: the fields
`account[0]`, `account[2]`, `account[1]` are read in this order. -/
def Import.account (line : GoString) : Except Outcome Account :=
  let account := strings.Split ((strings.Split line '\n').headD []) ';'
  match strconv.ParseInt (account.headD []) with
  | .error e => .error (.err e)
  | .ok id =>
    match account[2]? with
    | none => .error .panic
    | some f2 =>
      match strconv.ParseInt f2 with
      | .error e => .error (.err e)
      | .ok balance =>
        match account[1]? with
        | none => .error .panic
        | some phone => .ok { ID := id, Balance := balance, Phone := phone }

/-- The body of the payments loop of `Import` for one line: the fields
`payment[1]`, `payment[2]`, `payment[0]`, `payment[3]`, `payment[4]` are read in
this order. -/
def Import.payment (line : GoString) : Except Outcome Payment :=
  let payment := strings.Split ((strings.Split line '\n').headD []) ';'
  match payment[1]? with
  | none => .error .panic
  | some f1 =>
    match strconv.ParseInt f1 with
    | .error e => .error (.err e)
    | .ok accId =>
      match payment[2]? with
      | none => .error .panic
      | some f2 =>
        match strconv.ParseInt f2 with
        | .error e => .error (.err e)
        | .ok amount =>
          match payment[3]?, payment[4]? with
          | some category, some status =>
            .ok { ID := payment.headD [], AccountID := accId, Amount := amount,
                  Category := category, Status := status }
          | _, _ => .error .panic

/-- The body of the favorites loop of `Import` for one line. -/
def Import.favorite (line : GoString) : Except Outcome Favorite :=
  let favorite := strings.Split ((strings.Split line '\n').headD []) ';'
  match favorite[1]? with
  | none => .error .panic
  | some f1 =>
    match strconv.ParseInt f1 with
    | .error e => .error (.err e)
    | .ok accId =>
      match favorite[2]? with
      | none => .error .panic
      | some f2 =>
        match strconv.ParseInt f2 with
        | .error e => .error (.err e)
        | .ok amount =>
          match favorite[3]?, favorite[4]? with
          | some name, some category =>
            .ok { ID := favorite.headD [], AccountID := accId, Amount := amount,
                  Name := name, Category := category }
          | _, _ => .error .panic

/-- The accounts loop of `Import` over the lines of `accounts.dump`: every parsed
account is appended at once, so an error or a panic keeps the accounts appended
before it. -/
def Import.accounts : List GoString → Service → Outcome × Service
  | [], s => (.ok, s)
  | line :: rest, s =>
    match Import.account line with
    | .error o => (o, s)
    | .ok account => Import.accounts rest { s with accounts := s.accounts ++ [account] }

/-- The payments loop of `Import` over the lines of `payments.dump`. -/
def Import.payments : List GoString → Service → Outcome × Service
  | [], s => (.ok, s)
  | line :: rest, s =>
    match Import.payment line with
    | .error o => (o, s)
    | .ok payment => Import.payments rest { s with payments := s.payments ++ [payment] }

/-- The favorites loop of `Import` over the lines of `favorites.dump`. -/
def Import.favorites : List GoString → Service → Outcome × Service
  | [], s => (.ok, s)
  | line :: rest, s =>
    match Import.favorite line with
    | .error o => (o, s)
    | .ok favorite => Import.favorites rest { s with favorites := s.favorites ++ [favorite] }

/-- `Service.Import`.  A missing `accounts.dump` or `payments.dump` is an error, a
missing `favorites.dump` is not. -/
def Service.Import (s : Service) (fs : FileSystem) (dir : GoString) : Outcome × Service :=
  match os.Open fs (dir ++ "/accounts.dump".toList) with
  | none => (.err .ErrNotExist, s)
  | some srcAcc =>
    match Import.accounts (bufio.readLines srcAcc) s with
    | (.ok, s) =>
      match os.Open fs (dir ++ "/payments.dump".toList) with
      | none => (.err .ErrNotExist, s)
      | some srcPay =>
        match Import.payments (bufio.readLines srcPay) s with
        | (.ok, s) =>
          match os.Open fs (dir ++ "/favorites.dump".toList) with
          | none => (.ok, s)
          | some srcFav => Import.favorites (bufio.readLines srcFav) s
        | r => r
    | r => r

/-- `Service.ExportToFile`: every account is written as `id;phone;balance|`. -/
def Service.ExportToFile (s : Service) (fs : FileSystem) (path : GoString) : Outcome × FileSystem :=
  let fs := os.Create fs path
  let fs := s.accounts.foldl
    (fun fs acc => os.Write fs path
      (strconv.FormatInt acc.ID ++ [';'] ++ (acc.Phone ++ [';']) ++
        (strconv.FormatInt acc.Balance ++ ['|']))) fs
  (.ok, fs)

/-- The body of the loop of `ImportFromFile` for one non-empty segment: the id is
parsed from `account[0]`, the balance from `account[1]`, and the phone is
`account[1]`. -/
def ImportFromFile.account (acc : GoString) : Except Outcome Account :=
  let account := strings.Split acc ';'
  match strconv.ParseInt (account.headD []) with
  | .error e => .error (.err e)
  | .ok id =>
    match account[1]? with
    | none => .error .panic
    | some f1 =>
      match strconv.ParseInt f1 with
      | .error e => .error (.err e)
      | .ok balance => .ok { ID := id, Balance := balance, Phone := f1 }

/-- The loop of `ImportFromFile` over the `|`-separated segments; empty segments are skipped. -/
def ImportFromFile.loop : List GoString → Service → Outcome × Service
  | [], s => (.ok, s)
  | acc :: rest, s =>
    if acc ≠ [] then
      match ImportFromFile.account acc with
      | .error o => (o, s)
      | .ok account => ImportFromFile.loop rest { s with accounts := s.accounts ++ [account] }
    else ImportFromFile.loop rest s

/-- `Service.ImportFromFile`. -/
def Service.ImportFromFile (s : Service) (fs : FileSystem) (path : GoString) : Outcome × Service :=
  match os.Open fs path with
  | none => (.err .ErrNotExist, s)
  | some content => ImportFromFile.loop (strings.Split content '|') s

/-! ## Sequences of ledger operations -/

/-- A call of a ledger operation with its arguments (and the identifier
`uuid.New()` produces in it, for the operations that create a record). -/
inductive Op where
  | RegisterAccount (phone : Phone)
  | Deposit (accountID : Int) (amount : Money)
  | Pay (accountID : Int) (amount : Money) (category : PaymentCategory) (paymentID : GoString)
  | Reject (paymentID : GoString)
  | Repeat (paymentID : GoString) (newID : GoString)
  | FavoritePayment (paymentID : GoString) (name : GoString) (favoriteID : GoString)
  | PayFromFavorite (favoriteID : GoString) (newID : GoString)
deriving DecidableEq, Repr

/-- The store after the call `op` on the store `s`. -/
def Service.step (s : Service) : Op → Service
  | .RegisterAccount phone => (s.RegisterAccount phone).2
  | .Deposit accountID amount => (s.Deposit accountID amount).2
  | .Pay accountID amount category paymentID => (s.Pay accountID amount category paymentID).2
  | .Reject paymentID => (s.Reject paymentID).2
  | .Repeat paymentID newID => (s.Repeat paymentID newID).2
  | .FavoritePayment paymentID name favoriteID => (s.FavoritePayment paymentID name favoriteID).2
  | .PayFromFavorite favoriteID newID => (s.PayFromFavorite favoriteID newID).2

/-- The store after a sequence of calls, made one after the other. -/
def Service.run (s : Service) (ops : List Op) : Service := ops.foldl Service.step s

/-- `Deposit` under the reading that money is an exact integer: the addition
`account.Balance += amount` does not wrap around. -/
def Service.DepositExact (s : Service) (accountID : Int) (amount : Money) :
    Except Error Unit × Service :=
  if amount ≤ 0 then (.error .ErrAmountMustBePositive, s)
  else match s.FindAccountByID accountID with
    | .error _ => (.error .ErrAccountNotFound, s)
    | .ok (i, account) =>
      (.ok (), { s with accounts := s.accounts.set i { account with Balance := account.Balance + amount } })

/-- `Reject` under the reading that money is an exact integer: the addition
`account.Balance += payment.Amount` does not wrap around. -/
def Service.RejectExact (s : Service) (paymentID : GoString) : Except Error Unit × Service :=
  match s.FindPaymentByID paymentID with
  | .error err => (.error err, s)
  | .ok (k, payment) =>
    match s.FindAccountByID payment.AccountID with
    | .error err => (.error err, s)
    | .ok (i, account) =>
      let s1 := { s with payments := s.payments.set k { payment with Status := PaymentStatusFail } }
      (.ok (), { s1 with accounts := s1.accounts.set i { account with Balance := account.Balance + payment.Amount } })

/-- The store after the call `op` on the store `s`, money being an exact integer. -/
def Service.stepExact (s : Service) : Op → Service
  | .RegisterAccount phone => (s.RegisterAccount phone).2
  | .Deposit accountID amount => (s.DepositExact accountID amount).2
  | .Pay accountID amount category paymentID => (s.Pay accountID amount category paymentID).2
  | .Reject paymentID => (s.RejectExact paymentID).2
  | .Repeat paymentID newID => (s.Repeat paymentID newID).2
  | .FavoritePayment paymentID name favoriteID => (s.FavoritePayment paymentID name favoriteID).2
  | .PayFromFavorite favoriteID newID => (s.PayFromFavorite favoriteID newID).2

/-- The store after a sequence of calls, money being an exact integer. -/
def Service.runExact (s : Service) (ops : List Op) : Service := ops.foldl Service.stepExact s

/-- Whether the call `op` on the store `s` is a `RegisterAccount` that returns an account. -/
def Service.registers (s : Service) : Op → Bool
  | .RegisterAccount phone =>
    match (s.RegisterAccount phone).1 with
    | .ok _ => true
    | .error _ => false
  | _ => false

/-- The number of successful `RegisterAccount` calls in a sequence of calls made on `s`. -/
def Service.registrations (s : Service) : List Op → Nat
  | [] => 0
  | op :: ops => (if s.registers op then 1 else 0) + (s.step op).registrations ops

/-- The values of Go's `int64`. -/
def isInt64 (x : Int) : Prop := -2 ^ 63 ≤ x ∧ x < 2 ^ 63

instance : DecidablePred isInt64 := fun x => by unfold isInt64; infer_instance

/-- Every number held by the store is an `int64` value, as the Go types of the
fields require. -/
def Service.int64Values (s : Service) : Prop :=
  (∀ a ∈ s.accounts, isInt64 a.ID ∧ isInt64 a.Balance) ∧
  (∀ p ∈ s.payments, isInt64 p.AccountID ∧ isInt64 p.Amount) ∧
  (∀ f ∈ s.favorites, isInt64 f.AccountID ∧ isInt64 f.Amount)

instance : DecidablePred Service.int64Values := fun s => by
  unfold Service.int64Values; infer_instance

/-- No string field of a record of the store holds the field separator `;` or a
newline. -/
def Service.cleanFields (s : Service) : Prop :=
  (∀ a ∈ s.accounts, ';' ∉ a.Phone ∧ '\n' ∉ a.Phone) ∧
  (∀ p ∈ s.payments, (';' ∉ p.ID ∧ '\n' ∉ p.ID) ∧ (';' ∉ p.Category ∧ '\n' ∉ p.Category) ∧
    (';' ∉ p.Status ∧ '\n' ∉ p.Status)) ∧
  (∀ f ∈ s.favorites, (';' ∉ f.ID ∧ '\n' ∉ f.ID) ∧ (';' ∉ f.Name ∧ '\n' ∉ f.Name) ∧
    (';' ∉ f.Category ∧ '\n' ∉ f.Category))

instance : DecidablePred Service.cleanFields := fun s => by
  unfold Service.cleanFields; infer_instance

/-- `xs[i]` is the first element of `xs` that satisfies `p`: the element a linear
scan from the front stops at. -/
def FirstAt {α : Type} (p : α → Prop) (xs : List α) (i : Nat) (x : α) : Prop :=
  xs[i]? = some x ∧ p x ∧ ∀ j y, j < i → xs[j]? = some y → ¬ p y

/-! ## Chunked payment export -/

/-- The record loop of `HistoryToFiles`, `for _, payment := range payments`: `file`
is the open file, `x` the number of the last chunk file and `i` the one-based index
of `payment`.  Go's `%` is the truncated remainder; `i%records` with `records` zero
is the run-time panic of an integer division by zero.  The five writes of a record
are the write of their concatenation. -/
def HistoryToFiles.loop (dir : GoString) (records : Int) :
    List Payment → GoString → Nat → Nat → FileSystem → Outcome × FileSystem
  | [], _, _, _, fs => (.ok, fs)
  | payment :: rest, file, x, i, fs =>
    if records = 0 then (.panic, fs)
    else if Int.tmod (i : Int) records = 1 ∧ i ≠ 1 then
      let x := x + 1
      let file := dir ++ "/payments".toList ++ strconv.FormatInt x ++ ".dump".toList
      let fs := os.Create fs file
      HistoryToFiles.loop dir records rest file x (i + 1) (os.Write fs file (paymentLine payment))
    else
      HistoryToFiles.loop dir records rest file x (i + 1) (os.Write fs file (paymentLine payment))

/-- `Service.HistoryToFiles`; the receiver is not used. -/
def Service.HistoryToFiles (_s : Service) (payments : List Payment) (fs : FileSystem)
    (dir : GoString) (records : Int) : Outcome × FileSystem :=
  if payments = [] then (.ok, fs)
  else
    let file :=
      if (payments.length : Int) ≤ records then dir ++ "/payments.dump".toList
      else dir ++ "/payments1.dump".toList
    HistoryToFiles.loop dir records payments file 1 1 (os.Create fs file)

/-! ## Quantities of the conservation law -/

/-- The sum of the balances of all accounts. -/
def Service.totalBalance (s : Service) : Money := (s.accounts.map (fun a => a.Balance)).sum

/-- The sum of `Amount` over the payments whose status is not `fail`. -/
def Service.activePayments (s : Service) : Money :=
  ((s.payments.filter (fun p => p.Status != PaymentStatusFail)).map (fun p => p.Amount)).sum

/-- The amount the call `op` on the store `s` deposits: the amount of a `Deposit`
that returns a nil error, and 0 for every other call. -/
def Service.deposits (s : Service) : Op → Money
  | .Deposit accountID amount =>
    match (s.Deposit accountID amount).1 with
    | .ok _ => amount
    | .error _ => 0
  | _ => 0

/-- The sum of the amounts of the successful deposits in a sequence of calls made on `s`. -/
def Service.deposited (s : Service) : List Op → Money
  | [] => 0
  | op :: ops => s.deposits op + (s.step op).deposited ops

/-- The amount the call `op` on the store `s` refunds for a payment that is
already failed: the `Amount` of the payment for a `Reject` that returns a nil error
on a payment whose status is `fail` before the call, and 0 for every other call. -/
def Service.refundsAgain (s : Service) : Op → Money
  | .Reject paymentID =>
    match s.FindPaymentByID paymentID with
    | .error _ => 0
    | .ok (_, payment) =>
      match (s.Reject paymentID).1 with
      | .error _ => 0
      | .ok _ => if payment.Status = PaymentStatusFail then payment.Amount else 0
  | _ => 0

/-- The sum of the amounts refunded for already failed payments in a sequence of
calls made on `s`. -/
def Service.refundedAgain (s : Service) : List Op → Money
  | [] => 0
  | op :: ops => s.refundsAgain op + (s.step op).refundedAgain ops

/-- What the addition of the call `op` on the store `s` loses by wrapping around:
the exact sum `account.Balance + amount` minus the balance the account gets, for a
`Deposit` or a `Reject` that returns a nil error, and 0 for every other call. -/
def Service.wrapLoss (s : Service) : Op → Int
  | .Deposit accountID amount =>
    match (s.Deposit accountID amount).1, s.FindAccountByID accountID with
    | .ok _, .ok (_, account) => account.Balance + amount - toInt64 (account.Balance + amount)
    | _, _ => 0
  | .Reject paymentID =>
    match (s.Reject paymentID).1, s.FindPaymentByID paymentID with
    | .ok _, .ok (_, payment) =>
      match s.FindAccountByID payment.AccountID with
      | .ok (_, account) =>
        account.Balance + payment.Amount - toInt64 (account.Balance + payment.Amount)
      | .error _ => 0
    | _, _ => 0
  | _ => 0

/-- The sum of what the additions of a sequence of calls made on `s` lose by
wrapping around. -/
def Service.wrapLosses (s : Service) : List Op → Int
  | [] => 0
  | op :: ops => s.wrapLoss op + (s.step op).wrapLosses ops

/-- No addition of a sequence of calls made on `s` leaves the `int64` range. -/
def Service.neverOverflows (s : Service) : List Op → Bool
  | [] => true
  | op :: ops => decide (s.wrapLoss op = 0) && (s.step op).neverOverflows ops

/-- Whether the call `op` on the store `s` is a `Reject` of a payment whose status
is already `fail`. -/
def Service.rejectsFailed (s : Service) : Op → Bool
  | .Reject paymentID =>
    match s.FindPaymentByID paymentID with
    | .error _ => false
    | .ok (_, payment) => payment.Status == PaymentStatusFail
  | _ => false

/-- No call of a sequence of calls made on `s` is a `Reject` of a payment whose
status is already `fail`. -/
def Service.neverRejectsFailed (s : Service) : List Op → Bool
  | [] => true
  | op :: ops => !s.rejectsFailed op && (s.step op).neverRejectsFailed ops

end wallet

/-! # Theorems -/

namespace wallet

open types

/-! ## Wrap-around -/

/-- An `int64` value is not changed by the reduction. -/
theorem toInt64_of_isInt64 (x : Int) (h : isInt64 x) : toInt64 x = x := by
  unfold isInt64 at h
  unfold toInt64
  omega

/-- The reduction gives an `int64` value. -/
theorem isInt64_toInt64 (x : Int) : isInt64 (toInt64 x) := by
  unfold isInt64 toInt64
  omega

/-- Reducing an intermediate sum does not change the reduced total. -/
theorem toInt64_toInt64_add (x y : Int) : toInt64 (toInt64 x + y) = toInt64 (x + y) := by
  unfold toInt64
  omega

/-- The reduction changes a number by a multiple of `2^64`. -/
theorem dvd_sub_toInt64 (x : Int) : (2 ^ 64 : Int) ∣ x - toInt64 x := by
  unfold toInt64
  omega

/-- The reduction loses nothing exactly on the `int64` values. -/
theorem sub_toInt64_eq_zero_iff (x : Int) : x - toInt64 x = 0 ↔ isInt64 x := by
  unfold toInt64 isInt64
  omega

/-! ## Linear scans -/

theorem findFirst_eq_none {α : Type} (p : α → Bool) (xs : List α) :
    findFirst p xs = none ↔ ∀ x ∈ xs, p x = false := by
  induction xs with
  | nil => simp [findFirst]
  | cons x xs ih =>
    by_cases hx : p x = true
    · simp [findFirst, hx]
    · have hx' : p x = false := by simpa using hx
      cases h : findFirst p xs with
      | none =>
        simp [findFirst, hx', h]
        exact ih.mp h
      | some r =>
        have : ¬ ∀ y ∈ xs, p y = false := fun hall => by
          rw [ih.mpr hall] at h; cases h
        simp [findFirst, hx', h]
        simpa using this

theorem findFirst_of_firstAt {α : Type} (p : α → Bool) (xs : List α) (i : Nat) (x : α)
    (h : FirstAt (fun y => p y = true) xs i x) : findFirst p xs = some (i, x) := by
  induction xs generalizing i with
  | nil => simp [FirstAt] at h
  | cons y ys ih =>
    obtain ⟨hget, hp, hfirst⟩ := h
    cases i with
    | zero =>
      simp at hget
      subst hget
      simp [findFirst, hp]
    | succ i =>
      have hy : p y = false := by
        have := hfirst 0 y (Nat.succ_pos i) (by simp)
        simpa using this
      have hrec : findFirst p ys = some (i, x) := by
        apply ih
        refine ⟨by simpa using hget, hp, ?_⟩
        intro j z hj hz
        exact hfirst (j + 1) z (Nat.succ_lt_succ hj) (by simpa using hz)
      simp [findFirst, hy, hrec]

theorem firstAt_of_findFirst {α : Type} (p : α → Bool) (xs : List α) (i : Nat) (x : α)
    (h : findFirst p xs = some (i, x)) : FirstAt (fun y => p y = true) xs i x := by
  induction xs generalizing i with
  | nil => simp [findFirst] at h
  | cons y ys ih =>
    by_cases hy : p y = true
    · simp [findFirst, hy] at h
      obtain ⟨rfl, rfl⟩ := h
      exact ⟨by simp, hy, by intro j z hj; omega⟩
    · have hy' : p y = false := by simpa using hy
      cases hrec : findFirst p ys with
      | none => simp [findFirst, hy', hrec] at h
      | some r =>
        obtain ⟨k, z⟩ := r
        simp [findFirst, hy', hrec] at h
        obtain ⟨rfl, rfl⟩ := h
        obtain ⟨hget, hp, hfirst⟩ := ih k hrec
        refine ⟨by simpa using hget, hp, ?_⟩
        intro j w hj hw
        cases j with
        | zero =>
          simp at hw
          subst hw
          exact hy
        | succ j => exact hfirst j w (by omega) (by simpa using hw)

theorem FirstAt.congr {α : Type} {p q : α → Prop} (hpq : ∀ x, p x ↔ q x) {xs : List α} {i : Nat}
    {x : α} (h : FirstAt p xs i x) : FirstAt q xs i x :=
  ⟨h.1, (hpq x).mp h.2.1, fun j y hj hy hq => h.2.2 j y hj hy ((hpq y).mpr hq)⟩

theorem FirstAt.lt_length {α : Type} {p : α → Prop} {xs : List α} {i : Nat} {x : α}
    (h : FirstAt p xs i x) : i < xs.length := by
  have := h.1
  by_contra hlt
  rw [List.getElem?_eq_none (by omega)] at this
  cases this

/-- The scan for an account id stops at the first account with that id. -/
theorem findFirst_account {accounts : List Account} {accountID : Int} {i : Nat} {account : Account}
    (h : FirstAt (fun a => a.ID = accountID) accounts i account) :
    findFirst (fun acc => acc.ID == accountID) accounts = some (i, account) :=
  findFirst_of_firstAt _ _ _ _ (h.congr (fun x => by simp))

/-- The scan for a payment id stops at the first payment with that id. -/
theorem findFirst_payment {payments : List Payment} {paymentID : GoString} {k : Nat}
    {payment : Payment} (h : FirstAt (fun p => p.ID = paymentID) payments k payment) :
    findFirst (fun p => p.ID == paymentID) payments = some (k, payment) :=
  findFirst_of_firstAt _ _ _ _ (h.congr (fun x => by simp))

/-- The scan for a favorite id stops at the first favorite with that id. -/
theorem findFirst_favorite {favorites : List Favorite} {favoriteID : GoString} {k : Nat}
    {favorite : Favorite} (h : FirstAt (fun f => f.ID = favoriteID) favorites k favorite) :
    findFirst (fun f => f.ID == favoriteID) favorites = some (k, favorite) :=
  findFirst_of_firstAt _ _ _ _ (h.congr (fun x => by simp))

theorem getElem?_set_other {α : Type} (xs : List α) (i j : Nat) (x : α) (h : j ≠ i) :
    (xs.set i x)[j]? = xs[j]? := by
  rw [List.getElem?_set]
  simp [Ne.symm h]

theorem getElem?_set_same {α : Type} (xs : List α) (i : Nat) (x : α) (h : i < xs.length) :
    (xs.set i x)[i]? = some x := by
  rw [List.getElem?_set]
  simp [h]

/-! ## Pay -/

/-- C1. A call `Pay(accountID, amount, category)` with `amount > 0` on a store in which
the account with id `accountID` (the first one in list order, the one the scan of `Pay`
stops at) has a balance of at least `amount` returns a nil error and the payment
`{paymentID, accountID, amount, category, in_progress}`, `paymentID` being the
generated identifier.  In the store after the call the payment list is the old one with
that payment appended, the account's balance is the old balance minus `amount`, its
other fields and every other account are as before, and the favorites and the id
counter are as before. -/
theorem Pay_success (s : Service) (accountID : Int) (amount : Money)
    (category : PaymentCategory) (paymentID : GoString) (i : Nat) (account : Account)
    (hamount : 0 < amount)
    (haccount : FirstAt (fun a => a.ID = accountID) s.accounts i account)
    (hbalance : amount ≤ account.Balance) :
    (s.Pay accountID amount category paymentID).1 =
        .ok ⟨paymentID, accountID, amount, category, PaymentStatusInProgress⟩ ∧
      (s.Pay accountID amount category paymentID).2.payments =
        s.payments ++ [⟨paymentID, accountID, amount, category, PaymentStatusInProgress⟩] ∧
      (s.Pay accountID amount category paymentID).2.accounts.length = s.accounts.length ∧
      (s.Pay accountID amount category paymentID).2.accounts[i]? =
        some ⟨account.ID, account.Phone, account.Balance - amount⟩ ∧
      (∀ j, j ≠ i → (s.Pay accountID amount category paymentID).2.accounts[j]? = s.accounts[j]?) ∧
      (s.Pay accountID amount category paymentID).2.favorites = s.favorites ∧
      (s.Pay accountID amount category paymentID).2.nextAccountID = s.nextAccountID := by
  have hpay : s.Pay accountID amount category paymentID =
      (.ok ⟨paymentID, accountID, amount, category, PaymentStatusInProgress⟩,
        { s with
          accounts := s.accounts.set i { account with Balance := account.Balance - amount },
          payments := s.payments ++
            [⟨paymentID, accountID, amount, category, PaymentStatusInProgress⟩] }) := by
    simp [Service.Pay, findFirst_account haccount, not_le.mpr hamount, not_lt.mpr hbalance]
  rw [hpay]
  refine ⟨rfl, rfl, by simp, ?_, ?_, rfl, rfl⟩
  · exact getElem?_set_same _ _ _ haccount.lt_length
  · intro j hj
    exact getElem?_set_other _ _ _ _ hj

/-- The store of the test `TestService_Pay_success` before the call (one account with
balance 900000 after a deposit of 1000000 and a payment of 100000) and the call
`Pay(1, 10, "auto")`. -/
theorem Pay_success_witness :
    (Service.Pay ⟨1, [⟨1, "+992000000001".toList, 900000⟩],
        [⟨"p1".toList, 1, 100000, "auto".toList, PaymentStatusInProgress⟩], []⟩
        1 10 "auto".toList "p2".toList).2.accounts[0]? =
      some ⟨1, "+992000000001".toList, 900000 - 10⟩ :=
  (Pay_success ⟨1, [⟨1, "+992000000001".toList, 900000⟩],
      [⟨"p1".toList, 1, 100000, "auto".toList, PaymentStatusInProgress⟩], []⟩
    1 10 "auto".toList "p2".toList 0 ⟨1, "+992000000001".toList, 900000⟩
    (by decide) ⟨rfl, rfl, fun j _ hj => absurd hj (Nat.not_lt_zero j)⟩ (by decide)).2.2.2.1

/-- C2. A call `Pay(accountID, amount, category)` fails with `ErrAmountMustBePositive`
when `amount <= 0`, whether or not an account has the id; otherwise with
`ErrAccountNotFound` when no account has the id; otherwise with `ErrNotEnoughBalance`
when the account with the id (the first in list order) has a balance below `amount`.
In each case the store after the call is the store before it: no balance has changed
and no payment is appended. -/
theorem Pay_failure (s : Service) (accountID : Int) (amount : Money)
    (category : PaymentCategory) (paymentID : GoString) :
    (amount ≤ 0 →
      s.Pay accountID amount category paymentID = (.error .ErrAmountMustBePositive, s)) ∧
    (0 < amount → (∀ a ∈ s.accounts, a.ID ≠ accountID) →
      s.Pay accountID amount category paymentID = (.error .ErrAccountNotFound, s)) ∧
    (∀ i account, 0 < amount → FirstAt (fun a => a.ID = accountID) s.accounts i account →
      account.Balance < amount →
      s.Pay accountID amount category paymentID = (.error .ErrNotEnoughBalance, s)) := by
  refine ⟨?_, ?_, ?_⟩
  · intro h
    simp [Service.Pay, h]
  · intro h hnone
    have : findFirst (fun acc => acc.ID == accountID) s.accounts = none :=
      (findFirst_eq_none _ _).mpr (fun a ha => by simpa using hnone a ha)
    simp [Service.Pay, not_le.mpr h, this]
  · intro i account h hacc hbal
    simp [Service.Pay, not_le.mpr h, findFirst_account hacc, hbal]

/-- The three failures of `Pay` on the store of the tests: a zero amount on an id no
account has, a positive amount on that id, and an amount above the balance. -/
theorem Pay_failure_witness :
    (Service.Pay ⟨1, [⟨1, "+992000000001".toList, 900000⟩], [], []⟩ 7 0 [] []).1 =
        .error .ErrAmountMustBePositive ∧
      (Service.Pay ⟨1, [⟨1, "+992000000001".toList, 900000⟩], [], []⟩ 7 5 [] []).1 =
        .error .ErrAccountNotFound ∧
      (Service.Pay ⟨1, [⟨1, "+992000000001".toList, 900000⟩], [], []⟩ 1 900001 [] []).1 =
        .error .ErrNotEnoughBalance := by
  have h1 := (Pay_failure ⟨1, [⟨1, "+992000000001".toList, 900000⟩], [], []⟩ 7 0 [] []).1
    (by decide)
  have h2 := (Pay_failure ⟨1, [⟨1, "+992000000001".toList, 900000⟩], [], []⟩ 7 5 [] []).2.1
    (by decide) (by decide)
  have h3 := (Pay_failure ⟨1, [⟨1, "+992000000001".toList, 900000⟩], [], []⟩ 1 900001 [] []).2.2
    0 ⟨1, "+992000000001".toList, 900000⟩ (by decide)
    ⟨rfl, rfl, fun j _ hj => absurd hj (Nat.not_lt_zero j)⟩ (by decide)
  exact ⟨by rw [h1], by rw [h2], by rw [h3]⟩

/-! ## Reject -/

/-- C3, the claim as stated fails.  The store below is reached from the empty store
by `RegisterAccount`, `Deposit(1, 9223372036854775807)`, `Pay(1, 1, "auto")` and
`Deposit(1, 1)`: the account has the largest `int64` balance and the payment `p1` of
amount 1 is present.  `Reject("p1")` leaves the balance -9223372036854775808: the
addition wraps around and the balance is not the old balance plus the amount. -/
theorem Reject_overflow_counterexample :
    Service.empty.run
        [.RegisterAccount "92087397".toList, .Deposit 1 9223372036854775807,
          .Pay 1 1 "auto".toList "p1".toList, .Deposit 1 1] =
        ⟨1, [⟨1, "92087397".toList, 9223372036854775807⟩],
          [⟨"p1".toList, 1, 1, "auto".toList, "in_progress".toList⟩], []⟩ ∧
      (Service.Reject ⟨1, [⟨1, "92087397".toList, 9223372036854775807⟩],
          [⟨"p1".toList, 1, 1, "auto".toList, "in_progress".toList⟩], []⟩
          "p1".toList).2.accounts =
        [⟨1, "92087397".toList, -9223372036854775808⟩] ∧
      (-9223372036854775808 : Int) ≠ 9223372036854775807 + 1 := by
  decide

/-- C3, amended.  A call `Reject(paymentID)` on a store that holds a payment with that
id (the first in list order, `payment` at position `k`) whose `AccountID` is the id of
an account of the store (the first in list order, `account` at position `i`) returns a
nil error.  In the store after the call that payment has status `fail` and its `ID`,
`AccountID`, `Amount` and `Category` as before, every other payment is as before; the
account's balance is the `int64` sum of the old balance and the payment's `Amount`,
which is the old balance plus the `Amount` whenever that sum is an `int64` value and
wraps around otherwise; its other fields and every other account are as before;
favorites and id counter are as before.  Nothing is assumed on the status of the
payment before the call. -/
theorem Reject_success (s : Service) (paymentID : GoString) (k : Nat) (payment : Payment)
    (i : Nat) (account : Account)
    (hpayment : FirstAt (fun p => p.ID = paymentID) s.payments k payment)
    (haccount : FirstAt (fun a => a.ID = payment.AccountID) s.accounts i account) :
    (s.Reject paymentID).1 = .ok () ∧
      (s.Reject paymentID).2.payments =
        s.payments.set k ⟨payment.ID, payment.AccountID, payment.Amount, payment.Category,
          PaymentStatusFail⟩ ∧
      (s.Reject paymentID).2.accounts =
        s.accounts.set i ⟨account.ID, account.Phone,
          toInt64 (account.Balance + payment.Amount)⟩ ∧
      (s.Reject paymentID).2.payments[k]? =
        some ⟨payment.ID, payment.AccountID, payment.Amount, payment.Category,
          PaymentStatusFail⟩ ∧
      (∀ j, j ≠ k → (s.Reject paymentID).2.payments[j]? = s.payments[j]?) ∧
      (s.Reject paymentID).2.accounts[i]? =
        some ⟨account.ID, account.Phone, toInt64 (account.Balance + payment.Amount)⟩ ∧
      (isInt64 (account.Balance + payment.Amount) →
        (s.Reject paymentID).2.accounts[i]? =
          some ⟨account.ID, account.Phone, account.Balance + payment.Amount⟩) ∧
      (∀ j, j ≠ i → (s.Reject paymentID).2.accounts[j]? = s.accounts[j]?) ∧
      (s.Reject paymentID).2.favorites = s.favorites ∧
      (s.Reject paymentID).2.nextAccountID = s.nextAccountID := by
  have hrej : s.Reject paymentID =
      (.ok (),
        { s with
          payments := s.payments.set k { payment with Status := PaymentStatusFail },
          accounts := s.accounts.set i
            { account with Balance := toInt64 (account.Balance + payment.Amount) } }) := by
    simp [Service.Reject, Service.FindPaymentByID, Service.FindAccountByID,
      findFirst_payment hpayment, findFirst_account haccount]
  rw [hrej]
  refine ⟨rfl, rfl, rfl, ?_, ?_, ?_, ?_, ?_, rfl, rfl⟩
  · exact getElem?_set_same _ _ _ hpayment.lt_length
  · intro j hj
    exact getElem?_set_other _ _ _ _ hj
  · exact getElem?_set_same _ _ _ haccount.lt_length
  · intro hrange
    show (s.accounts.set i _)[i]? = _
    rw [getElem?_set_same _ _ _ haccount.lt_length, toInt64_of_isInt64 _ hrange]
  · intro j hj
    exact getElem?_set_other _ _ _ _ hj

/-- The call `Reject("p1")` on a store whose payment `p1` already has status `fail`:
the balance 900000 is increased by the amount 100000 again. -/
theorem Reject_success_witness :
    (Service.Reject ⟨1, [⟨1, "+992000000001".toList, 900000⟩],
        [⟨"p1".toList, 1, 100000, "auto".toList, PaymentStatusFail⟩], []⟩
        "p1".toList).2.accounts[0]? =
      some ⟨1, "+992000000001".toList, 900000 + 100000⟩ :=
  (Reject_success ⟨1, [⟨1, "+992000000001".toList, 900000⟩],
      [⟨"p1".toList, 1, 100000, "auto".toList, PaymentStatusFail⟩], []⟩
    "p1".toList 0 ⟨"p1".toList, 1, 100000, "auto".toList, PaymentStatusFail⟩
    0 ⟨1, "+992000000001".toList, 900000⟩
    ⟨rfl, rfl, fun j _ hj => absurd hj (Nat.not_lt_zero j)⟩
    ⟨rfl, rfl, fun j _ hj => absurd hj (Nat.not_lt_zero j)⟩).2.2.2.2.2.2.1 (by decide)

/-! ## Repeat -/

/-- C7, the claim as stated fails.  The store below is the one `Import` builds from an
`accounts.dump` holding `1;+992000000001;900000` and a `payments.dump` holding
`p1;1;0;auto;in_progress`.  Its payment `p1` is present, the account 1 it refers to
exists and its balance 900000 is at least the payment's amount 0, and `Repeat("p1")`
fails with `ErrAmountMustBePositive`: the guard `amount <= 0` of `Pay` rejects the
stored amount. -/
theorem Repeat_nonpositive_amount_counterexample :
    (Service.Import Service.empty
        [("d/accounts.dump".toList, "1;+992000000001;900000\n".toList),
          ("d/payments.dump".toList, "p1;1;0;auto;in_progress\n".toList)] "d".toList) =
        (.ok, ⟨0, [⟨1, "+992000000001".toList, 900000⟩],
          [⟨"p1".toList, 1, 0, "auto".toList, "in_progress".toList⟩], []⟩) ∧
      FirstAt (fun p => p.ID = "p1".toList)
        [(⟨"p1".toList, 1, 0, "auto".toList, "in_progress".toList⟩ : Payment)] 0
        ⟨"p1".toList, 1, 0, "auto".toList, "in_progress".toList⟩ ∧
      FirstAt (fun a => a.ID = 1) [(⟨1, "+992000000001".toList, 900000⟩ : Account)] 0
        ⟨1, "+992000000001".toList, 900000⟩ ∧
      (0 : Money) ≤ 900000 ∧
      Service.Repeat ⟨0, [⟨1, "+992000000001".toList, 900000⟩],
          [⟨"p1".toList, 1, 0, "auto".toList, "in_progress".toList⟩], []⟩
          "p1".toList "p2".toList =
        (.error .ErrAmountMustBePositive,
          ⟨0, [⟨1, "+992000000001".toList, 900000⟩],
            [⟨"p1".toList, 1, 0, "auto".toList, "in_progress".toList⟩], []⟩) :=
  ⟨by decide, ⟨rfl, rfl, fun j _ hj => absurd hj (Nat.not_lt_zero j)⟩,
    ⟨rfl, rfl, fun j _ hj => absurd hj (Nat.not_lt_zero j)⟩, by decide, by decide⟩

/-- C7, amended.  Let `payment` be the payment with id `paymentID` (the first in list
order).  If its `Amount` is positive and the account it refers to exists (the first
with that id, `account` at position `i`) with a balance of at least that amount,
`Repeat(paymentID)` returns the new payment `{newID, payment.AccountID, payment.Amount,
payment.Category, in_progress}`, whatever the status of `payment`; the payment list
after the call is the old list (with `payment` unchanged) followed by the new payment,
and only the balance of the account has changed, by minus `payment.Amount`.  If the
`Amount` is positive and the account's balance is below it, `Repeat` fails with
`ErrNotEnoughBalance`; if the `Amount` is not positive it fails with
`ErrAmountMustBePositive`; if no payment has the id it fails with `ErrPaymentNotFound`.
In the three failures the store is unchanged. -/
theorem Repeat_spec (s : Service) (paymentID newID : GoString) :
    (∀ k payment i account,
      FirstAt (fun p => p.ID = paymentID) s.payments k payment →
      FirstAt (fun a => a.ID = payment.AccountID) s.accounts i account →
      0 < payment.Amount → payment.Amount ≤ account.Balance →
      (s.Repeat paymentID newID).1 =
          .ok ⟨newID, payment.AccountID, payment.Amount, payment.Category,
            PaymentStatusInProgress⟩ ∧
        (s.Repeat paymentID newID).2.payments =
          s.payments ++ [⟨newID, payment.AccountID, payment.Amount, payment.Category,
            PaymentStatusInProgress⟩] ∧
        (s.Repeat paymentID newID).2.payments[k]? = some payment ∧
        (s.Repeat paymentID newID).2.accounts =
          s.accounts.set i ⟨account.ID, account.Phone, account.Balance - payment.Amount⟩ ∧
        (s.Repeat paymentID newID).2.favorites = s.favorites ∧
        (s.Repeat paymentID newID).2.nextAccountID = s.nextAccountID) ∧
    (∀ k payment i account,
      FirstAt (fun p => p.ID = paymentID) s.payments k payment →
      FirstAt (fun a => a.ID = payment.AccountID) s.accounts i account →
      0 < payment.Amount → account.Balance < payment.Amount →
      s.Repeat paymentID newID = (.error .ErrNotEnoughBalance, s)) ∧
    (∀ k payment,
      FirstAt (fun p => p.ID = paymentID) s.payments k payment → payment.Amount ≤ 0 →
      s.Repeat paymentID newID = (.error .ErrAmountMustBePositive, s)) ∧
    ((∀ p ∈ s.payments, p.ID ≠ paymentID) →
      s.Repeat paymentID newID = (.error .ErrPaymentNotFound, s)) := by
  refine ⟨?_, ?_, ?_, ?_⟩
  · intro k payment i account hpayment haccount hpos hbal
    have hrep : s.Repeat paymentID newID =
        (.ok ⟨newID, payment.AccountID, payment.Amount, payment.Category,
            PaymentStatusInProgress⟩,
          { s with
            accounts := s.accounts.set i
              { account with Balance := account.Balance - payment.Amount },
            payments := s.payments ++ [⟨newID, payment.AccountID, payment.Amount,
              payment.Category, PaymentStatusInProgress⟩] }) := by
      simp [Service.Repeat, Service.FindPaymentByID, findFirst_payment hpayment, Service.Pay,
        findFirst_account haccount, not_le.mpr hpos, not_lt.mpr hbal]
    rw [hrep]
    refine ⟨rfl, rfl, ?_, rfl, rfl, rfl⟩
    show (s.payments ++ _)[k]? = some payment
    rw [List.getElem?_append_left hpayment.lt_length]
    exact hpayment.1
  · intro k payment i account hpayment haccount hpos hbal
    simp [Service.Repeat, Service.FindPaymentByID, findFirst_payment hpayment, Service.Pay,
      findFirst_account haccount, not_le.mpr hpos, hbal]
  · intro k payment hpayment hle
    simp [Service.Repeat, Service.FindPaymentByID, findFirst_payment hpayment, Service.Pay, hle]
  · intro hnone
    have : findFirst (fun p => p.ID == paymentID) s.payments = none :=
      (findFirst_eq_none _ _).mpr (fun p hp => by simpa using hnone p hp)
    simp [Service.Repeat, Service.FindPaymentByID, this]

/-- The call of the test `TestService_Repeat_success`: `Repeat` of the payment of
100000 on the account with balance 900000. -/
theorem Repeat_spec_witness :
    (Service.Repeat ⟨1, [⟨1, "+992000000001".toList, 900000⟩],
        [⟨"p1".toList, 1, 100000, "auto".toList, PaymentStatusInProgress⟩], []⟩
        "p1".toList "p2".toList).2.accounts =
      [⟨1, "+992000000001".toList, 900000 - 100000⟩] :=
  ((Repeat_spec ⟨1, [⟨1, "+992000000001".toList, 900000⟩],
      [⟨"p1".toList, 1, 100000, "auto".toList, PaymentStatusInProgress⟩], []⟩
    "p1".toList "p2".toList).1 0
    ⟨"p1".toList, 1, 100000, "auto".toList, PaymentStatusInProgress⟩
    0 ⟨1, "+992000000001".toList, 900000⟩
    ⟨rfl, rfl, fun j _ hj => absurd hj (Nat.not_lt_zero j)⟩
    ⟨rfl, rfl, fun j _ hj => absurd hj (Nat.not_lt_zero j)⟩ (by decide) (by decide)).2.2.2.1

/-! ## RegisterAccount -/

/-- C8. `RegisterAccount(phone)` fails with `ErrPhoneRegistered` if and only if an
account of the store has that phone, it fails with no other error, and when it fails
the store after the call is the store before it: the account list, the id counter,
the payments and the favorites are unchanged. -/
theorem RegisterAccount_duplicate (s : Service) (phone : Phone) :
    ((s.RegisterAccount phone).1 = .error .ErrPhoneRegistered ↔
        ∃ a ∈ s.accounts, a.Phone = phone) ∧
      (∀ e, (s.RegisterAccount phone).1 = .error e →
        e = .ErrPhoneRegistered ∧ (s.RegisterAccount phone).2 = s) := by
  cases h : findFirst (fun account => account.Phone == phone) s.accounts with
  | none =>
    have hall := (findFirst_eq_none _ _).mp h
    constructor
    · simp only [Service.RegisterAccount, h]
      constructor
      · intro hc
        cases hc
      · rintro ⟨a, ha, hp⟩
        have := hall a ha
        simp [hp] at this
    · intro e he
      simp [Service.RegisterAccount, h] at he
  | some r =>
    obtain ⟨i, a⟩ := r
    have hfirst := firstAt_of_findFirst _ _ _ _ h
    constructor
    · simp only [Service.RegisterAccount, h, true_iff]
      exact ⟨a, List.getElem?_mem hfirst.1, by simpa using hfirst.2.1⟩
    · intro e he
      simp [Service.RegisterAccount, h] at he
      exact ⟨he.symm, by simp [Service.RegisterAccount, h]⟩

/-! ## FavoritePayment and PayFromFavorite -/

/-- An element appended to a list is the first one that satisfies a predicate no
element of the list satisfies. -/
theorem firstAt_append_new {α : Type} (p : α → Prop) (xs : List α) (x : α) (hx : p x)
    (hnew : ∀ y ∈ xs, ¬ p y) : FirstAt p (xs ++ [x]) xs.length x := by
  refine ⟨by simp, hx, ?_⟩
  intro j y hj hy
  rw [List.getElem?_append_left hj] at hy
  exact hnew y (List.getElem?_mem hy)

/-- C10, the claim as stated fails.  The store below (the one `Import` builds from
`1;+992000000001;900000` and `p1;1;0;auto;in_progress`) holds the payment `p1` of
amount 0.  `FavoritePayment("p1", "good")` succeeds, the referenced account has balance
900000, at least the payment's amount, and `PayFromFavorite` on the new favorite fails
with `ErrAmountMustBePositive`. -/
theorem PayFromFavorite_nonpositive_amount_counterexample :
    FirstAt (fun p => p.ID = "p1".toList)
        [(⟨"p1".toList, 1, 0, "auto".toList, "in_progress".toList⟩ : Payment)] 0
        ⟨"p1".toList, 1, 0, "auto".toList, "in_progress".toList⟩ ∧
      Service.FavoritePayment ⟨0, [⟨1, "+992000000001".toList, 900000⟩],
          [⟨"p1".toList, 1, 0, "auto".toList, "in_progress".toList⟩], []⟩
          "p1".toList "good".toList "f1".toList =
        (.ok ⟨"f1".toList, 1, 0, "good".toList, "auto".toList⟩,
          ⟨0, [⟨1, "+992000000001".toList, 900000⟩],
            [⟨"p1".toList, 1, 0, "auto".toList, "in_progress".toList⟩],
            [⟨"f1".toList, 1, 0, "good".toList, "auto".toList⟩]⟩) ∧
      FirstAt (fun a => a.ID = 1) [(⟨1, "+992000000001".toList, 900000⟩ : Account)] 0
        ⟨1, "+992000000001".toList, 900000⟩ ∧
      (0 : Money) ≤ 900000 ∧
      (Service.PayFromFavorite ⟨0, [⟨1, "+992000000001".toList, 900000⟩],
          [⟨"p1".toList, 1, 0, "auto".toList, "in_progress".toList⟩],
          [⟨"f1".toList, 1, 0, "good".toList, "auto".toList⟩]⟩
          "f1".toList "p2".toList).1 = .error .ErrAmountMustBePositive :=
  ⟨⟨rfl, rfl, fun j _ hj => absurd hj (Nat.not_lt_zero j)⟩, by decide,
    ⟨rfl, rfl, fun j _ hj => absurd hj (Nat.not_lt_zero j)⟩, by decide, by decide⟩

/-- C10, amended.  Let `payment` be the payment with id `paymentID` (the first in list
order).  `FavoritePayment(paymentID, name)` returns the favorite `{favoriteID,
payment.AccountID, payment.Amount, name, payment.Category}` and appends it to the
favorites, leaving accounts, payments and the id counter unchanged.  If moreover
`payment.Amount` is positive, the generated `favoriteID` is not the id of a favorite
already stored, and the referenced account (the first with id `payment.AccountID`,
`account` at position `i`) has a balance of at least `payment.Amount`, then
`PayFromFavorite(favoriteID)` on the resulting store returns the new payment `{newID,
payment.AccountID, payment.Amount, payment.Category, in_progress}`, appends it to the
payments, debits the account by `payment.Amount`, and leaves the favorites (the new
favorite included) as they were. -/
theorem FavoritePayment_PayFromFavorite (s : Service) (paymentID name favoriteID newID : GoString)
    (k : Nat) (payment : Payment)
    (hpayment : FirstAt (fun p => p.ID = paymentID) s.payments k payment) :
    (s.FavoritePayment paymentID name favoriteID).1 =
        .ok ⟨favoriteID, payment.AccountID, payment.Amount, name, payment.Category⟩ ∧
      (s.FavoritePayment paymentID name favoriteID).2.favorites =
        s.favorites ++ [⟨favoriteID, payment.AccountID, payment.Amount, name, payment.Category⟩] ∧
      (s.FavoritePayment paymentID name favoriteID).2.accounts = s.accounts ∧
      (s.FavoritePayment paymentID name favoriteID).2.payments = s.payments ∧
      (s.FavoritePayment paymentID name favoriteID).2.nextAccountID = s.nextAccountID ∧
      (∀ i account,
        0 < payment.Amount →
        (∀ f ∈ s.favorites, f.ID ≠ favoriteID) →
        FirstAt (fun a => a.ID = payment.AccountID)
          (s.FavoritePayment paymentID name favoriteID).2.accounts i account →
        payment.Amount ≤ account.Balance →
        ((s.FavoritePayment paymentID name favoriteID).2.PayFromFavorite favoriteID newID).1 =
            .ok ⟨newID, payment.AccountID, payment.Amount, payment.Category,
              PaymentStatusInProgress⟩ ∧
          ((s.FavoritePayment paymentID name favoriteID).2.PayFromFavorite
              favoriteID newID).2.payments =
            s.payments ++ [⟨newID, payment.AccountID, payment.Amount, payment.Category,
              PaymentStatusInProgress⟩] ∧
          ((s.FavoritePayment paymentID name favoriteID).2.PayFromFavorite
              favoriteID newID).2.favorites =
            s.favorites ++
              [⟨favoriteID, payment.AccountID, payment.Amount, name, payment.Category⟩] ∧
          ((s.FavoritePayment paymentID name favoriteID).2.PayFromFavorite
              favoriteID newID).2.accounts =
            s.accounts.set i ⟨account.ID, account.Phone, account.Balance - payment.Amount⟩) := by
  have hfav : s.FavoritePayment paymentID name favoriteID =
      (.ok ⟨favoriteID, payment.AccountID, payment.Amount, name, payment.Category⟩,
        { s with favorites := s.favorites ++
            [⟨favoriteID, payment.AccountID, payment.Amount, name, payment.Category⟩] }) := by
    simp [Service.FavoritePayment, Service.FindPaymentByID, findFirst_payment hpayment]
  rw [hfav]
  refine ⟨rfl, rfl, rfl, rfl, rfl, ?_⟩
  intro i account hpos hfresh haccount hbal
  have hnew : FirstAt (fun f : Favorite => f.ID = favoriteID)
      (s.favorites ++ [⟨favoriteID, payment.AccountID, payment.Amount, name, payment.Category⟩])
      s.favorites.length
      ⟨favoriteID, payment.AccountID, payment.Amount, name, payment.Category⟩ :=
    firstAt_append_new _ _ _ rfl hfresh
  have haccount' : FirstAt (fun a => a.ID = payment.AccountID) s.accounts i account := haccount
  simp [Service.PayFromFavorite, Service.FindFavoriteByID, findFirst_favorite hnew, Service.Pay,
    findFirst_account haccount', not_le.mpr hpos, not_lt.mpr hbal]

/-- The calls of the test `TestService_PayFromFavorite_success`: the payment `p2` of
amount 10 is made a favorite and paid again from the favorite. -/
theorem FavoritePayment_PayFromFavorite_witness :
    (Service.FavoritePayment ⟨1, [⟨1, "+992000000001".toList, 899990⟩],
        [⟨"p1".toList, 1, 100000, "auto".toList, PaymentStatusInProgress⟩,
          ⟨"p2".toList, 1, 10, "smth".toList, PaymentStatusInProgress⟩], []⟩
        "p2".toList "good".toList "f1".toList).1 =
        .ok ⟨"f1".toList, 1, 10, "good".toList, "smth".toList⟩ ∧
      ((Service.FavoritePayment ⟨1, [⟨1, "+992000000001".toList, 899990⟩],
        [⟨"p1".toList, 1, 100000, "auto".toList, PaymentStatusInProgress⟩,
          ⟨"p2".toList, 1, 10, "smth".toList, PaymentStatusInProgress⟩], []⟩
        "p2".toList "good".toList "f1".toList).2.PayFromFavorite "f1".toList "p3".toList).1 =
        .ok ⟨"p3".toList, 1, 10, "smth".toList, PaymentStatusInProgress⟩ := by
  have h := FavoritePayment_PayFromFavorite ⟨1, [⟨1, "+992000000001".toList, 899990⟩],
      [⟨"p1".toList, 1, 100000, "auto".toList, PaymentStatusInProgress⟩,
        ⟨"p2".toList, 1, 10, "smth".toList, PaymentStatusInProgress⟩], []⟩
    "p2".toList "good".toList "f1".toList "p3".toList 1
    ⟨"p2".toList, 1, 10, "smth".toList, PaymentStatusInProgress⟩
    ⟨rfl, rfl, fun j y hj hy => by
      have hj0 : j = 0 := by omega
      subst hj0
      simp at hy
      subst hy
      decide⟩
  exact ⟨h.1, (h.2.2.2.2.2 0 ⟨1, "+992000000001".toList, 899990⟩ (by decide)
    (fun f hf => by simp at hf)
    ⟨rfl, rfl, fun j _ hj => absurd hj (Nat.not_lt_zero j)⟩ (by decide)).1⟩

/-! ## Account ids along sequences of operations -/

theorem map_set_of_getElem? {α β : Type} (f : α → β) (xs : List α) (i : Nat) (x y : α)
    (hx : xs[i]? = some x) (hf : f y = f x) : (xs.set i y).map f = xs.map f := by
  induction xs generalizing i with
  | nil => simp
  | cons z zs ih =>
    cases i with
    | zero =>
      simp at hx
      subst hx
      simp [hf]
    | succ i =>
      simp at hx
      simp [ih i hx]

/-- `Pay` changes neither the ids of the accounts nor the id counter. -/
theorem Pay_ids (s : Service) (accountID : Int) (amount : Money) (category : PaymentCategory)
    (paymentID : GoString) :
    (s.Pay accountID amount category paymentID).2.accounts.map (fun a => a.ID) =
        s.accounts.map (fun a => a.ID) ∧
      (s.Pay accountID amount category paymentID).2.nextAccountID = s.nextAccountID := by
  unfold Service.Pay
  split
  · exact ⟨rfl, rfl⟩
  · cases h : findFirst (fun acc => acc.ID == accountID) s.accounts with
    | none => exact ⟨rfl, rfl⟩
    | some r =>
      obtain ⟨i, account⟩ := r
      have hget := (firstAt_of_findFirst _ _ _ _ h).1
      dsimp only
      split
      · exact ⟨rfl, rfl⟩
      · exact ⟨map_set_of_getElem? _ _ _ _ _ hget rfl, rfl⟩

/-- `Deposit` changes neither the ids of the accounts nor the id counter. -/
theorem Deposit_ids (s : Service) (accountID : Int) (amount : Money) :
    (s.Deposit accountID amount).2.accounts.map (fun a => a.ID) =
        s.accounts.map (fun a => a.ID) ∧
      (s.Deposit accountID amount).2.nextAccountID = s.nextAccountID := by
  unfold Service.Deposit Service.FindAccountByID
  split
  · exact ⟨rfl, rfl⟩
  · cases h : findFirst (fun account => account.ID == accountID) s.accounts with
    | none => exact ⟨rfl, rfl⟩
    | some r =>
      obtain ⟨i, account⟩ := r
      have hget := (firstAt_of_findFirst _ _ _ _ h).1
      exact ⟨map_set_of_getElem? _ _ _ _ _ hget rfl, rfl⟩

/-- `Reject` changes neither the ids of the accounts nor the id counter. -/
theorem Reject_ids (s : Service) (paymentID : GoString) :
    (s.Reject paymentID).2.accounts.map (fun a => a.ID) = s.accounts.map (fun a => a.ID) ∧
      (s.Reject paymentID).2.nextAccountID = s.nextAccountID := by
  unfold Service.Reject Service.FindPaymentByID Service.FindAccountByID
  cases hp : findFirst (fun payment => payment.ID == paymentID) s.payments with
  | none => exact ⟨rfl, rfl⟩
  | some r =>
    obtain ⟨k, payment⟩ := r
    cases h : findFirst (fun account => account.ID == payment.AccountID) s.accounts with
    | none => simp [h]
    | some r =>
      obtain ⟨i, account⟩ := r
      have hget := (firstAt_of_findFirst _ _ _ _ h).1
      simp only [h]
      exact ⟨map_set_of_getElem? _ _ _ _ _ hget rfl, trivial⟩

/-- A call of `RegisterAccount` either fails and leaves the store as it is, or appends
the account `{nextAccountID + 1, phone, 0}` and increments the id counter. -/
theorem RegisterAccount_cases (s : Service) (phone : Phone) :
    (s.RegisterAccount phone = (.error .ErrPhoneRegistered, s)) ∨
      (s.RegisterAccount phone =
        (.ok ⟨s.nextAccountID + 1, phone, 0⟩,
          { s with nextAccountID := s.nextAccountID + 1,
                   accounts := s.accounts ++ [⟨s.nextAccountID + 1, phone, 0⟩] })) := by
  unfold Service.RegisterAccount
  cases findFirst (fun account => account.Phone == phone) s.accounts with
  | none => exact Or.inr rfl
  | some r => exact Or.inl rfl

/-- An operation other than a successful `RegisterAccount` keeps the account ids and
the id counter; a successful `RegisterAccount` appends the id `nextAccountID + 1`
and increments the counter. -/
theorem step_ids (s : Service) (op : Op) :
    (s.registers op = false ∧
        (s.step op).accounts.map (fun a => a.ID) = s.accounts.map (fun a => a.ID) ∧
        (s.step op).nextAccountID = s.nextAccountID) ∨
      (s.registers op = true ∧
        (s.step op).accounts.map (fun a => a.ID) =
          s.accounts.map (fun a => a.ID) ++ [s.nextAccountID + 1] ∧
        (s.step op).nextAccountID = s.nextAccountID + 1) := by
  cases op with
  | RegisterAccount phone =>
    rcases RegisterAccount_cases s phone with h | h
    · left
      simp [Service.registers, Service.step, h]
    · right
      simp [Service.registers, Service.step, h]
  | Deposit accountID amount => exact Or.inl ⟨rfl, Deposit_ids s accountID amount⟩
  | Pay accountID amount category paymentID =>
    exact Or.inl ⟨rfl, Pay_ids s accountID amount category paymentID⟩
  | Reject paymentID => exact Or.inl ⟨rfl, Reject_ids s paymentID⟩
  | Repeat paymentID newID =>
    left
    refine ⟨rfl, ?_⟩
    simp only [Service.step, Service.Repeat]
    cases s.FindPaymentByID paymentID with
    | error e => exact ⟨rfl, rfl⟩
    | ok r => exact Pay_ids s _ _ _ _
  | FavoritePayment paymentID name favoriteID =>
    left
    refine ⟨rfl, ?_⟩
    simp only [Service.step, Service.FavoritePayment]
    cases s.FindPaymentByID paymentID with
    | error e => exact ⟨rfl, rfl⟩
    | ok r => exact ⟨rfl, rfl⟩
  | PayFromFavorite favoriteID newID =>
    left
    refine ⟨rfl, ?_⟩
    simp only [Service.step, Service.PayFromFavorite]
    cases s.FindFavoriteByID favoriteID with
    | error e => exact ⟨rfl, rfl⟩
    | ok r => exact Pay_ids s _ _ _ _

/-- The ids `first + 1, ..., first + n`. -/
theorem ids_append (first n : Nat) :
    (List.range' (first + 1) n).map (fun m : Nat => (m : Int)) ++ [((first + n : Nat) : Int) + 1] =
      (List.range' (first + 1) (n + 1)).map (fun m : Nat => (m : Int)) := by
  rw [List.range'_concat]
  simp
  omega

/-- Along a sequence of operations started on a store whose counter is the number of
its accounts and whose account ids are `1, ..., counter`, the counter stays the number
of accounts, the ids stay `1, ..., counter`, and the number of accounts grows by the
number of successful registrations. -/
theorem run_ids (ops : List Op) (s : Service) (n : Nat)
    (hcounter : s.nextAccountID = (n : Int))
    (hids : s.accounts.map (fun a => a.ID) = (List.range' 1 n).map (fun m : Nat => (m : Int))) :
    (s.run ops).nextAccountID = ((n + s.registrations ops : Nat) : Int) ∧
      (s.run ops).accounts.map (fun a => a.ID) =
        (List.range' 1 (n + s.registrations ops)).map (fun m : Nat => (m : Int)) := by
  induction ops generalizing s n with
  | nil => simpa [Service.run, Service.registrations] using ⟨hcounter, hids⟩
  | cons op ops ih =>
    have hrun : s.run (op :: ops) = (s.step op).run ops := rfl
    rw [hrun]
    rcases step_ids s op with ⟨hreg, hmap, hnext⟩ | ⟨hreg, hmap, hnext⟩
    · have := ih (s.step op) n (by rw [hnext, hcounter]) (by rw [hmap, hids])
      simpa [Service.registrations, hreg] using this
    · have := ih (s.step op) (n + 1) (by rw [hnext, hcounter]; push_cast; ring)
        (by
          rw [hmap, hids, hcounter]
          have := ids_append 0 n
          simpa using this)
      simp only [Service.registrations, hreg, if_true]
      have e : n + (1 + (s.step op).registrations ops) = n + 1 + (s.step op).registrations ops := by
        omega
      rw [e]
      exact this

/-- C9. On the store reached from the empty store by any sequence `ops` of ledger
operations, a successful `RegisterAccount(phone)` is the `n`-th successful registration,
`n` being one more than the number of successful registrations in `ops`; the account it
returns has `ID = n`, the given phone and balance 0, and is appended at the end of the
account list, whose ids are then `1, 2, ..., n` in this order, pairwise distinct. -/
theorem RegisterAccount_sequential (ops : List Op) (phone : Phone) (account : Account)
    (s' : Service)
    (h : (Service.empty.run ops).RegisterAccount phone = (.ok account, s')) :
    account.ID = ((Service.empty.registrations ops + 1 : Nat) : Int) ∧
      account.Phone = phone ∧ account.Balance = 0 ∧
      s'.accounts = (Service.empty.run ops).accounts ++ [account] ∧
      s'.accounts.map (fun a => a.ID) =
        (List.range' 1 (Service.empty.registrations ops + 1)).map (fun m : Nat => (m : Int)) ∧
      (s'.accounts.map (fun a => a.ID)).Nodup := by
  obtain ⟨hnext, hids⟩ := run_ids ops Service.empty 0 rfl rfl
  simp only [Nat.zero_add] at hnext hids
  rcases RegisterAccount_cases (Service.empty.run ops) phone with hc | hc
  · rw [hc] at h
    cases h
  · rw [hc] at h
    simp only [Prod.mk.injEq, Except.ok.injEq] at h
    obtain ⟨rfl, rfl⟩ := h
    have hmap : ((Service.empty.run ops).accounts ++
        [(⟨(Service.empty.run ops).nextAccountID + 1, phone, 0⟩ : Account)]).map (fun a : Account => a.ID) =
        (List.range' 1 (Service.empty.registrations ops + 1)).map (fun m : Nat => (m : Int)) := by
      rw [List.map_append, hids, hnext]
      have := ids_append 0 (Service.empty.registrations ops)
      simpa using this
    refine ⟨by rw [hnext]; push_cast; ring, rfl, rfl, rfl, hmap, ?_⟩
    show (((Service.empty.run ops).accounts ++
        [(⟨(Service.empty.run ops).nextAccountID + 1, phone, 0⟩ : Account)]).map
          (fun a : Account => a.ID)).Nodup
    rw [hmap]
    exact (List.nodup_range' 1 _).map Nat.cast_injective

/-- After a registration, a deposit, a payment, a refused second registration of the
same phone and a rejection, the registration of a new phone is the second successful
one and returns the account with `ID` 2. -/
theorem RegisterAccount_sequential_witness :
    (⟨2, "92087398".toList, 0⟩ : Account).ID =
      ((Service.empty.registrations
        [.RegisterAccount "92087397".toList, .Deposit 1 100000,
          .Pay 1 1000 "auto".toList "p1".toList, .RegisterAccount "92087397".toList,
          .Reject "p1".toList] + 1 : Nat) : Int) :=
  (RegisterAccount_sequential
    [.RegisterAccount "92087397".toList, .Deposit 1 100000,
      .Pay 1 1000 "auto".toList "p1".toList, .RegisterAccount "92087397".toList,
      .Reject "p1".toList]
    "92087398".toList ⟨2, "92087398".toList, 0⟩
    ⟨2, [⟨1, "92087397".toList, 100000⟩, ⟨2, "92087398".toList, 0⟩],
      [⟨"p1".toList, 1, 1000, "auto".toList, PaymentStatusFail⟩], []⟩
    (by decide)).1

/-! ## SumPayments -/

/-- C4, the code at the inputs of the claim, every launched worker having run to
completion.  On the two payments of 100000 of `BenchmarkSumPayments_multiple`,
`SumPayments(1)` is 200000 and `SumPayments(2)` is 100000, where the benchmark wants
200000.  On payments of 1000, 2000 and 500, `SumPayments(1)` is 3500, `SumPayments(2)`
is 3000 and `SumPayments(3)` is 1000.  Each worker is started as `func(j, len)(i,
sliceLen)` and loops while `j < len`, with the chunk length as the bound of the index:
only the chunk that starts at index 0 is added. -/
theorem SumPayments_parallel_sums_first_chunk_only :
    Service.SumPayments ⟨1, [],
        [⟨"p1".toList, 1, 100000, "auto".toList, PaymentStatusInProgress⟩,
          ⟨"p2".toList, 1, 100000, "smth".toList, PaymentStatusInProgress⟩], []⟩ 1 =
        some 200000 ∧
      Service.SumPayments ⟨1, [],
        [⟨"p1".toList, 1, 100000, "auto".toList, PaymentStatusInProgress⟩,
          ⟨"p2".toList, 1, 100000, "smth".toList, PaymentStatusInProgress⟩], []⟩ 2 =
        some 100000 ∧
      Service.SumPayments ⟨1, [],
        [⟨"p1".toList, 1, 1000, [], PaymentStatusInProgress⟩,
          ⟨"p2".toList, 1, 2000, [], PaymentStatusFail⟩,
          ⟨"p3".toList, 1, 500, [], PaymentStatusInProgress⟩], []⟩ 1 = some 3500 ∧
      Service.SumPayments ⟨1, [],
        [⟨"p1".toList, 1, 1000, [], PaymentStatusInProgress⟩,
          ⟨"p2".toList, 1, 2000, [], PaymentStatusFail⟩,
          ⟨"p3".toList, 1, 500, [], PaymentStatusInProgress⟩], []⟩ 2 = some 3000 ∧
      Service.SumPayments ⟨1, [],
        [⟨"p1".toList, 1, 1000, [], PaymentStatusInProgress⟩,
          ⟨"p2".toList, 1, 2000, [], PaymentStatusFail⟩,
          ⟨"p3".toList, 1, 500, [], PaymentStatusInProgress⟩], []⟩ 3 = some 1000 := by
  decide

/-! ## Format B -/

/-- An account read by `ImportFromFile` has as balance the number its phone field
denotes: both are taken from the second field of the record. -/
theorem ImportFromFile_balance_is_phone (acc : GoString) (account : Account)
    (h : ImportFromFile.account acc = .ok account) :
    strconv.ParseInt account.Phone = .ok account.Balance := by
  unfold ImportFromFile.account at h
  dsimp only at h
  split at h
  · cases h
  · split at h
    · cases h
    · split at h
      · cases h
      · rename_i f1 _ balance hbal
        simp only [Except.ok.injEq] at h
        subst h
        exact hbal

/-- C5, the code at the input of the claim.  `ExportToFile` writes the account `{1,
"+992000000001", 900000}` as `1;+992000000001;900000|`, and `ImportFromFile` into an
empty store reads that file back as the account `{1, "+992000000001", 992000000001}`:
the balance is parsed from `account[1]`, the phone field, and not from `account[2]`. -/
theorem ExportToFile_ImportFromFile_balance_lost :
    Service.ExportToFile ⟨1, [⟨1, "+992000000001".toList, 900000⟩],
        [⟨"p1".toList, 1, 100000, "auto".toList, PaymentStatusInProgress⟩], []⟩
        [] "test.txt".toList =
        (.ok, [("test.txt".toList, "1;+992000000001;900000|".toList)]) ∧
      Service.ImportFromFile Service.empty
        [("test.txt".toList, "1;+992000000001;900000|".toList)] "test.txt".toList =
        (.ok, ⟨0, [⟨1, "+992000000001".toList, 992000000001⟩], [], []⟩) := by
  decide

/-! ## Decimal numbers: `strconv.FormatInt` and `strconv.ParseInt` -/

namespace strconv

theorem digitChar_spec : ∀ d, d < 10 →
    ('0' ≤ digitChar d ∧ digitChar d ≤ '9') ∧ (digitChar d).toNat - 48 = d ∧
      digitChar d ≠ ';' ∧ digitChar d ≠ '\n' ∧ digitChar d ≠ '|' ∧
      digitChar d ≠ '+' ∧ digitChar d ≠ '-' := by
  decide

theorem formatBits_digits (fuel n : Nat) :
    ∀ c ∈ formatBits fuel n, ∃ d, d < 10 ∧ c = digitChar d := by
  induction fuel generalizing n with
  | zero => simp [formatBits]
  | succ fuel ih =>
    intro c hc
    unfold formatBits at hc
    split at hc
    · rename_i hlt
      simp only [List.mem_singleton] at hc
      exact ⟨n, hlt, hc⟩
    · rcases List.mem_append.mp hc with h | h
      · exact ih _ c h
      · simp only [List.mem_singleton] at h
        exact ⟨n % 10, Nat.mod_lt _ (by decide), h⟩

theorem formatBits_ne_nil (fuel n : Nat) : formatBits (fuel + 1) n ≠ [] := by
  unfold formatBits
  split <;> simp

theorem parseStep_digit (n d : Nat) (hd : d < 10) (hn : n * 10 + d < 2 ^ 64) :
    parseStep n (digitChar d) = .ok (n * 10 + d) := by
  obtain ⟨hrange, hval, _⟩ := digitChar_spec d hd
  unfold parseStep
  rw [if_pos hrange]
  simp only [hval]
  have h1 : ¬ n ≥ (2 ^ 64 - 1) / 10 + 1 := by
    norm_num at hn ⊢
    omega
  have h2 : ¬ n * 10 + d > 2 ^ 64 - 1 := by
    norm_num at hn ⊢
    omega
  rw [if_neg h1, if_neg h2]

theorem foldlM_parseStep_formatBits (fuel n : Nat) (hfuel : n < fuel) (hn : n < 2 ^ 64) :
    (formatBits fuel n).foldlM parseStep 0 = .ok n := by
  induction fuel generalizing n with
  | zero => omega
  | succ fuel ih =>
    unfold formatBits
    split
    · rename_i hlt
      have := parseStep_digit 0 n hlt (by simpa using hn)
      simp only [Nat.zero_mul, Nat.zero_add] at this
      simp [List.foldlM, this]
    · rename_i hge
      have hdiv : n / 10 < fuel := by omega
      have hrec := ih (n / 10) hdiv (by omega)
      have hstep := parseStep_digit (n / 10) (n % 10) (Nat.mod_lt _ (by decide))
        (by omega)
      have hn' : n / 10 * 10 + n % 10 = n := by omega
      rw [hn'] at hstep
      rw [List.foldlM_append, hrec]
      simp [List.foldlM, bind, Except.bind, pure, Except.pure, hstep]

theorem ParseUint_formatBits (n : Nat) (hn : n < 2 ^ 64) :
    ParseUint (formatBits (n + 1) n) = .ok n := by
  unfold ParseUint
  rw [if_neg (formatBits_ne_nil n n)]
  exact foldlM_parseStep_formatBits (n + 1) n (Nat.lt_succ_self n) hn

/-- Reading back a written `int64` gives the number. -/
theorem ParseInt_FormatInt (i : Int) (hi : isInt64 i) : ParseInt (FormatInt i) = .ok i := by
  obtain ⟨hlo, hhi⟩ := hi
  unfold FormatInt
  by_cases hneg : i < 0
  · rw [if_pos hneg]
    have hun : i.natAbs < 2 ^ 64 := by omega
    have hle : ¬ (9223372036854775808 < i.natAbs) := by omega
    simp only [ParseInt, ParseUint_formatBits _ hun]
    simp [ParseUint_formatBits _ hun, hle]
    rw [abs_of_neg hneg, neg_neg]
  · rw [if_neg hneg]
    have hun : i.natAbs < 2 ^ 64 := by omega
    have hlt : ¬ (9223372036854775808 ≤ i.natAbs) := by omega
    have hparse := ParseUint_formatBits _ hun
    cases hfmt : formatBits (i.natAbs + 1) i.natAbs with
    | nil => exact absurd hfmt (formatBits_ne_nil _ _)
    | cons c cs =>
      obtain ⟨d, hd, hc⟩ := formatBits_digits (i.natAbs + 1) i.natAbs c (by simp [hfmt])
      obtain ⟨_, _, _, _, _, hplus, hminus⟩ := digitChar_spec d hd
      rw [← hc] at hplus hminus
      rw [hfmt] at hparse
      simp only [ParseInt, hplus, hminus, or_self, if_false, hparse]
      simp [hlt]
      exact not_lt.mp hneg

/-- A written number holds no field, record or line separator. -/
theorem FormatInt_chars (i : Int) : ∀ c ∈ FormatInt i, c ≠ ';' ∧ c ≠ '\n' ∧ c ≠ '|' := by
  have hdigits : ∀ c ∈ formatBits (i.natAbs + 1) i.natAbs, c ≠ ';' ∧ c ≠ '\n' ∧ c ≠ '|' := by
    intro c hc
    obtain ⟨d, hd, rfl⟩ := formatBits_digits _ _ c hc
    obtain ⟨_, _, h1, h2, h3, _, _⟩ := digitChar_spec d hd
    exact ⟨h1, h2, h3⟩
  intro c hc
  unfold FormatInt at hc
  split at hc
  · rcases List.mem_cons.mp hc with h | h
    · subst h
      decide
    · exact hdigits c h
  · exact hdigits c hc

end strconv

/-! ## Splitting and reading lines -/

namespace strings

theorem Split_of_not_mem (w : GoString) (sep : Char) (h : sep ∉ w) : Split w sep = [w] := by
  induction w with
  | nil => rfl
  | cons c cs ih =>
    have hc : c ≠ sep := fun e => h (by simp [e])
    have hcs : sep ∉ cs := fun hmem => h (List.mem_cons_of_mem _ hmem)
    simp [Split, hc, ih hcs]

theorem Split_append_sep (w rest : GoString) (sep : Char) (h : sep ∉ w) :
    Split (w ++ sep :: rest) sep = w :: Split rest sep := by
  induction w with
  | nil => simp [Split]
  | cons c cs ih =>
    have hc : c ≠ sep := fun e => h (by simp [e])
    have hcs : sep ∉ cs := fun hmem => h (List.mem_cons_of_mem _ hmem)
    simp [Split, hc, ih hcs]

end strings

namespace bufio

theorem readLinesFrom_line (cur w rest : GoString) (h : '\n' ∉ w) :
    readLinesFrom cur (w ++ '\n' :: rest) = (cur ++ w ++ ['\n']) :: readLinesFrom [] rest := by
  induction w generalizing cur with
  | nil => simp [readLinesFrom]
  | cons c cs ih =>
    have hc : c ≠ '\n' := fun e => h (by simp [e])
    have hcs : '\n' ∉ cs := fun hmem => h (List.mem_cons_of_mem _ hmem)
    simp [readLinesFrom, hc, ih (cur ++ [c]) hcs]

/-- A file made of newline-terminated records is read back record by record. -/
theorem readLines_records {α : Type} (body : α → GoString) (xs : List α)
    (h : ∀ x ∈ xs, '\n' ∉ body x) :
    readLines (xs.flatMap (fun x => body x ++ ['\n'])) = xs.map (fun x => body x ++ ['\n']) := by
  unfold readLines
  induction xs with
  | nil => simp [readLinesFrom]
  | cons x xs ih =>
    have hx := h x (by simp)
    have hxs : ∀ y ∈ xs, '\n' ∉ body y := fun y hy => h y (List.mem_cons_of_mem _ hy)
    simp only [List.flatMap_cons, List.map_cons, List.append_assoc, List.singleton_append]
    rw [readLinesFrom_line [] (body x) _ hx, ih hxs]
    simp

end bufio

/-! ## Format A records -/

theorem FormatInt_no_semicolon (i : Int) : ';' ∉ strconv.FormatInt i :=
  fun h => (strconv.FormatInt_chars i _ h).1 rfl

theorem FormatInt_no_newline (i : Int) : '\n' ∉ strconv.FormatInt i :=
  fun h => (strconv.FormatInt_chars i _ h).2.1 rfl

theorem FormatInt_no_bar (i : Int) : '|' ∉ strconv.FormatInt i :=
  fun h => (strconv.FormatInt_chars i _ h).2.2 rfl

/-- The accounts loop of `Import` reads a written account back. -/
theorem Import_account_accountLine (a : Account) (hid : isInt64 a.ID) (hbal : isInt64 a.Balance)
    (hsemi : ';' ∉ a.Phone) (hnl : '\n' ∉ a.Phone) :
    Import.account (accountLine a) = .ok a := by
  have hline : accountLine a =
      (strconv.FormatInt a.ID ++ ';' :: (a.Phone ++ ';' :: strconv.FormatInt a.Balance)) ++
        '\n' :: [] := by
    simp [accountLine, List.append_assoc]
  have hbody : '\n' ∉
      strconv.FormatInt a.ID ++ ';' :: (a.Phone ++ ';' :: strconv.FormatInt a.Balance) := by
    simp only [List.mem_append, List.mem_cons, not_or]
    exact ⟨FormatInt_no_newline _, by decide, hnl, by decide, FormatInt_no_newline _⟩
  unfold Import.account
  rw [hline, strings.Split_append_sep _ _ _ hbody]
  simp only [List.headD_cons]
  rw [strings.Split_append_sep _ _ _ (FormatInt_no_semicolon _),
    strings.Split_append_sep _ _ _ hsemi,
    strings.Split_of_not_mem _ _ (FormatInt_no_semicolon _)]
  simp [strconv.ParseInt_FormatInt _ hid, strconv.ParseInt_FormatInt _ hbal]

/-- The payments loop of `Import` reads a written payment back. -/
theorem Import_payment_paymentLine (p : Payment) (hacc : isInt64 p.AccountID)
    (hamount : isInt64 p.Amount)
    (hid : ';' ∉ p.ID ∧ '\n' ∉ p.ID) (hcat : ';' ∉ p.Category ∧ '\n' ∉ p.Category)
    (hstatus : ';' ∉ p.Status ∧ '\n' ∉ p.Status) :
    Import.payment (paymentLine p) = .ok p := by
  have hline : paymentLine p =
      (p.ID ++ ';' :: (strconv.FormatInt p.AccountID ++ ';' :: (strconv.FormatInt p.Amount ++
        ';' :: (p.Category ++ ';' :: p.Status)))) ++ '\n' :: [] := by
    simp [paymentLine, List.append_assoc]
  have hbody : '\n' ∉
      p.ID ++ ';' :: (strconv.FormatInt p.AccountID ++ ';' :: (strconv.FormatInt p.Amount ++
        ';' :: (p.Category ++ ';' :: p.Status))) := by
    simp only [List.mem_append, List.mem_cons, not_or]
    exact ⟨hid.2, by decide, FormatInt_no_newline _, by decide, FormatInt_no_newline _,
      by decide, hcat.2, by decide, hstatus.2⟩
  unfold Import.payment
  rw [hline, strings.Split_append_sep _ _ _ hbody]
  simp only [List.headD_cons]
  rw [strings.Split_append_sep _ _ _ hid.1,
    strings.Split_append_sep _ _ _ (FormatInt_no_semicolon _),
    strings.Split_append_sep _ _ _ (FormatInt_no_semicolon _),
    strings.Split_append_sep _ _ _ hcat.1,
    strings.Split_of_not_mem _ _ hstatus.1]
  simp [strconv.ParseInt_FormatInt _ hacc, strconv.ParseInt_FormatInt _ hamount]

/-- The favorites loop of `Import` reads a written favorite back. -/
theorem Import_favorite_favoriteLine (f : Favorite) (hacc : isInt64 f.AccountID)
    (hamount : isInt64 f.Amount)
    (hid : ';' ∉ f.ID ∧ '\n' ∉ f.ID) (hname : ';' ∉ f.Name ∧ '\n' ∉ f.Name)
    (hcat : ';' ∉ f.Category ∧ '\n' ∉ f.Category) :
    Import.favorite (favoriteLine f) = .ok f := by
  have hline : favoriteLine f =
      (f.ID ++ ';' :: (strconv.FormatInt f.AccountID ++ ';' :: (strconv.FormatInt f.Amount ++
        ';' :: (f.Name ++ ';' :: f.Category)))) ++ '\n' :: [] := by
    simp [favoriteLine, List.append_assoc]
  have hbody : '\n' ∉
      f.ID ++ ';' :: (strconv.FormatInt f.AccountID ++ ';' :: (strconv.FormatInt f.Amount ++
        ';' :: (f.Name ++ ';' :: f.Category))) := by
    simp only [List.mem_append, List.mem_cons, not_or]
    exact ⟨hid.2, by decide, FormatInt_no_newline _, by decide, FormatInt_no_newline _,
      by decide, hname.2, by decide, hcat.2⟩
  unfold Import.favorite
  rw [hline, strings.Split_append_sep _ _ _ hbody]
  simp only [List.headD_cons]
  rw [strings.Split_append_sep _ _ _ hid.1,
    strings.Split_append_sep _ _ _ (FormatInt_no_semicolon _),
    strings.Split_append_sep _ _ _ (FormatInt_no_semicolon _),
    strings.Split_append_sep _ _ _ hname.1,
    strings.Split_of_not_mem _ _ hcat.1]
  simp [strconv.ParseInt_FormatInt _ hacc, strconv.ParseInt_FormatInt _ hamount]

/-! ## Files -/

namespace os

theorem Create_new (fs : FileSystem) (name : GoString) (h : ∀ f ∈ fs, f.1 ≠ name) :
    Create fs name = fs ++ [(name, [])] := by
  unfold Create
  rw [List.filter_eq_self.mpr]
  intro f hf
  simpa using h f hf

theorem Write_last (pre : FileSystem) (name content data : GoString)
    (h : ∀ f ∈ pre, f.1 ≠ name) :
    Write (pre ++ [(name, content)]) name data = pre ++ [(name, content ++ data)] := by
  unfold Write
  rw [List.map_append]
  congr 1
  · conv_rhs => rw [← List.map_id pre]
    apply List.map_congr_left
    intro f hf
    simp [h f hf]
  · simp

/-- The writes of the records of a list to the file created last append the records
to it, in the order of the list. -/
theorem foldl_Write {α : Type} (line : α → GoString) (xs : List α) (pre : FileSystem)
    (name content : GoString) (h : ∀ f ∈ pre, f.1 ≠ name) :
    xs.foldl (fun fs x => Write fs name (line x)) (pre ++ [(name, content)]) =
      pre ++ [(name, content ++ xs.flatMap line)] := by
  induction xs generalizing content with
  | nil => simp
  | cons x xs ih =>
    simp only [List.foldl_cons, List.flatMap_cons]
    rw [Write_last _ _ _ _ h, ih]
    simp [List.append_assoc]

theorem Open_last (pre : FileSystem) (name content : GoString) (h : ∀ f ∈ pre, f.1 ≠ name) :
    Open (pre ++ [(name, content)]) name = some content := by
  unfold Open
  rw [List.find?_append]
  have : pre.find? (fun f => f.1 == name) = none := by
    rw [List.find?_eq_none]
    intro f hf
    simpa using h f hf
  simp [this]

theorem Open_append_other (fs : FileSystem) (name other content : GoString)
    (h : other ≠ name) : Open (fs ++ [(other, content)]) name = Open fs name := by
  unfold Open
  rw [List.find?_append]
  cases hfind : fs.find? (fun f => f.1 == name) with
  | some f => simp
  | none => simp [h]

end os

/-! ## Format A: `Export` then `Import` -/

theorem accountLine_body (a : Account) :
    accountLine a =
      (strconv.FormatInt a.ID ++ ';' :: (a.Phone ++ ';' :: strconv.FormatInt a.Balance)) ++
        ['\n'] := by
  simp [accountLine, List.append_assoc]

theorem paymentLine_body (p : Payment) :
    paymentLine p =
      (p.ID ++ ';' :: (strconv.FormatInt p.AccountID ++ ';' :: (strconv.FormatInt p.Amount ++
        ';' :: (p.Category ++ ';' :: p.Status)))) ++ ['\n'] := by
  simp [paymentLine, List.append_assoc]

theorem favoriteLine_body (f : Favorite) :
    favoriteLine f =
      (f.ID ++ ';' :: (strconv.FormatInt f.AccountID ++ ';' :: (strconv.FormatInt f.Amount ++
        ';' :: (f.Name ++ ';' :: f.Category)))) ++ ['\n'] := by
  simp [favoriteLine, List.append_assoc]

/-- The lines read from a written accounts file are the written records. -/
theorem readLines_accounts (xs : List Account) (h : ∀ a ∈ xs, '\n' ∉ a.Phone) :
    bufio.readLines (xs.flatMap accountLine) = xs.map accountLine := by
  have hfun : accountLine = fun a =>
      (strconv.FormatInt a.ID ++ ';' :: (a.Phone ++ ';' :: strconv.FormatInt a.Balance)) ++
        ['\n'] := funext accountLine_body
  rw [hfun]
  apply bufio.readLines_records
  intro a ha
  simp only [List.mem_append, List.mem_cons, not_or]
  exact ⟨FormatInt_no_newline _, by decide, h a ha, by decide, FormatInt_no_newline _⟩

/-- The lines read from a written payments file are the written records. -/
theorem readLines_payments (xs : List Payment)
    (h : ∀ p ∈ xs, '\n' ∉ p.ID ∧ '\n' ∉ p.Category ∧ '\n' ∉ p.Status) :
    bufio.readLines (xs.flatMap paymentLine) = xs.map paymentLine := by
  have hfun : paymentLine = fun p =>
      (p.ID ++ ';' :: (strconv.FormatInt p.AccountID ++ ';' :: (strconv.FormatInt p.Amount ++
        ';' :: (p.Category ++ ';' :: p.Status)))) ++ ['\n'] := funext paymentLine_body
  rw [hfun]
  apply bufio.readLines_records
  intro p hp
  simp only [List.mem_append, List.mem_cons, not_or]
  exact ⟨(h p hp).1, by decide, FormatInt_no_newline _, by decide, FormatInt_no_newline _,
    by decide, (h p hp).2.1, by decide, (h p hp).2.2⟩

/-- The lines read from a written favorites file are the written records. -/
theorem readLines_favorites (xs : List Favorite)
    (h : ∀ f ∈ xs, '\n' ∉ f.ID ∧ '\n' ∉ f.Name ∧ '\n' ∉ f.Category) :
    bufio.readLines (xs.flatMap favoriteLine) = xs.map favoriteLine := by
  have hfun : favoriteLine = fun f =>
      (f.ID ++ ';' :: (strconv.FormatInt f.AccountID ++ ';' :: (strconv.FormatInt f.Amount ++
        ';' :: (f.Name ++ ';' :: f.Category)))) ++ ['\n'] := funext favoriteLine_body
  rw [hfun]
  apply bufio.readLines_records
  intro f hf
  simp only [List.mem_append, List.mem_cons, not_or]
  exact ⟨(h f hf).1, by decide, FormatInt_no_newline _, by decide, FormatInt_no_newline _,
    by decide, (h f hf).2.1, by decide, (h f hf).2.2⟩

/-- The accounts loop appends the written accounts, in order. -/
theorem Import_accounts_lines (xs : List Account) (s : Service)
    (h : ∀ a ∈ xs, isInt64 a.ID ∧ isInt64 a.Balance ∧ ';' ∉ a.Phone ∧ '\n' ∉ a.Phone) :
    Import.accounts (xs.map accountLine) s = (.ok, { s with accounts := s.accounts ++ xs }) := by
  induction xs generalizing s with
  | nil => simp [Import.accounts]
  | cons a xs ih =>
    obtain ⟨h1, h2, h3, h4⟩ := h a (by simp)
    simp only [List.map_cons, Import.accounts, Import_account_accountLine a h1 h2 h3 h4]
    rw [ih _ (fun b hb => h b (List.mem_cons_of_mem _ hb))]
    simp [List.append_assoc]

/-- The payments loop appends the written payments, in order. -/
theorem Import_payments_lines (xs : List Payment) (s : Service)
    (h : ∀ p ∈ xs, (isInt64 p.AccountID ∧ isInt64 p.Amount) ∧ (';' ∉ p.ID ∧ '\n' ∉ p.ID) ∧
      (';' ∉ p.Category ∧ '\n' ∉ p.Category) ∧ (';' ∉ p.Status ∧ '\n' ∉ p.Status)) :
    Import.payments (xs.map paymentLine) s = (.ok, { s with payments := s.payments ++ xs }) := by
  induction xs generalizing s with
  | nil => simp [Import.payments]
  | cons p xs ih =>
    obtain ⟨⟨h1, h2⟩, h3, h4, h5⟩ := h p (by simp)
    simp only [List.map_cons, Import.payments, Import_payment_paymentLine p h1 h2 h3 h4 h5]
    rw [ih _ (fun b hb => h b (List.mem_cons_of_mem _ hb))]
    simp [List.append_assoc]

/-- The favorites loop appends the written favorites, in order. -/
theorem Import_favorites_lines (xs : List Favorite) (s : Service)
    (h : ∀ f ∈ xs, (isInt64 f.AccountID ∧ isInt64 f.Amount) ∧ (';' ∉ f.ID ∧ '\n' ∉ f.ID) ∧
      (';' ∉ f.Name ∧ '\n' ∉ f.Name) ∧ (';' ∉ f.Category ∧ '\n' ∉ f.Category)) :
    Import.favorites (xs.map favoriteLine) s =
      (.ok, { s with favorites := s.favorites ++ xs }) := by
  induction xs generalizing s with
  | nil => simp [Import.favorites]
  | cons f xs ih =>
    obtain ⟨⟨h1, h2⟩, h3, h4, h5⟩ := h f (by simp)
    simp only [List.map_cons, Import.favorites, Import_favorite_favoriteLine f h1 h2 h3 h4 h5]
    rw [ih _ (fun b hb => h b (List.mem_cons_of_mem _ hb))]
    simp [List.append_assoc]

theorem dump_names_ne (dir : GoString) :
    dir ++ "/accounts.dump".toList ≠ dir ++ "/payments.dump".toList ∧
      dir ++ "/accounts.dump".toList ≠ dir ++ "/favorites.dump".toList ∧
      dir ++ "/payments.dump".toList ≠ dir ++ "/favorites.dump".toList := by
  refine ⟨fun h => ?_, fun h => ?_, fun h => ?_⟩ <;>
    exact absurd (List.append_cancel_left h) (by decide)

/-- The files `Export` leaves in an empty directory, for a store with accounts and
payments: `accounts.dump` and `payments.dump` with one line per record, and
`favorites.dump` when there are favorites. -/
theorem Export_files (s : Service) (dir : GoString) (haccounts : s.accounts ≠ [])
    (hpayments : s.payments ≠ []) :
    s.Export [] dir =
      (.ok, [(dir ++ "/accounts.dump".toList, s.accounts.flatMap accountLine),
          (dir ++ "/payments.dump".toList, s.payments.flatMap paymentLine)] ++
        (if s.favorites = [] then []
          else [(dir ++ "/favorites.dump".toList, s.favorites.flatMap favoriteLine)])) := by
  obtain ⟨hap, haf, hpf⟩ := dump_names_ne dir
  unfold Service.Export
  generalize dir ++ "/accounts.dump".toList = accF at hap haf ⊢
  generalize dir ++ "/payments.dump".toList = payF at hap hpf ⊢
  generalize dir ++ "/favorites.dump".toList = favF at haf hpf ⊢
  have h1 : os.Create [] accF = [(accF, [])] := os.Create_new _ _ (by simp)
  have h2 : s.accounts.foldl (fun fs x => os.Write fs accF (accountLine x)) [(accF, [])] =
      [(accF, s.accounts.flatMap accountLine)] :=
    os.foldl_Write accountLine s.accounts [] accF [] (by simp)
  have h3 : os.Create [(accF, s.accounts.flatMap accountLine)] payF =
      [(accF, s.accounts.flatMap accountLine), (payF, [])] :=
    os.Create_new _ _ (by simp [hap])
  have h4 : s.payments.foldl (fun fs x => os.Write fs payF (paymentLine x))
      [(accF, s.accounts.flatMap accountLine), (payF, [])] =
      [(accF, s.accounts.flatMap accountLine), (payF, s.payments.flatMap paymentLine)] :=
    os.foldl_Write paymentLine s.payments [(accF, s.accounts.flatMap accountLine)] payF []
      (by simp [hap])
  have h5 : os.Create
      [(accF, s.accounts.flatMap accountLine), (payF, s.payments.flatMap paymentLine)] favF =
      [(accF, s.accounts.flatMap accountLine), (payF, s.payments.flatMap paymentLine),
        (favF, [])] :=
    os.Create_new _ _ (by simp [haf, hpf])
  have h6 : s.favorites.foldl (fun fs x => os.Write fs favF (favoriteLine x))
      [(accF, s.accounts.flatMap accountLine), (payF, s.payments.flatMap paymentLine),
        (favF, [])] =
      [(accF, s.accounts.flatMap accountLine), (payF, s.payments.flatMap paymentLine),
        (favF, s.favorites.flatMap favoriteLine)] :=
    os.foldl_Write favoriteLine s.favorites
      [(accF, s.accounts.flatMap accountLine), (payF, s.payments.flatMap paymentLine)] favF []
      (by simp [haf, hpf])
  rw [if_neg haccounts]
  simp only [h1, h2, if_neg hpayments, h3, h4]
  by_cases hfav : s.favorites = []
  · rw [if_pos hfav, if_pos hfav]
    rfl
  · rw [if_neg hfav, if_neg hfav]
    simp only [h5, h6]
    rfl

/-- C6. For a store with at least one account and one payment, whose numbers are
`int64` values and whose string fields hold neither `;` nor a newline, `Export` into an
empty directory returns a nil error and `Import` of that directory into the empty store
returns a nil error and yields the account, payment and favorite lists of the exported
store, element by element and in the same order.  `accounts.dump` and `payments.dump`
are written; when the store has no favorites, `favorites.dump` is not written and the
imported favorite list is empty. -/
theorem Export_Import_roundtrip (s : Service) (dir : GoString)
    (haccounts : s.accounts ≠ []) (hpayments : s.payments ≠ [])
    (hint : s.int64Values) (hclean : s.cleanFields) :
    (s.Export [] dir).1 = .ok ∧
      Service.empty.Import (s.Export [] dir).2 dir =
        (.ok, ⟨0, s.accounts, s.payments, s.favorites⟩) ∧
      os.Open (s.Export [] dir).2 (dir ++ "/accounts.dump".toList) =
        some (s.accounts.flatMap accountLine) ∧
      os.Open (s.Export [] dir).2 (dir ++ "/payments.dump".toList) =
        some (s.payments.flatMap paymentLine) ∧
      (s.favorites = [] →
        os.Open (s.Export [] dir).2 (dir ++ "/favorites.dump".toList) = none) := by
  obtain ⟨hintA, hintP, hintF⟩ := hint
  obtain ⟨hcleanA, hcleanP, hcleanF⟩ := hclean
  obtain ⟨hap, haf, hpf⟩ := dump_names_ne dir
  rw [Export_files s dir haccounts hpayments]
  unfold Service.Import
  generalize dir ++ "/accounts.dump".toList = accF at hap haf ⊢
  generalize dir ++ "/payments.dump".toList = payF at hap hpf ⊢
  generalize dir ++ "/favorites.dump".toList = favF at haf hpf ⊢
  have hapb : (accF == payF) = false := by simpa using hap
  have hafb : (accF == favF) = false := by simpa using haf
  have hpfb : (payF == favF) = false := by simpa using hpf
  have hopenA : os.Open
      (([(accF, s.accounts.flatMap accountLine), (payF, s.payments.flatMap paymentLine)] ++
        (if s.favorites = [] then [] else [(favF, s.favorites.flatMap favoriteLine)]) :
          FileSystem)) accF = some (s.accounts.flatMap accountLine) := by
    simp [os.Open, List.find?]
  have hopenP : os.Open
      (([(accF, s.accounts.flatMap accountLine), (payF, s.payments.flatMap paymentLine)] ++
        (if s.favorites = [] then [] else [(favF, s.favorites.flatMap favoriteLine)]) :
          FileSystem)) payF = some (s.payments.flatMap paymentLine) := by
    simp [os.Open, List.find?, hapb]
  have hopenF : os.Open
      (([(accF, s.accounts.flatMap accountLine), (payF, s.payments.flatMap paymentLine)] ++
        (if s.favorites = [] then [] else [(favF, s.favorites.flatMap favoriteLine)]) :
          FileSystem)) favF =
      if s.favorites = [] then none else some (s.favorites.flatMap favoriteLine) := by
    by_cases hfav : s.favorites = []
    · simp [os.Open, List.find?, hafb, hpfb, hfav]
    · simp [os.Open, List.find?, hafb, hpfb, hfav]
  have hreadA := readLines_accounts s.accounts (fun a ha => (hcleanA a ha).2)
  have hreadP := readLines_payments s.payments
    (fun p hp => ⟨(hcleanP p hp).1.2, (hcleanP p hp).2.1.2, (hcleanP p hp).2.2.2⟩)
  have hreadF := readLines_favorites s.favorites
    (fun f hf => ⟨(hcleanF f hf).1.2, (hcleanF f hf).2.1.2, (hcleanF f hf).2.2.2⟩)
  have himpA := Import_accounts_lines s.accounts Service.empty
    (fun a ha => ⟨(hintA a ha).1, (hintA a ha).2, (hcleanA a ha).1, (hcleanA a ha).2⟩)
  have himpP := Import_payments_lines s.payments
    { Service.empty with accounts := Service.empty.accounts ++ s.accounts }
    (fun p hp => ⟨hintP p hp, hcleanP p hp⟩)
  have himpF := Import_favorites_lines s.favorites
    { Service.empty with accounts := Service.empty.accounts ++ s.accounts,
                         payments := Service.empty.payments ++ s.payments }
    (fun f hf => ⟨hintF f hf, hcleanF f hf⟩)
  refine ⟨rfl, ?_, hopenA, hopenP, ?_⟩
  · simp only [hopenA, hreadA, himpA, hopenP, hreadP, himpP, hopenF]
    by_cases hfav : s.favorites = []
    · simp [hfav, Service.empty]
    · simp only [if_neg hfav, hreadF, himpF]
      simp [Service.empty]
  · intro hfav
    rw [hopenF, if_pos hfav]

/-- The store of the test `TestService_ExportImport`: one account, one payment, no
favorite. -/
theorem Export_Import_roundtrip_witness :
    Service.Import Service.empty
        (Service.Export ⟨1, [⟨1, "+992000000001".toList, 900000⟩],
          [⟨"p1".toList, 1, 100000, "auto".toList, PaymentStatusInProgress⟩], []⟩
          [] "data".toList).2 "data".toList =
      (.ok, ⟨0, [⟨1, "+992000000001".toList, 900000⟩],
        [⟨"p1".toList, 1, 100000, "auto".toList, PaymentStatusInProgress⟩], []⟩) :=
  (Export_Import_roundtrip ⟨1, [⟨1, "+992000000001".toList, 900000⟩],
      [⟨"p1".toList, 1, 100000, "auto".toList, PaymentStatusInProgress⟩], []⟩
    "data".toList (by decide) (by decide) (by decide) (by decide)).2.1

/-! ## The chunk loop of `SumPayments`, in general -/

/-- A worker whose index starts at or after its bound adds nothing. -/
theorem SumPayments.worker_skip (payments : List Payment) (j len : Nat) (sum : Int)
    (h : len ≤ j) : SumPayments.worker payments j len sum = some sum := by
  unfold SumPayments.worker
  rw [Nat.sub_eq_zero_of_le h]
  rfl

theorem SumPayments.worker_range (payments : List Payment) (m j : Nat) (sum : Int)
    (hsum : isInt64 sum) (h : j + m ≤ payments.length) :
    (List.range' j m).foldlM
        (fun acc k => match payments[k]? with
          | some payment => some (toInt64 (acc + payment.Amount))
          | none => none) sum =
      some (toInt64 (sum + (((payments.drop j).take m).map (fun p => p.Amount)).sum)) := by
  induction m generalizing j sum with
  | zero => simp [toInt64_of_isInt64 _ hsum]
  | succ m ih =>
    have hj : j < payments.length := by omega
    have hdrop : payments.drop j = payments[j] :: payments.drop (j + 1) :=
      List.drop_eq_getElem_cons hj
    rw [List.range'_succ, List.foldlM_cons, List.getElem?_eq_getElem hj]
    simp only [Option.bind_eq_bind, Option.some_bind]
    rw [ih (j + 1) _ (isInt64_toInt64 _) (by omega), hdrop, toInt64_toInt64_add]
    simp only [List.take_succ_cons, List.map_cons, List.sum_cons, add_assoc]

/-- The worker of the chunk that starts at index 0 adds the chunk. -/
theorem SumPayments.worker_first (payments : List Payment) (len : Nat) (sum : Int)
    (hsum : isInt64 sum) (h : len ≤ payments.length) :
    SumPayments.worker payments 0 len sum =
      some (toInt64 (sum + ((payments.take len).map (fun p => p.Amount)).sum)) := by
  have := SumPayments.worker_range payments len 0 sum hsum (by omega)
  simpa [SumPayments.worker] using this

/-- Once the index of the chunk loop has reached the chunk length, the remaining
iterations leave the total as it is, and the loop ends within the fuel. -/
theorem SumPayments.loop_rest (payments : List Payment) (fuel i sliceLen : Nat) (sum : Int)
    (h1 : 1 ≤ sliceLen) (h2 : sliceLen ≤ i) (hfuel : payments.length ≤ i + fuel) :
    SumPayments.loop payments (fuel + 1) i sliceLen sum = some sum := by
  induction fuel generalizing i sliceLen with
  | zero =>
    unfold SumPayments.loop
    rw [if_neg (by omega)]
  | succ fuel ih =>
    unfold SumPayments.loop
    by_cases hi : i < payments.length
    · rw [if_pos hi]
      dsimp only
      by_cases hlast : i + sliceLen > payments.length
      · rw [if_pos hlast, SumPayments.worker_skip _ _ _ _ (by omega)]
        exact ih _ _ (by omega) (by omega) (by omega)
      · rw [if_neg hlast, SumPayments.worker_skip _ _ _ _ h2]
        exact ih _ _ h1 (by omega) (by omega)
    · rw [if_neg hi]

/-- With two or more goroutines, and every launched worker run to completion,
`SumPayments` returns the `int64` sum of the first chunk of `ceil(len / goroutines)`
payments. -/
theorem SumPayments_parallel (s : Service) (goroutines : Int) (hg : 2 ≤ goroutines) :
    s.SumPayments goroutines =
      some (toInt64 (((s.payments.take
        ((s.payments.length + goroutines.toNat - 1) / goroutines.toNat)).map
          (fun p => p.Amount)).sum)) := by
  have hg1 : ¬ goroutines ≤ 1 := by omega
  have hgn : 2 ≤ goroutines.toNat := by omega
  unfold Service.SumPayments
  rw [if_neg hg1]
  dsimp only
  generalize goroutines.toNat = g at hgn
  by_cases hlen : s.payments.length = 0
  · have hnil : s.payments = [] := List.length_eq_zero.mp hlen
    simp [hnil, SumPayments.loop]
    decide
  · have hc1 : 1 ≤ (s.payments.length + g - 1) / g := by
      rw [Nat.le_div_iff_mul_le (by omega)]
      omega
    have hc2 : (s.payments.length + g - 1) / g ≤ s.payments.length := by
      apply Nat.div_le_of_le_mul
      have : s.payments.length ≤ g * s.payments.length - (g - 1) * 1 := by
        have h2 : (g - 1) * 1 ≤ (g - 1) * s.payments.length :=
          Nat.mul_le_mul_left _ (by omega)
        have h3 : g * s.payments.length =
            (g - 1) * s.payments.length + s.payments.length := by
          conv_lhs => rw [show g = (g - 1) + 1 by omega]
          rw [Nat.add_mul, Nat.one_mul]
        omega
      omega
    generalize (s.payments.length + g - 1) / g = c at hc1 hc2
    unfold SumPayments.loop
    rw [if_pos (by omega)]
    dsimp only
    rw [Nat.zero_add, if_neg (by omega),
      SumPayments.worker_first _ _ _ (by decide) hc2]
    dsimp only
    obtain ⟨n, hn⟩ : ∃ n, s.payments.length = n + 1 := ⟨s.payments.length - 1, by omega⟩
    rw [hn, Nat.zero_add, zero_add]
    exact SumPayments.loop_rest s.payments n c c _ hc1 (le_refl c) (by omega)

/-! ## Failing calls -/

/-- A failing `Pay` leaves the store as it is. -/
theorem Pay_error_store (s : Service) (accountID : Int) (amount : Money)
    (category : PaymentCategory) (paymentID : GoString) (e : Error)
    (h : (s.Pay accountID amount category paymentID).1 = .error e) :
    (s.Pay accountID amount category paymentID).2 = s := by
  unfold Service.Pay at h ⊢
  split
  · rfl
  · cases hfind : findFirst (fun acc => acc.ID == accountID) s.accounts with
    | none => rfl
    | some r =>
      obtain ⟨i, account⟩ := r
      rw [if_neg (by assumption), hfind] at h
      dsimp only at h ⊢
      split
      · rfl
      · rw [if_neg (by assumption)] at h
        cases h

/-- C14. When a call of `Deposit`, `Reject`, `Repeat`, `FavoritePayment` or
`PayFromFavorite` returns an error, whatever its arguments, the store after the call
(id counter, accounts with their balances, payments with their statuses, favorites) is
the store before the call. -/
theorem failed_call_leaves_store (s : Service) :
    (∀ accountID amount e, (s.Deposit accountID amount).1 = .error e →
      (s.Deposit accountID amount).2 = s) ∧
    (∀ paymentID e, (s.Reject paymentID).1 = .error e → (s.Reject paymentID).2 = s) ∧
    (∀ paymentID newID e, (s.Repeat paymentID newID).1 = .error e →
      (s.Repeat paymentID newID).2 = s) ∧
    (∀ paymentID name favoriteID e, (s.FavoritePayment paymentID name favoriteID).1 = .error e →
      (s.FavoritePayment paymentID name favoriteID).2 = s) ∧
    (∀ favoriteID newID e, (s.PayFromFavorite favoriteID newID).1 = .error e →
      (s.PayFromFavorite favoriteID newID).2 = s) := by
  refine ⟨?_, ?_, ?_, ?_, ?_⟩
  · intro accountID amount e h
    unfold Service.Deposit at h ⊢
    split
    · rfl
    · rw [if_neg (by assumption)] at h
      cases hfind : s.FindAccountByID accountID with
      | error err => rfl
      | ok r =>
        rw [hfind] at h
        cases h
  · intro paymentID e h
    unfold Service.Reject at h ⊢
    cases hp : s.FindPaymentByID paymentID with
    | error err => rfl
    | ok r =>
      obtain ⟨k, payment⟩ := r
      rw [hp] at h
      dsimp only at h ⊢
      cases ha : s.FindAccountByID payment.AccountID with
      | error err => rfl
      | ok r =>
        rw [ha] at h
        cases h
  · intro paymentID newID e h
    unfold Service.Repeat at h ⊢
    cases hp : s.FindPaymentByID paymentID with
    | error err => rfl
    | ok r =>
      rw [hp] at h
      exact Pay_error_store s _ _ _ _ e h
  · intro paymentID name favoriteID e h
    unfold Service.FavoritePayment at h ⊢
    cases hp : s.FindPaymentByID paymentID with
    | error err => rfl
    | ok r =>
      rw [hp] at h
      cases h
  · intro favoriteID newID e h
    unfold Service.PayFromFavorite at h ⊢
    cases hf : s.FindFavoriteByID favoriteID with
    | error err => rfl
    | ok r =>
      rw [hf] at h
      exact Pay_error_store s _ _ _ _ e h

/-- The five calls fail on the store of the tests: a deposit of 0, the rejection and
the repetition of an unknown payment, a favorite of an unknown payment and a payment
from an unknown favorite. -/
theorem failed_call_leaves_store_witness :
    (Service.Deposit ⟨1, [⟨1, "+992000000001".toList, 900000⟩],
        [⟨"p1".toList, 1, 100000, "auto".toList, PaymentStatusInProgress⟩], []⟩ 1 0).2 =
        ⟨1, [⟨1, "+992000000001".toList, 900000⟩],
          [⟨"p1".toList, 1, 100000, "auto".toList, PaymentStatusInProgress⟩], []⟩ ∧
      (Service.Reject ⟨1, [⟨1, "+992000000001".toList, 900000⟩],
        [⟨"p1".toList, 1, 100000, "auto".toList, PaymentStatusInProgress⟩], []⟩
        "asdc".toList).2 =
        ⟨1, [⟨1, "+992000000001".toList, 900000⟩],
          [⟨"p1".toList, 1, 100000, "auto".toList, PaymentStatusInProgress⟩], []⟩ :=
  ⟨(failed_call_leaves_store _).1 1 0 .ErrAmountMustBePositive (by decide),
    (failed_call_leaves_store _).2.1 "asdc".toList .ErrPaymentNotFound (by decide)⟩

/-! ## Deposit -/

/-- C15, the claim as stated fails.  After a registration and a deposit of
9223372036854775807, the largest `int64` value, the account with id 1 has that balance;
a deposit of 1 then returns a nil error and leaves the balance -9223372036854775808,
which is not the old balance plus 1: `account.Balance += amount` wraps around. -/
theorem Deposit_overflow_counterexample :
    Service.empty.run [.RegisterAccount "92087397".toList, .Deposit 1 9223372036854775807] =
        ⟨1, [⟨1, "92087397".toList, 9223372036854775807⟩], [], []⟩ ∧
      Service.Deposit ⟨1, [⟨1, "92087397".toList, 9223372036854775807⟩], [], []⟩ 1 1 =
        (.ok (), ⟨1, [⟨1, "92087397".toList, -9223372036854775808⟩], [], []⟩) ∧
      (-9223372036854775808 : Int) ≠ 9223372036854775807 + 1 := by
  decide

/-- C15, amended.  `Deposit(accountID, amount)` fails with `ErrAmountMustBePositive`
when `amount <= 0`; otherwise with `ErrAccountNotFound` when no account has the id;
otherwise it returns a nil error, the balance of the account with the id (the first in
list order, `account` at position `i`) is the `int64` sum of the old balance and
`amount`, which is the old balance plus `amount` when that number is an `int64` value
and that number reduced modulo `2^64` otherwise, its other fields and every other
account are as before, and the payment list, the favorite list and the id counter are
as before: no payment records the deposit.  The two failures leave the store as it
is. -/
theorem Deposit_spec (s : Service) (accountID : Int) (amount : Money) :
    (amount ≤ 0 → s.Deposit accountID amount = (.error .ErrAmountMustBePositive, s)) ∧
    (0 < amount → (∀ a ∈ s.accounts, a.ID ≠ accountID) →
      s.Deposit accountID amount = (.error .ErrAccountNotFound, s)) ∧
    (∀ i account, 0 < amount → FirstAt (fun a => a.ID = accountID) s.accounts i account →
      (s.Deposit accountID amount).1 = .ok () ∧
        (s.Deposit accountID amount).2.accounts =
          s.accounts.set i ⟨account.ID, account.Phone, toInt64 (account.Balance + amount)⟩ ∧
        (s.Deposit accountID amount).2.accounts[i]? =
          some ⟨account.ID, account.Phone, toInt64 (account.Balance + amount)⟩ ∧
        (isInt64 (account.Balance + amount) →
          (s.Deposit accountID amount).2.accounts[i]? =
            some ⟨account.ID, account.Phone, account.Balance + amount⟩) ∧
        (∀ j, j ≠ i → (s.Deposit accountID amount).2.accounts[j]? = s.accounts[j]?) ∧
        (s.Deposit accountID amount).2.payments = s.payments ∧
        (s.Deposit accountID amount).2.favorites = s.favorites ∧
        (s.Deposit accountID amount).2.nextAccountID = s.nextAccountID) := by
  refine ⟨?_, ?_, ?_⟩
  · intro h
    simp [Service.Deposit, h]
  · intro h hnone
    have : findFirst (fun account => account.ID == accountID) s.accounts = none :=
      (findFirst_eq_none _ _).mpr (fun a ha => by simpa using hnone a ha)
    simp [Service.Deposit, Service.FindAccountByID, not_le.mpr h, this]
  · intro i account h hacc
    have hdep : s.Deposit accountID amount =
        (.ok (), { s with
          accounts := s.accounts.set i ⟨account.ID, account.Phone, toInt64 (account.Balance + amount)⟩ }) := by
      simp [Service.Deposit, Service.FindAccountByID, not_le.mpr h, findFirst_account hacc]
    rw [hdep]
    refine ⟨rfl, rfl, ?_, ?_, ?_, rfl, rfl, rfl⟩
    · exact getElem?_set_same _ _ _ hacc.lt_length
    · intro hrange
      show (s.accounts.set i _)[i]? = _
      rw [getElem?_set_same _ _ _ hacc.lt_length, toInt64_of_isInt64 _ hrange]
    · intro j hj
      exact getElem?_set_other _ _ _ _ hj

/-- The deposit of the test `TestService_Deposit_success`: 100000 on the account just
registered; the sum 0 + 100000 is an `int64` value and is the new balance. -/
theorem Deposit_spec_witness :
    (Service.Deposit ⟨1, [⟨1, "92087397".toList, 0⟩], [], []⟩ 1 100000).2.accounts[0]? =
      some ⟨1, "92087397".toList, 0 + 100000⟩ :=
  ((Deposit_spec ⟨1, [⟨1, "92087397".toList, 0⟩], [], []⟩ 1 100000).2.2 0
    ⟨1, "92087397".toList, 0⟩ (by decide)
    ⟨rfl, rfl, fun j _ hj => absurd hj (Nat.not_lt_zero j)⟩).2.2.2.1 (by decide)

/-! ## Sequential SumPayments -/

/-- The sequential loop, started from an `int64` value, ends with the `int64` reduction
of the start plus the exact sum of the amounts. -/
theorem foldl_add_Amount (payments : List Payment) (sum : Int) (hsum : isInt64 sum) :
    payments.foldl (fun sum payment => toInt64 (sum + payment.Amount)) sum =
      toInt64 (sum + (payments.map (fun p => p.Amount)).sum) := by
  induction payments generalizing sum with
  | nil => simp [toInt64_of_isInt64 _ hsum]
  | cons p ps ih =>
    rw [List.foldl_cons, ih _ (isInt64_toInt64 _), toInt64_toInt64_add]
    simp only [List.map_cons, List.sum_cons, add_assoc]

/-- C20, the claim as stated fails.  After a registration, a deposit of
4611686018427387904 (`2^62`), a payment of that amount, its rejection and a second
payment of that amount, the store holds two payments of `2^62` each; the sequential
`SumPayments` returns -9223372036854775808, which is not the sum `2^63` of the two
amounts: `sum += int(payment.Amount)` wraps around. -/
theorem SumPayments_sequential_overflow_counterexample :
    (Service.empty.run [.RegisterAccount "92087397".toList, .Deposit 1 4611686018427387904,
        .Pay 1 4611686018427387904 "auto".toList "p1".toList, .Reject "p1".toList,
        .Pay 1 4611686018427387904 "auto".toList "p2".toList]).payments =
        [⟨"p1".toList, 1, 4611686018427387904, "auto".toList, PaymentStatusFail⟩,
          ⟨"p2".toList, 1, 4611686018427387904, "auto".toList, PaymentStatusInProgress⟩] ∧
      (Service.empty.run [.RegisterAccount "92087397".toList, .Deposit 1 4611686018427387904,
        .Pay 1 4611686018427387904 "auto".toList "p1".toList, .Reject "p1".toList,
        .Pay 1 4611686018427387904 "auto".toList "p2".toList]).SumPayments 1 =
        some (-9223372036854775808) ∧
      (-9223372036854775808 : Int) ≠ 4611686018427387904 + 4611686018427387904 := by
  decide

/-- C20, amended.  With `goroutines <= 1`, `SumPayments` returns the `int64` sum of
`Amount` over all the payments of the store, whatever their status: the exact sum
reduced modulo `2^64` into the `int64` range, and so the exact sum itself when it is
an `int64` value. -/
theorem SumPayments_sequential (s : Service) (goroutines : Int) (h : goroutines ≤ 1) :
    s.SumPayments goroutines = some (toInt64 ((s.payments.map (fun p => p.Amount)).sum)) ∧
      (isInt64 ((s.payments.map (fun p => p.Amount)).sum) →
        s.SumPayments goroutines = some ((s.payments.map (fun p => p.Amount)).sum)) := by
  have hsum : s.SumPayments goroutines =
      some (toInt64 ((s.payments.map (fun p => p.Amount)).sum)) := by
    unfold Service.SumPayments
    rw [if_pos h, foldl_add_Amount _ _ (by decide), zero_add]
  refine ⟨hsum, ?_⟩
  intro hrange
  rw [hsum, toInt64_of_isInt64 _ hrange]

/-- The store of `BenchmarkSumPayments_single` (one payment of 100000) gives 100000,
a failed payment is counted, and the empty store gives 0. -/
theorem SumPayments_sequential_witness :
    Service.SumPayments ⟨1, [⟨1, "+992000000001".toList, 900000⟩],
        [⟨"p1".toList, 1, 100000, "auto".toList, PaymentStatusInProgress⟩], []⟩ 1 =
        some 100000 ∧
      Service.SumPayments ⟨1, [⟨1, "+992000000001".toList, 1000000⟩],
        [⟨"p1".toList, 1, 100000, "auto".toList, PaymentStatusFail⟩], []⟩ 0 =
        some 100000 ∧
      Service.SumPayments Service.empty 1 = some 0 :=
  ⟨(SumPayments_sequential _ 1 (by decide)).2 (by decide),
    (SumPayments_sequential _ 0 (by decide)).2 (by decide),
    (SumPayments_sequential _ 1 (by decide)).2 (by decide)⟩

/-! ## The shape of the store after a call -/

/-- `Pay` either fails and leaves the store as it is, or debits one account by a
positive amount its balance covers and appends the new payment. -/
theorem Pay_cases (s : Service) (accountID : Int) (amount : Money) (category : PaymentCategory)
    (paymentID : GoString) :
    (s.Pay accountID amount category paymentID).2 = s ∨
      ∃ i account, s.accounts[i]? = some account ∧ 0 < amount ∧ amount ≤ account.Balance ∧
        (s.Pay accountID amount category paymentID).2 =
          { s with
            accounts := s.accounts.set i ⟨account.ID, account.Phone, account.Balance - amount⟩,
            payments := s.payments ++
              [⟨paymentID, accountID, amount, category, PaymentStatusInProgress⟩] } := by
  unfold Service.Pay
  by_cases hamount : amount ≤ 0
  · left
    rw [if_pos hamount]
  · rw [if_neg hamount]
    cases hfind : findFirst (fun acc => acc.ID == accountID) s.accounts with
    | none => exact Or.inl rfl
    | some r =>
      obtain ⟨i, account⟩ := r
      dsimp only
      by_cases hbal : account.Balance < amount
      · left
        rw [if_pos hbal]
      · right
        rw [if_neg hbal]
        exact ⟨i, account, (firstAt_of_findFirst _ _ _ _ hfind).1, not_le.mp hamount,
          not_lt.mp hbal, rfl⟩

/-- `Deposit` either fails and leaves the store as it is, or credits the account it
finds by the positive amount, in `int64` arithmetic. -/
theorem Deposit_cases (s : Service) (accountID : Int) (amount : Money) :
    ((∃ e, (s.Deposit accountID amount).1 = .error e) ∧ (s.Deposit accountID amount).2 = s) ∨
      ∃ i account, s.FindAccountByID accountID = .ok (i, account) ∧
        s.accounts[i]? = some account ∧ 0 < amount ∧
        (s.Deposit accountID amount).1 = .ok () ∧
        (s.Deposit accountID amount).2 =
          { s with
            accounts := s.accounts.set i
              ⟨account.ID, account.Phone, toInt64 (account.Balance + amount)⟩ } := by
  unfold Service.Deposit Service.FindAccountByID
  by_cases hamount : amount ≤ 0
  · left
    rw [if_pos hamount]
    exact ⟨⟨_, rfl⟩, rfl⟩
  · rw [if_neg hamount]
    cases hfind : findFirst (fun account => account.ID == accountID) s.accounts with
    | none => exact Or.inl ⟨⟨_, rfl⟩, rfl⟩
    | some r =>
      obtain ⟨i, account⟩ := r
      right
      exact ⟨i, account, rfl, (firstAt_of_findFirst _ _ _ _ hfind).1, not_le.mp hamount,
        rfl, rfl⟩

/-- `Reject` either fails and leaves the store as it is, or sets the status of the
payment it finds to `fail` and credits the account it finds by the payment's amount, in
`int64` arithmetic. -/
theorem Reject_cases (s : Service) (paymentID : GoString) :
    ((∃ e, (s.Reject paymentID).1 = .error e) ∧ (s.Reject paymentID).2 = s) ∨
      ∃ k payment i account, s.FindPaymentByID paymentID = .ok (k, payment) ∧
        s.FindAccountByID payment.AccountID = .ok (i, account) ∧
        s.payments[k]? = some payment ∧ s.accounts[i]? = some account ∧
        (s.Reject paymentID).1 = .ok () ∧
        (s.Reject paymentID).2 =
          { s with
            payments := s.payments.set k ⟨payment.ID, payment.AccountID, payment.Amount,
              payment.Category, PaymentStatusFail⟩,
            accounts := s.accounts.set i
              ⟨account.ID, account.Phone, toInt64 (account.Balance + payment.Amount)⟩ } := by
  unfold Service.Reject
  cases hp : s.FindPaymentByID paymentID with
  | error e => exact Or.inl ⟨⟨_, rfl⟩, rfl⟩
  | ok r =>
    obtain ⟨k, payment⟩ := r
    have hk : s.payments[k]? = some payment := by
      unfold Service.FindPaymentByID at hp
      cases hfind : findFirst (fun payment => payment.ID == paymentID) s.payments with
      | none => rw [hfind] at hp; cases hp
      | some r =>
        rw [hfind] at hp
        simp only [Except.ok.injEq] at hp
        subst hp
        exact (firstAt_of_findFirst _ _ _ _ hfind).1
    dsimp only
    unfold Service.FindAccountByID
    cases hfind : findFirst (fun account => account.ID == payment.AccountID) s.accounts with
    | none => exact Or.inl ⟨⟨_, rfl⟩, rfl⟩
    | some r =>
      obtain ⟨i, account⟩ := r
      right
      exact ⟨k, payment, i, account, rfl, by rw [hfind], hk,
        (firstAt_of_findFirst _ _ _ _ hfind).1, rfl, rfl⟩

/-- `DepositExact` either leaves the store as it is, or credits one account by the
positive amount. -/
theorem DepositExact_cases (s : Service) (accountID : Int) (amount : Money) :
    (s.DepositExact accountID amount).2 = s ∨
      ∃ i account, s.accounts[i]? = some account ∧ 0 < amount ∧
        (s.DepositExact accountID amount).2 =
          { s with
            accounts := s.accounts.set i ⟨account.ID, account.Phone, account.Balance + amount⟩ } := by
  unfold Service.DepositExact Service.FindAccountByID
  by_cases hamount : amount ≤ 0
  · left
    rw [if_pos hamount]
  · rw [if_neg hamount]
    cases hfind : findFirst (fun account => account.ID == accountID) s.accounts with
    | none => exact Or.inl rfl
    | some r =>
      obtain ⟨i, account⟩ := r
      right
      exact ⟨i, account, (firstAt_of_findFirst _ _ _ _ hfind).1, not_le.mp hamount, rfl⟩

/-- `RejectExact` either leaves the store as it is, or sets the status of the payment
it finds to `fail` and credits one account by the payment's amount. -/
theorem RejectExact_cases (s : Service) (paymentID : GoString) :
    (s.RejectExact paymentID).2 = s ∨
      ∃ k payment i account, s.payments[k]? = some payment ∧ s.accounts[i]? = some account ∧
        (s.RejectExact paymentID).2 =
          { s with
            payments := s.payments.set k ⟨payment.ID, payment.AccountID, payment.Amount,
              payment.Category, PaymentStatusFail⟩,
            accounts := s.accounts.set i
              ⟨account.ID, account.Phone, account.Balance + payment.Amount⟩ } := by
  unfold Service.RejectExact
  cases hp : s.FindPaymentByID paymentID with
  | error e => exact Or.inl rfl
  | ok r =>
    obtain ⟨k, payment⟩ := r
    have hk : s.payments[k]? = some payment := by
      unfold Service.FindPaymentByID at hp
      cases hfind : findFirst (fun payment => payment.ID == paymentID) s.payments with
      | none => rw [hfind] at hp; cases hp
      | some r =>
        rw [hfind] at hp
        simp only [Except.ok.injEq] at hp
        subst hp
        exact (firstAt_of_findFirst _ _ _ _ hfind).1
    dsimp only
    unfold Service.FindAccountByID
    cases hfind : findFirst (fun account => account.ID == payment.AccountID) s.accounts with
    | none => exact Or.inl rfl
    | some r =>
      obtain ⟨i, account⟩ := r
      right
      exact ⟨k, payment, i, account, hk, (firstAt_of_findFirst _ _ _ _ hfind).1, rfl⟩

/-- `FavoritePayment` either fails and leaves the store as it is, or appends a
favorite that carries the amount of a stored payment. -/
theorem FavoritePayment_cases (s : Service) (paymentID name favoriteID : GoString) :
    (s.FavoritePayment paymentID name favoriteID).2 = s ∨
      ∃ payment ∈ s.payments,
        (s.FavoritePayment paymentID name favoriteID).2 =
          { s with favorites := s.favorites ++
              [⟨favoriteID, payment.AccountID, payment.Amount, name, payment.Category⟩] } := by
  unfold Service.FavoritePayment Service.FindPaymentByID
  cases hfind : findFirst (fun payment => payment.ID == paymentID) s.payments with
  | none => exact Or.inl rfl
  | some r =>
    obtain ⟨k, payment⟩ := r
    right
    exact ⟨payment, List.getElem?_mem (firstAt_of_findFirst _ _ _ _ hfind).1, rfl⟩

/-- `Repeat` ends as a call of `Pay` or leaves the store as it is. -/
theorem Repeat_cases (s : Service) (paymentID newID : GoString) :
    (s.Repeat paymentID newID).2 = s ∨
      ∃ accountID amount category,
        (s.Repeat paymentID newID).2 = (s.Pay accountID amount category newID).2 := by
  unfold Service.Repeat
  cases s.FindPaymentByID paymentID with
  | error e => exact Or.inl rfl
  | ok r => exact Or.inr ⟨_, _, _, rfl⟩

/-- `PayFromFavorite` ends as a call of `Pay` or leaves the store as it is. -/
theorem PayFromFavorite_cases (s : Service) (favoriteID newID : GoString) :
    (s.PayFromFavorite favoriteID newID).2 = s ∨
      ∃ accountID amount category,
        (s.PayFromFavorite favoriteID newID).2 = (s.Pay accountID amount category newID).2 := by
  unfold Service.PayFromFavorite
  cases s.FindFavoriteByID favoriteID with
  | error e => exact Or.inl rfl
  | ok r => exact Or.inr ⟨_, _, _, rfl⟩

/-! ## Signs of balances and amounts -/

/-- `Pay` keeps balances non-negative and amounts positive. -/
theorem Pay_signs (s : Service) (accountID : Int) (amount : Money) (category : PaymentCategory)
    (paymentID : GoString)
    (h : (∀ a ∈ s.accounts, 0 ≤ a.Balance) ∧ (∀ p ∈ s.payments, 0 < p.Amount) ∧
      (∀ f ∈ s.favorites, 0 < f.Amount)) :
    (∀ a ∈ (s.Pay accountID amount category paymentID).2.accounts, 0 ≤ a.Balance) ∧
      (∀ p ∈ (s.Pay accountID amount category paymentID).2.payments, 0 < p.Amount) ∧
      (∀ f ∈ (s.Pay accountID amount category paymentID).2.favorites, 0 < f.Amount) := by
  rcases Pay_cases s accountID amount category paymentID with hs | ⟨i, account, _, hpos, hbal, hs⟩
  · rw [hs]
    exact h
  · rw [hs]
    refine ⟨?_, ?_, h.2.2⟩
    · intro a ha
      rcases List.mem_or_eq_of_mem_set ha with ha | rfl
      · exact h.1 a ha
      · exact sub_nonneg.mpr hbal
    · intro p hp
      rcases List.mem_append.mp hp with hp | hp
      · exact h.2.1 p hp
      · simp only [List.mem_singleton] at hp
        subst hp
        exact hpos

/-- Every ledger operation keeps balances non-negative and amounts positive, money
being an exact integer. -/
theorem step_signs (s : Service) (op : Op)
    (h : (∀ a ∈ s.accounts, 0 ≤ a.Balance) ∧ (∀ p ∈ s.payments, 0 < p.Amount) ∧
      (∀ f ∈ s.favorites, 0 < f.Amount)) :
    (∀ a ∈ (s.stepExact op).accounts, 0 ≤ a.Balance) ∧
      (∀ p ∈ (s.stepExact op).payments, 0 < p.Amount) ∧
      (∀ f ∈ (s.stepExact op).favorites, 0 < f.Amount) := by
  cases op with
  | RegisterAccount phone =>
    rcases RegisterAccount_cases s phone with hs | hs
    · simp only [Service.stepExact, hs]
      exact h
    · simp only [Service.stepExact, hs]
      refine ⟨?_, h.2.1, h.2.2⟩
      intro a ha
      rcases List.mem_append.mp ha with ha | ha
      · exact h.1 a ha
      · simp only [List.mem_singleton] at ha
        subst ha
        exact le_refl _
  | Deposit accountID amount =>
    rcases DepositExact_cases s accountID amount with hs | ⟨i, account, hget, hpos, hs⟩
    · simp only [Service.stepExact, hs]
      exact h
    · simp only [Service.stepExact, hs]
      refine ⟨?_, h.2.1, h.2.2⟩
      intro a ha
      rcases List.mem_or_eq_of_mem_set ha with ha | rfl
      · exact h.1 a ha
      · exact add_nonneg (h.1 account (List.getElem?_mem hget)) (le_of_lt hpos)
  | Pay accountID amount category paymentID => exact Pay_signs s _ _ _ _ h
  | Reject paymentID =>
    rcases RejectExact_cases s paymentID with hs | ⟨k, payment, i, account, hk, hget, hs⟩
    · simp only [Service.stepExact, hs]
      exact h
    · simp only [Service.stepExact, hs]
      have hamount := h.2.1 payment (List.getElem?_mem hk)
      refine ⟨?_, ?_, h.2.2⟩
      · intro a ha
        rcases List.mem_or_eq_of_mem_set ha with ha | rfl
        · exact h.1 a ha
        · exact add_nonneg (h.1 account (List.getElem?_mem hget)) (le_of_lt hamount)
      · intro p hp
        rcases List.mem_or_eq_of_mem_set hp with hp | rfl
        · exact h.2.1 p hp
        · exact hamount
  | Repeat paymentID newID =>
    rcases Repeat_cases s paymentID newID with hs | ⟨accountID, amount, category, hs⟩
    · simp only [Service.stepExact, hs]
      exact h
    · simp only [Service.stepExact, hs]
      exact Pay_signs s _ _ _ _ h
  | FavoritePayment paymentID name favoriteID =>
    rcases FavoritePayment_cases s paymentID name favoriteID with hs | ⟨payment, hmem, hs⟩
    · simp only [Service.stepExact, hs]
      exact h
    · simp only [Service.stepExact, hs]
      refine ⟨h.1, h.2.1, ?_⟩
      intro f hf
      rcases List.mem_append.mp hf with hf | hf
      · exact h.2.2 f hf
      · simp only [List.mem_singleton] at hf
        subst hf
        exact h.2.1 payment hmem
  | PayFromFavorite favoriteID newID =>
    rcases PayFromFavorite_cases s favoriteID newID with hs | ⟨accountID, amount, category, hs⟩
    · simp only [Service.stepExact, hs]
      exact h
    · simp only [Service.stepExact, hs]
      exact Pay_signs s _ _ _ _ h

/-- A call whose addition does not leave the `int64` range gives the store it gives
with money as an exact integer. -/
theorem step_eq_stepExact (s : Service) (op : Op) (h : s.wrapLoss op = 0) :
    s.step op = s.stepExact op := by
  cases op with
  | Deposit accountID amount =>
    simp only [Service.wrapLoss] at h
    simp only [Service.step, Service.stepExact]
    unfold Service.Deposit Service.DepositExact at *
    by_cases hamount : amount ≤ 0
    · simp only [if_pos hamount]
    · simp only [if_neg hamount] at h ⊢
      cases hfind : s.FindAccountByID accountID with
      | error e => rfl
      | ok r =>
        obtain ⟨i, account⟩ := r
        rw [hfind] at h
        have heq : toInt64 (account.Balance + amount) = account.Balance + amount := by
          have h0 : account.Balance + amount - toInt64 (account.Balance + amount) = 0 := h
          linarith
        simp only [heq]
  | Reject paymentID =>
    simp only [Service.wrapLoss] at h
    simp only [Service.step, Service.stepExact]
    unfold Service.Reject Service.RejectExact at *
    cases hp : s.FindPaymentByID paymentID with
    | error e => rfl
    | ok r =>
      obtain ⟨k, payment⟩ := r
      rw [hp] at h
      dsimp only at h ⊢
      cases hfind : s.FindAccountByID payment.AccountID with
      | error e => rfl
      | ok r =>
        obtain ⟨i, account⟩ := r
        simp only [hfind] at h
        have heq : toInt64 (account.Balance + payment.Amount) =
            account.Balance + payment.Amount := by
          have h0 : account.Balance + payment.Amount -
              toInt64 (account.Balance + payment.Amount) = 0 := h
          linarith
        simp only [heq]
  | RegisterAccount phone => rfl
  | Pay accountID amount category paymentID => rfl
  | Repeat paymentID newID => rfl
  | FavoritePayment paymentID name favoriteID => rfl
  | PayFromFavorite favoriteID newID => rfl

/-- A sequence of calls none of whose additions leaves the `int64` range gives the
store it gives with money as an exact integer. -/
theorem run_eq_runExact (ops : List Op) (s : Service) (h : s.neverOverflows ops = true) :
    s.run ops = s.runExact ops := by
  induction ops generalizing s with
  | nil => rfl
  | cons op ops ih =>
    simp only [Service.neverOverflows, Bool.and_eq_true, decide_eq_true_eq] at h
    have hrun : s.run (op :: ops) = (s.step op).run ops := rfl
    have hrunExact : s.runExact (op :: ops) = (s.stepExact op).runExact ops := rfl
    rw [hrun, hrunExact, ih (s.step op) h.2, step_eq_stepExact s op h.1]

/-- A sequence of ledger operations keeps balances non-negative and amounts positive,
money being an exact integer. -/
theorem runExact_signs (ops : List Op) (s : Service)
    (h : (∀ a ∈ s.accounts, 0 ≤ a.Balance) ∧ (∀ p ∈ s.payments, 0 < p.Amount) ∧
      (∀ f ∈ s.favorites, 0 < f.Amount)) :
    (∀ a ∈ (s.runExact ops).accounts, 0 ≤ a.Balance) ∧
      (∀ p ∈ (s.runExact ops).payments, 0 < p.Amount) ∧
      (∀ f ∈ (s.runExact ops).favorites, 0 < f.Amount) := by
  induction ops generalizing s with
  | nil => exact h
  | cons op ops ih => exact ih (s.stepExact op) (step_signs s op h)

/-- C12. In every state reached from the empty store by a sequence of ledger
operations, money being exact integers, the balance of every account is at least 0
and the `Amount` of every payment and of every favorite is above 0.  The same holds of
the state the sequence reaches in `int64` arithmetic when none of its additions leaves
the `int64` range. -/
theorem reachable_signs (ops : List Op) :
    ((∀ a ∈ (Service.empty.runExact ops).accounts, 0 ≤ a.Balance) ∧
      (∀ p ∈ (Service.empty.runExact ops).payments, 0 < p.Amount) ∧
      (∀ f ∈ (Service.empty.runExact ops).favorites, 0 < f.Amount)) ∧
    (Service.empty.neverOverflows ops = true →
      (∀ a ∈ (Service.empty.run ops).accounts, 0 ≤ a.Balance) ∧
        (∀ p ∈ (Service.empty.run ops).payments, 0 < p.Amount) ∧
        (∀ f ∈ (Service.empty.run ops).favorites, 0 < f.Amount)) := by
  have hexact := runExact_signs ops Service.empty
    ⟨by simp [Service.empty], by simp [Service.empty], by simp [Service.empty]⟩
  refine ⟨hexact, ?_⟩
  intro hnever
  rw [run_eq_runExact ops Service.empty hnever]
  exact hexact

/-! ## Phones along sequences of operations -/

/-- `RegisterAccount` either leaves the store as it is, or appends an account whose
phone no account of the store has. -/
theorem RegisterAccount_cases_phone (s : Service) (phone : Phone) :
    (s.RegisterAccount phone).2 = s ∨
      ((∀ a ∈ s.accounts, a.Phone ≠ phone) ∧
        (s.RegisterAccount phone).2 =
          { s with nextAccountID := s.nextAccountID + 1,
                   accounts := s.accounts ++ [⟨s.nextAccountID + 1, phone, 0⟩] }) := by
  unfold Service.RegisterAccount
  cases hfind : findFirst (fun account => account.Phone == phone) s.accounts with
  | some r => exact Or.inl rfl
  | none =>
    right
    refine ⟨?_, rfl⟩
    intro a ha
    have := (findFirst_eq_none _ _).mp hfind a ha
    simpa using this

/-- `Pay` changes the phone of no account. -/
theorem Pay_phones (s : Service) (accountID : Int) (amount : Money) (category : PaymentCategory)
    (paymentID : GoString) :
    (s.Pay accountID amount category paymentID).2.accounts.map (fun a => a.Phone) =
      s.accounts.map (fun a => a.Phone) := by
  rcases Pay_cases s accountID amount category paymentID with hs | ⟨i, account, hget, _, _, hs⟩
  · rw [hs]
  · rw [hs]
    exact map_set_of_getElem? _ _ _ _ _ hget rfl

/-- An operation keeps the phones of the accounts, and a successful `RegisterAccount`
appends a phone that no account has. -/
theorem step_phones (s : Service) (op : Op) :
    (s.step op).accounts.map (fun a => a.Phone) = s.accounts.map (fun a => a.Phone) ∨
      ∃ phone, (∀ a ∈ s.accounts, a.Phone ≠ phone) ∧
        (s.step op).accounts.map (fun a => a.Phone) =
          s.accounts.map (fun a => a.Phone) ++ [phone] := by
  cases op with
  | RegisterAccount phone =>
    rcases RegisterAccount_cases_phone s phone with hs | ⟨hnew, hs⟩
    · left
      simp only [Service.step, hs]
    · right
      refine ⟨phone, hnew, ?_⟩
      simp only [Service.step, hs, List.map_append, List.map_cons, List.map_nil]
  | Deposit accountID amount =>
    left
    rcases Deposit_cases s accountID amount with ⟨_, hs⟩ | ⟨i, account, _, hget, _, _, hs⟩
    · simp only [Service.step, hs]
    · simp only [Service.step, hs]
      exact map_set_of_getElem? _ _ _ _ _ hget rfl
  | Pay accountID amount category paymentID => exact Or.inl (Pay_phones s _ _ _ _)
  | Reject paymentID =>
    left
    rcases Reject_cases s paymentID with
      ⟨_, hs⟩ | ⟨k, payment, i, account, _, _, _, hget, _, hs⟩
    · simp only [Service.step, hs]
    · simp only [Service.step, hs]
      exact map_set_of_getElem? _ _ _ _ _ hget rfl
  | Repeat paymentID newID =>
    left
    rcases Repeat_cases s paymentID newID with hs | ⟨accountID, amount, category, hs⟩
    · simp only [Service.step, hs]
    · simp only [Service.step, hs]
      exact Pay_phones s _ _ _ _
  | FavoritePayment paymentID name favoriteID =>
    left
    rcases FavoritePayment_cases s paymentID name favoriteID with hs | ⟨payment, _, hs⟩
    · simp only [Service.step, hs]
    · simp only [Service.step, hs]
  | PayFromFavorite favoriteID newID =>
    left
    rcases PayFromFavorite_cases s favoriteID newID with hs | ⟨accountID, amount, category, hs⟩
    · simp only [Service.step, hs]
    · simp only [Service.step, hs]
      exact Pay_phones s _ _ _ _

theorem run_phones (ops : List Op) (s : Service)
    (h : (s.accounts.map (fun a => a.Phone)).Nodup) :
    ((s.run ops).accounts.map (fun a => a.Phone)).Nodup := by
  induction ops generalizing s with
  | nil => exact h
  | cons op ops ih =>
    apply ih (s.step op)
    rcases step_phones s op with hs | ⟨phone, hnew, hs⟩
    · rw [hs]
      exact h
    · rw [hs]
      refine List.Nodup.append h (List.nodup_singleton phone) ?_
      intro x hx hx'
      simp only [List.mem_singleton] at hx'
      subst hx'
      obtain ⟨a, ha, hphone⟩ := List.mem_map.mp hx
      exact hnew a ha hphone

/-- C13. In every state reached from the empty store by a sequence of ledger
operations the phones of the account list are pairwise distinct: two positions of the
list that hold the same phone are the same position. -/
theorem reachable_phones_unique (ops : List Op) :
    ((Service.empty.run ops).accounts.map (fun a => a.Phone)).Nodup ∧
      ∀ (i j : Nat) (a b : Account), (Service.empty.run ops).accounts[i]? = some a →
        (Service.empty.run ops).accounts[j]? = some b → a.Phone = b.Phone → i = j := by
  have hnodup := run_phones ops Service.empty (by simp [Service.empty])
  refine ⟨hnodup, ?_⟩
  intro i j a b hi hj hphone
  have hlt : i < ((Service.empty.run ops).accounts.map (fun a => a.Phone)).length := by
    rw [List.length_map]
    by_contra hge
    rw [List.getElem?_eq_none (by omega)] at hi
    cases hi
  apply List.getElem?_inj hlt hnodup
  rw [List.getElem?_map, List.getElem?_map, hi, hj]
  simp [hphone]

/-! ## Conservation of money -/

theorem sum_map_set {α : Type} (f : α → Int) (xs : List α) (i : Nat) (x y : α)
    (hx : xs[i]? = some x) :
    ((xs.set i y).map f).sum = (xs.map f).sum - f x + f y := by
  induction xs generalizing i with
  | nil => simp at hx
  | cons z zs ih =>
    cases i with
    | zero =>
      simp at hx
      subst hx
      simp only [List.set_cons_zero, List.map_cons, List.sum_cons]
      ring
    | succ i =>
      simp at hx
      simp only [List.set_cons_succ, List.map_cons, List.sum_cons, ih i hx]
      ring

/-- The sum over the payments that are not failed, as a sum over all payments. -/
theorem activePayments_eq (s : Service) :
    s.activePayments =
      (s.payments.map (fun p => if p.Status = PaymentStatusFail then 0 else p.Amount)).sum := by
  unfold Service.activePayments
  induction s.payments with
  | nil => rfl
  | cons p ps ih =>
    by_cases hp : p.Status = PaymentStatusFail
    · simp [List.filter_cons, hp, ih]
    · simp [List.filter_cons, hp, ih]

/-- `Pay` moves the amount from the balances to the payments that are not failed. -/
theorem Pay_conserves (s : Service) (accountID : Int) (amount : Money)
    (category : PaymentCategory) (paymentID : GoString) :
    (s.Pay accountID amount category paymentID).2.totalBalance +
        (s.Pay accountID amount category paymentID).2.activePayments =
      s.totalBalance + s.activePayments := by
  rcases Pay_cases s accountID amount category paymentID with hs | ⟨i, account, hget, _, _, hs⟩
  · rw [hs]
  · rw [hs]
    have hnew : (if PaymentStatusInProgress = PaymentStatusFail then (0 : Int) else amount) =
        amount := if_neg (by decide)
    simp only [activePayments_eq, Service.totalBalance, List.map_append, List.sum_append,
      List.map_cons, List.map_nil, List.sum_cons, List.sum_nil, hnew,
      sum_map_set _ _ _ _ _ hget]
    ring

/-- The balance of one call: what it adds to the balances and to the payments that
are not failed is what it deposits plus what it refunds for a payment that is already
failed, minus what its addition loses by wrapping around. -/
theorem step_conserves (s : Service) (op : Op) :
    (s.step op).totalBalance + (s.step op).activePayments =
      s.totalBalance + s.activePayments + s.deposits op + s.refundsAgain op -
        s.wrapLoss op := by
  cases op with
  | RegisterAccount phone =>
    rcases RegisterAccount_cases s phone with hs | hs
    · simp [Service.step, hs, Service.deposits, Service.refundsAgain, Service.wrapLoss]
    · simp [Service.step, hs, Service.deposits, Service.refundsAgain, Service.wrapLoss,
        Service.totalBalance, Service.activePayments]
  | Deposit accountID amount =>
    rcases Deposit_cases s accountID amount with
      ⟨⟨e, he⟩, hs⟩ | ⟨i, account, hfind, hget, _, hok, hs⟩
    · simp [Service.step, hs, Service.deposits, Service.refundsAgain, Service.wrapLoss, he]
    · simp only [Service.step, hs, Service.deposits, Service.refundsAgain, Service.wrapLoss,
        hok, hfind, Service.totalBalance, Service.activePayments, sum_map_set _ _ _ _ _ hget]
      ring
  | Pay accountID amount category paymentID =>
    simp only [Service.step, Service.deposits, Service.refundsAgain, Service.wrapLoss,
      add_zero, sub_zero]
    exact Pay_conserves s _ _ _ _
  | Reject paymentID =>
    rcases Reject_cases s paymentID with
      ⟨⟨e, he⟩, hs⟩ | ⟨k, payment, i, account, hfind, hfindA, hk, hget, hok, hs⟩
    · have hzero : s.refundsAgain (.Reject paymentID) = 0 := by
        simp only [Service.refundsAgain]
        cases s.FindPaymentByID paymentID with
        | error err => rfl
        | ok r => simp only [he]
      have hloss : s.wrapLoss (.Reject paymentID) = 0 := by
        simp only [Service.wrapLoss, he]
      simp [Service.step, hs, Service.deposits, hzero, hloss]
    · have hrefund : s.refundsAgain (.Reject paymentID) =
          if payment.Status = PaymentStatusFail then payment.Amount else 0 := by
        simp only [Service.refundsAgain, hfind, hok]
      have hloss : s.wrapLoss (.Reject paymentID) =
          account.Balance + payment.Amount - toInt64 (account.Balance + payment.Amount) := by
        simp only [Service.wrapLoss, hok, hfind, hfindA]
      simp only [Service.step, hs, Service.deposits, hrefund, hloss, activePayments_eq,
        Service.totalBalance, sum_map_set _ _ _ _ _ hget, sum_map_set _ _ _ _ _ hk, if_true]
      by_cases hstatus : payment.Status = PaymentStatusFail
      · simp only [if_pos hstatus]
        ring
      · simp only [if_neg hstatus]
        ring
  | Repeat paymentID newID =>
    simp only [Service.deposits, Service.refundsAgain, Service.wrapLoss, add_zero, sub_zero]
    rcases Repeat_cases s paymentID newID with hs | ⟨accountID, amount, category, hs⟩
    · simp only [Service.step, hs]
    · simp only [Service.step, hs]
      exact Pay_conserves s _ _ _ _
  | FavoritePayment paymentID name favoriteID =>
    simp only [Service.deposits, Service.refundsAgain, Service.wrapLoss, add_zero, sub_zero]
    rcases FavoritePayment_cases s paymentID name favoriteID with hs | ⟨payment, _, hs⟩
    · simp only [Service.step, hs]
    · simp only [Service.step, hs, Service.totalBalance, Service.activePayments]
  | PayFromFavorite favoriteID newID =>
    simp only [Service.deposits, Service.refundsAgain, Service.wrapLoss, add_zero, sub_zero]
    rcases PayFromFavorite_cases s favoriteID newID with hs | ⟨accountID, amount, category, hs⟩
    · simp only [Service.step, hs]
    · simp only [Service.step, hs]
      exact Pay_conserves s _ _ _ _

theorem run_conserves (ops : List Op) (s : Service) :
    (s.run ops).totalBalance + (s.run ops).activePayments =
      s.totalBalance + s.activePayments + s.deposited ops + s.refundedAgain ops -
        s.wrapLosses ops := by
  induction ops generalizing s with
  | nil => simp [Service.run, Service.deposited, Service.refundedAgain, Service.wrapLosses]
  | cons op ops ih =>
    have hrun : s.run (op :: ops) = (s.step op).run ops := rfl
    rw [hrun, ih (s.step op), step_conserves s op]
    simp only [Service.deposited, Service.refundedAgain, Service.wrapLosses]
    ring

/-- What one call loses by wrapping around is a multiple of `2^64`. -/
theorem wrapLoss_dvd (s : Service) (op : Op) : (2 ^ 64 : Int) ∣ s.wrapLoss op := by
  cases op with
  | Deposit accountID amount =>
    simp only [Service.wrapLoss]
    split
    · exact dvd_sub_toInt64 _
    · exact dvd_zero _
  | Reject paymentID =>
    simp only [Service.wrapLoss]
    split
    · split
      · exact dvd_sub_toInt64 _
      · exact dvd_zero _
    · exact dvd_zero _
  | RegisterAccount phone => exact dvd_zero _
  | Pay accountID amount category paymentID => exact dvd_zero _
  | Repeat paymentID newID => exact dvd_zero _
  | FavoritePayment paymentID name favoriteID => exact dvd_zero _
  | PayFromFavorite favoriteID newID => exact dvd_zero _

theorem wrapLosses_dvd (ops : List Op) (s : Service) : (2 ^ 64 : Int) ∣ s.wrapLosses ops := by
  induction ops generalizing s with
  | nil => exact dvd_zero _
  | cons op ops ih => exact dvd_add (wrapLoss_dvd s op) (ih (s.step op))

theorem wrapLosses_eq_zero (ops : List Op) (s : Service)
    (h : s.neverOverflows ops = true) : s.wrapLosses ops = 0 := by
  induction ops generalizing s with
  | nil => rfl
  | cons op ops ih =>
    simp only [Service.neverOverflows, Bool.and_eq_true, decide_eq_true_eq] at h
    simp only [Service.wrapLosses, h.1, ih (s.step op) h.2, add_zero]

/-- A call that is no `Reject` of an already failed payment refunds nothing twice. -/
theorem refundsAgain_eq_zero (s : Service) (op : Op) (h : s.rejectsFailed op = false) :
    s.refundsAgain op = 0 := by
  cases op with
  | Reject paymentID =>
    simp only [Service.refundsAgain]
    simp only [Service.rejectsFailed] at h
    cases hfind : s.FindPaymentByID paymentID with
    | error e => rfl
    | ok r =>
      obtain ⟨k, payment⟩ := r
      rw [hfind] at h
      have hstatus : ¬ payment.Status = PaymentStatusFail := by simpa using h
      dsimp only
      cases (s.Reject paymentID).1 with
      | error e => rfl
      | ok u => exact if_neg hstatus
  | RegisterAccount phone => rfl
  | Deposit accountID amount => rfl
  | Pay accountID amount category paymentID => rfl
  | Repeat paymentID newID => rfl
  | FavoritePayment paymentID name favoriteID => rfl
  | PayFromFavorite favoriteID newID => rfl

theorem refundedAgain_eq_zero (ops : List Op) (s : Service)
    (h : s.neverRejectsFailed ops = true) : s.refundedAgain ops = 0 := by
  induction ops generalizing s with
  | nil => rfl
  | cons op ops ih =>
    simp only [Service.neverRejectsFailed, Bool.and_eq_true, Bool.not_eq_true'] at h
    simp only [Service.refundedAgain, refundsAgain_eq_zero s op h.1, ih (s.step op) h.2, add_zero]

/-- C11, the claim as stated fails.  After a registration, a deposit of 100, a payment
of 10 and two rejections of that payment, the successful deposits sum to 100, no
payment has a status other than `fail`, and the balances sum to 110: the second
`Reject` refunds the amount of the already failed payment once more. -/
theorem conservation_double_reject_counterexample :
    Service.empty.deposited
        [.RegisterAccount "92087397".toList, .Deposit 1 100, .Pay 1 10 "auto".toList "p1".toList,
          .Reject "p1".toList, .Reject "p1".toList] = 100 ∧
      (Service.empty.run
        [.RegisterAccount "92087397".toList, .Deposit 1 100, .Pay 1 10 "auto".toList "p1".toList,
          .Reject "p1".toList, .Reject "p1".toList]).activePayments = 0 ∧
      (Service.empty.run
        [.RegisterAccount "92087397".toList, .Deposit 1 100, .Pay 1 10 "auto".toList "p1".toList,
          .Reject "p1".toList, .Reject "p1".toList]).totalBalance = 110 := by
  decide

/-- The law also fails by wrap-around.  After a registration, a deposit of
9223372036854775807 and a deposit of 1, both deposits returned a nil error and sum to
9223372036854775808, no payment exists, no `Reject` was made, and the balances sum to
-9223372036854775808: the second `account.Balance += amount` wrapped around, and the
sequence loses `2^64`. -/
theorem conservation_overflow_example :
    Service.empty.deposited
        [.RegisterAccount "92087397".toList, .Deposit 1 9223372036854775807, .Deposit 1 1] =
        9223372036854775808 ∧
      (Service.empty.run
        [.RegisterAccount "92087397".toList, .Deposit 1 9223372036854775807,
          .Deposit 1 1]).activePayments = 0 ∧
      (Service.empty.run
        [.RegisterAccount "92087397".toList, .Deposit 1 9223372036854775807,
          .Deposit 1 1]).totalBalance = -9223372036854775808 ∧
      Service.empty.wrapLosses
        [.RegisterAccount "92087397".toList, .Deposit 1 9223372036854775807, .Deposit 1 1] =
        2 ^ 64 := by
  decide

/-- C11, amended.  In every state reached from the empty store by a sequence of ledger
operations, the sum of the amounts of the successful deposits, minus the sum of
`Amount` over the payments whose status is not `fail`, plus the sum of the amounts
refunded by the successful `Reject` calls on payments whose status was already `fail`,
minus what the additions `account.Balance += ...` of the sequence lost by wrapping
around, equals the sum of the balances of all accounts; what the additions lost is a
multiple of `2^64`.  In particular, when no `Reject` of the sequence was applied to a
payment whose status was already `fail` and no addition of the sequence left the `int64`
range, the deposits minus the payments that are not failed equal the balances. -/
theorem conservation (ops : List Op) :
    Service.empty.deposited ops - (Service.empty.run ops).activePayments +
        Service.empty.refundedAgain ops - Service.empty.wrapLosses ops =
      (Service.empty.run ops).totalBalance ∧
    (2 ^ 64 : Int) ∣ Service.empty.wrapLosses ops ∧
    (Service.empty.neverRejectsFailed ops = true → Service.empty.neverOverflows ops = true →
      Service.empty.deposited ops - (Service.empty.run ops).activePayments =
        (Service.empty.run ops).totalBalance) := by
  have h := run_conserves ops Service.empty
  have h0 : Service.empty.totalBalance + Service.empty.activePayments = 0 := by decide
  refine ⟨by linarith, wrapLosses_dvd ops Service.empty, ?_⟩
  intro hnever hrange
  have h1 := refundedAgain_eq_zero ops Service.empty hnever
  have h2 := wrapLosses_eq_zero ops Service.empty hrange
  linarith

/-- A registration, a deposit of 100, a payment of 10 and one rejection: 100 - 0 = 100. -/
theorem conservation_witness :
    Service.empty.deposited
        [.RegisterAccount "92087397".toList, .Deposit 1 100, .Pay 1 10 "auto".toList "p1".toList,
          .Reject "p1".toList] -
        (Service.empty.run
          [.RegisterAccount "92087397".toList, .Deposit 1 100,
            .Pay 1 10 "auto".toList "p1".toList, .Reject "p1".toList]).activePayments =
      (Service.empty.run
        [.RegisterAccount "92087397".toList, .Deposit 1 100, .Pay 1 10 "auto".toList "p1".toList,
          .Reject "p1".toList]).totalBalance :=
  (conservation _).2.2 (by decide) (by decide)

/-! ## Import appends -/

/-- A successful accounts loop appends the accounts parsed from the lines, in order. -/
theorem Import_accounts_ok (lines : List GoString) (s s' : Service)
    (h : Import.accounts lines s = (.ok, s')) :
    ∃ accounts, List.Forall₂ (fun line a => Import.account line = .ok a) lines accounts ∧
      s' = { s with accounts := s.accounts ++ accounts } := by
  induction lines generalizing s with
  | nil =>
    simp only [Import.accounts, Prod.mk.injEq, true_and] at h
    exact ⟨[], List.Forall₂.nil, by simp [← h]⟩
  | cons line rest ih =>
    unfold Import.accounts at h
    cases hline : Import.account line with
    | error o =>
      rw [hline] at h
      simp only [Prod.mk.injEq] at h
      have ho : o = .ok := h.1
      subst ho
      unfold Import.account at hline
      dsimp only at hline
      repeat' split at hline
      all_goals cases hline
    | ok account =>
      rw [hline] at h
      obtain ⟨accounts, hall, hs⟩ := ih _ h
      exact ⟨account :: accounts, List.Forall₂.cons hline hall, by simp [hs]⟩

/-- A successful payments loop appends the payments parsed from the lines, in order. -/
theorem Import_payments_ok (lines : List GoString) (s s' : Service)
    (h : Import.payments lines s = (.ok, s')) :
    ∃ payments, List.Forall₂ (fun line p => Import.payment line = .ok p) lines payments ∧
      s' = { s with payments := s.payments ++ payments } := by
  induction lines generalizing s with
  | nil =>
    simp only [Import.payments, Prod.mk.injEq, true_and] at h
    exact ⟨[], List.Forall₂.nil, by simp [← h]⟩
  | cons line rest ih =>
    unfold Import.payments at h
    cases hline : Import.payment line with
    | error o =>
      rw [hline] at h
      simp only [Prod.mk.injEq] at h
      have ho : o = .ok := h.1
      subst ho
      unfold Import.payment at hline
      dsimp only at hline
      repeat' split at hline
      all_goals cases hline
    | ok payment =>
      rw [hline] at h
      obtain ⟨payments, hall, hs⟩ := ih _ h
      exact ⟨payment :: payments, List.Forall₂.cons hline hall, by simp [hs]⟩

/-- A successful favorites loop appends the favorites parsed from the lines, in order. -/
theorem Import_favorites_ok (lines : List GoString) (s s' : Service)
    (h : Import.favorites lines s = (.ok, s')) :
    ∃ favorites, List.Forall₂ (fun line f => Import.favorite line = .ok f) lines favorites ∧
      s' = { s with favorites := s.favorites ++ favorites } := by
  induction lines generalizing s with
  | nil =>
    simp only [Import.favorites, Prod.mk.injEq, true_and] at h
    exact ⟨[], List.Forall₂.nil, by simp [← h]⟩
  | cons line rest ih =>
    unfold Import.favorites at h
    cases hline : Import.favorite line with
    | error o =>
      rw [hline] at h
      simp only [Prod.mk.injEq] at h
      have ho : o = .ok := h.1
      subst ho
      unfold Import.favorite at hline
      dsimp only at hline
      repeat' split at hline
      all_goals cases hline
    | ok favorite =>
      rw [hline] at h
      obtain ⟨favorites, hall, hs⟩ := ih _ h
      exact ⟨favorite :: favorites, List.Forall₂.cons hline hall, by simp [hs]⟩

/-- A successful loop of `ImportFromFile` appends the accounts parsed from the
non-empty segments, in order. -/
theorem ImportFromFile_loop_ok (segments : List GoString) (s s' : Service)
    (h : ImportFromFile.loop segments s = (.ok, s')) :
    ∃ accounts,
      List.Forall₂ (fun acc a => ImportFromFile.account acc = .ok a)
        (segments.filter (fun acc => acc ≠ [])) accounts ∧
      s' = { s with accounts := s.accounts ++ accounts } := by
  induction segments generalizing s with
  | nil =>
    simp only [ImportFromFile.loop, Prod.mk.injEq, true_and] at h
    exact ⟨[], List.Forall₂.nil, by simp [← h]⟩
  | cons acc rest ih =>
    unfold ImportFromFile.loop at h
    by_cases hacc : acc ≠ []
    · rw [if_pos hacc] at h
      cases hseg : ImportFromFile.account acc with
      | error o =>
        rw [hseg] at h
        simp only [Prod.mk.injEq] at h
        have ho : o = .ok := h.1
        subst ho
        unfold ImportFromFile.account at hseg
        dsimp only at hseg
        repeat' split at hseg
        all_goals cases hseg
      | ok account =>
        rw [hseg] at h
        obtain ⟨accounts, hall, hs⟩ := ih _ h
        refine ⟨account :: accounts, ?_, by simp [hs]⟩
        rw [List.filter_cons_of_pos (by simpa using hacc)]
        exact List.Forall₂.cons hseg hall
    · rw [if_neg hacc] at h
      obtain ⟨accounts, hall, hs⟩ := ih _ h
      refine ⟨accounts, ?_, hs⟩
      rw [List.filter_cons_of_neg (by simpa using hacc)]
      exact hall

/-- C18. Import is additive.  After an `Import` (Format A) that returns a nil error,
`accounts.dump` and `payments.dump` exist and the account, payment and favorite lists
of the store are the lists before the call, unchanged and in the same order, followed
by the records parsed from the lines of `accounts.dump`, of `payments.dump` and of
`favorites.dump` (none when that file is absent), in file order; the id counter is
unchanged.  After an `ImportFromFile` (Format B) that returns a nil error, the account
list is the list before the call followed by the accounts parsed from the non-empty
segments of the file, in file order, and the payments, the favorites and the id
counter are unchanged. -/
theorem Import_additive (s : Service) (fs : FileSystem) :
    (∀ dir s', s.Import fs dir = (.ok, s') →
      ∃ srcAcc srcPay accounts payments favorites,
        os.Open fs (dir ++ "/accounts.dump".toList) = some srcAcc ∧
        os.Open fs (dir ++ "/payments.dump".toList) = some srcPay ∧
        List.Forall₂ (fun line a => Import.account line = .ok a)
          (bufio.readLines srcAcc) accounts ∧
        List.Forall₂ (fun line p => Import.payment line = .ok p)
          (bufio.readLines srcPay) payments ∧
        List.Forall₂ (fun line f => Import.favorite line = .ok f)
          (match os.Open fs (dir ++ "/favorites.dump".toList) with
            | none => []
            | some srcFav => bufio.readLines srcFav) favorites ∧
        s' = ⟨s.nextAccountID, s.accounts ++ accounts, s.payments ++ payments,
          s.favorites ++ favorites⟩) ∧
    (∀ path s', s.ImportFromFile fs path = (.ok, s') →
      ∃ content accounts,
        os.Open fs path = some content ∧
        List.Forall₂ (fun acc a => ImportFromFile.account acc = .ok a)
          ((strings.Split content '|').filter (fun acc => acc ≠ [])) accounts ∧
        s' = ⟨s.nextAccountID, s.accounts ++ accounts, s.payments, s.favorites⟩) := by
  constructor
  · intro dir s' h
    unfold Service.Import at h
    cases hA : os.Open fs (dir ++ "/accounts.dump".toList) with
    | none => rw [hA] at h; cases h
    | some srcAcc =>
      rw [hA] at h
      dsimp only at h
      cases hloopA : Import.accounts (bufio.readLines srcAcc) s with
      | mk oA sA =>
        rw [hloopA] at h
        cases oA with
        | err e => cases h
        | panic => cases h
        | ok =>
          dsimp only at h
          obtain ⟨accounts, hallA, hsA⟩ := Import_accounts_ok _ _ _ hloopA
          cases hP : os.Open fs (dir ++ "/payments.dump".toList) with
          | none => rw [hP] at h; cases h
          | some srcPay =>
            rw [hP] at h
            dsimp only at h
            cases hloopP : Import.payments (bufio.readLines srcPay) sA with
            | mk oP sP =>
              rw [hloopP] at h
              cases oP with
              | err e => cases h
              | panic => cases h
              | ok =>
                dsimp only at h
                obtain ⟨payments, hallP, hsP⟩ := Import_payments_ok _ _ _ hloopP
                cases hF : os.Open fs (dir ++ "/favorites.dump".toList) with
                | none =>
                  rw [hF] at h
                  simp only [Prod.mk.injEq, true_and] at h
                  refine ⟨srcAcc, srcPay, accounts, payments, [], rfl, rfl, hallA, hallP,
                    List.Forall₂.nil, ?_⟩
                  rw [← h, hsP, hsA]
                  simp
                | some srcFav =>
                  rw [hF] at h
                  dsimp only at h
                  obtain ⟨favorites, hallF, hsF⟩ := Import_favorites_ok _ _ _ h
                  refine ⟨srcAcc, srcPay, accounts, payments, favorites, rfl, rfl, hallA,
                    hallP, hallF, ?_⟩
                  rw [hsF, hsP, hsA]
  · intro path s' h
    unfold Service.ImportFromFile at h
    cases hO : os.Open fs path with
    | none => rw [hO] at h; cases h
    | some content =>
      rw [hO] at h
      obtain ⟨accounts, hall, hs⟩ := ImportFromFile_loop_ok _ _ _ h
      exact ⟨content, accounts, rfl, hall, by rw [hs]⟩

/-- The import of one account, one payment and no favorites file into a store that
holds the account 7, and the import of a Format B file with two accounts into the
same store: the account 7 stays first. -/
theorem Import_additive_witness :
    (Service.Import ⟨7, [⟨7, "92087397".toList, 5⟩], [], []⟩
        [("d/accounts.dump".toList, "1;+992000000001;900000\n".toList),
          ("d/payments.dump".toList, "p1;1;100000;auto;in_progress\n".toList)]
        "d".toList).2.accounts =
        [⟨7, "92087397".toList, 5⟩, ⟨1, "+992000000001".toList, 900000⟩] ∧
      (Service.ImportFromFile ⟨7, [⟨7, "92087397".toList, 5⟩], [], []⟩
        [("t".toList, "1;20;30|2;40;50|".toList)] "t".toList).2.accounts =
        [⟨7, "92087397".toList, 5⟩, ⟨1, "20".toList, 20⟩, ⟨2, "40".toList, 40⟩] := by
  obtain ⟨_, _, accounts, _, _, _, _, hall, _, _, hs⟩ :=
    (Import_additive ⟨7, [⟨7, "92087397".toList, 5⟩], [], []⟩
      [("d/accounts.dump".toList, "1;+992000000001;900000\n".toList),
        ("d/payments.dump".toList, "p1;1;100000;auto;in_progress\n".toList)]).1 "d".toList
      ⟨7, [⟨7, "92087397".toList, 5⟩, ⟨1, "+992000000001".toList, 900000⟩],
        [⟨"p1".toList, 1, 100000, "auto".toList, "in_progress".toList⟩], []⟩ (by decide)
  obtain ⟨_, accountsB, _, _, hsB⟩ :=
    (Import_additive ⟨7, [⟨7, "92087397".toList, 5⟩], [], []⟩
      [("t".toList, "1;20;30|2;40;50|".toList)]).2 "t".toList
      ⟨7, [⟨7, "92087397".toList, 5⟩, ⟨1, "20".toList, 20⟩, ⟨2, "40".toList, 40⟩], [], []⟩
      (by decide)
  exact ⟨by decide, by decide⟩

/-! ## Short records -/

/-- C19, the code at a record with too few fields.  An `accounts.dump` whose only line
is `1` makes `Import` stop with the panic of an index out of range at `account[2]`; a
`payments.dump` whose only line is `p1` makes it stop at `payment[1]`, after the
accounts have been appended; a Format B file `1|` makes `ImportFromFile` stop at
`account[1]`.  None of the three calls returns an error value. -/
theorem Import_short_record_panics :
    Service.Import Service.empty [("d/accounts.dump".toList, "1\n".toList)] "d".toList =
        (.panic, Service.empty) ∧
      Service.Import Service.empty
        [("d/accounts.dump".toList, "1;+992000000001;900000\n".toList),
          ("d/payments.dump".toList, "p1\n".toList)] "d".toList =
        (.panic, ⟨0, [⟨1, "+992000000001".toList, 900000⟩], [], []⟩) ∧
      Service.ImportFromFile Service.empty [("t".toList, "1|".toList)] "t".toList =
        (.panic, Service.empty) := by
  decide

/-! ## Chunk files of `HistoryToFiles` -/

/-- C17, the code at the edge case of the claim, `records = 1` with three payments.
`HistoryToFiles` creates the single file `payments1.dump` and writes the three records
to it: `i%records == 1` is false for every `i` when `records` is 1, so no further file
is opened.  With `records = 2` the same payments are split into `payments1.dump` with
two records and `payments2.dump` with one. -/
theorem HistoryToFiles_one_record_per_file_not_split :
    Service.HistoryToFiles Service.empty
        [⟨"p1".toList, 1, 1000, "a".toList, "in_progress".toList⟩,
          ⟨"p2".toList, 1, 2000, "b".toList, "fail".toList⟩,
          ⟨"p3".toList, 1, 500, "c".toList, "in_progress".toList⟩] [] "d".toList 1 =
        (.ok, [("d/payments1.dump".toList,
          "p1;1;1000;a;in_progress\np2;1;2000;b;fail\np3;1;500;c;in_progress\n".toList)]) ∧
      Service.HistoryToFiles Service.empty
        [⟨"p1".toList, 1, 1000, "a".toList, "in_progress".toList⟩,
          ⟨"p2".toList, 1, 2000, "b".toList, "fail".toList⟩,
          ⟨"p3".toList, 1, 500, "c".toList, "in_progress".toList⟩] [] "d".toList 2 =
        (.ok, [("d/payments1.dump".toList, "p1;1;1000;a;in_progress\np2;1;2000;b;fail\n".toList),
          ("d/payments2.dump".toList, "p3;1;500;c;in_progress\n".toList)]) := by
  decide

namespace strconv

theorem foldl_digits_formatBits (fuel n : Nat) (hfuel : n < fuel) :
    (formatBits fuel n).foldl (fun acc c => acc * 10 + (c.toNat - 48)) 0 = n := by
  induction fuel generalizing n with
  | zero => omega
  | succ fuel ih =>
    unfold formatBits
    split
    · rename_i hlt
      simp [(digitChar_spec n hlt).2.1]
    · rename_i hge
      rw [List.foldl_append, ih (n / 10) (by omega)]
      simp only [List.foldl_cons, List.foldl_nil,
        (digitChar_spec (n % 10) (Nat.mod_lt _ (by decide))).2.1]
      omega

theorem FormatInt_natCast (n : Nat) : FormatInt (n : Int) = formatBits (n + 1) n := by
  unfold FormatInt
  rw [if_neg (by omega)]
  simp

/-- Two natural numbers with the same decimal representation are equal. -/
theorem FormatInt_natCast_inj (a b : Nat) (h : FormatInt (a : Int) = FormatInt (b : Int)) :
    a = b := by
  rw [FormatInt_natCast, FormatInt_natCast] at h
  have ha := foldl_digits_formatBits (a + 1) a (Nat.lt_succ_self a)
  have hb := foldl_digits_formatBits (b + 1) b (Nat.lt_succ_self b)
  rw [h] at ha
  omega

end strconv

/-- The names of the numbered chunk files are pairwise distinct. -/
theorem chunk_name_inj (dir : GoString) (a b : Nat)
    (h : dir ++ "/payments".toList ++ strconv.FormatInt (a : Int) ++ ".dump".toList =
      dir ++ "/payments".toList ++ strconv.FormatInt (b : Int) ++ ".dump".toList) : a = b :=
  strconv.FormatInt_natCast_inj a b (List.append_cancel_left (List.append_cancel_right h))

/-- The unsuffixed name is the name of no numbered chunk file. -/
theorem unsuffixed_ne_chunk_name (dir : GoString) (y : Nat) :
    dir ++ "/payments.dump".toList ≠
      dir ++ "/payments".toList ++ strconv.FormatInt (y : Int) ++ ".dump".toList := by
  intro h
  rw [List.append_assoc, List.append_assoc] at h
  have h1 := List.append_cancel_left h
  have h2 : "/payments.dump".toList = "/payments".toList ++ ".dump".toList := by decide
  rw [h2] at h1
  have h3 := List.append_cancel_left h1
  have hlen := congrArg List.length h3
  rw [List.length_append] at hlen
  have hnil : strconv.FormatInt (y : Int) = [] := List.length_eq_zero.mp (by omega)
  rw [strconv.FormatInt_natCast] at hnil
  exact strconv.formatBits_ne_nil _ _ hnil

/-- The name written in the source for the first chunk file is the numbered name 1. -/
theorem chunk_name_one (dir : GoString) :
    dir ++ "/payments1.dump".toList =
      dir ++ "/payments".toList ++ strconv.FormatInt ((1 : Nat) : Int) ++ ".dump".toList := by
  rw [List.append_assoc, List.append_assoc]
  congr 1

namespace os

/-- A write changes the name of no file. -/
theorem Write_names (fs : FileSystem) (name data : GoString) :
    (Write fs name data).map Prod.fst = fs.map Prod.fst := by
  unfold Write
  rw [List.map_map]
  apply List.map_congr_left
  intro f _
  simp only [Function.comp]
  split <;> rfl

end os

/-- A new chunk file is due at index `i` exactly when `records` divides `i - 1`. -/
theorem dvd_pred_iff (r i : Nat) (hr : 2 ≤ r) (hi : 1 ≤ i) : r ∣ i - 1 ↔ i % r = 1 := by
  constructor
  · rintro ⟨k, hk⟩
    have : i = r * k + 1 := by omega
    rw [this, Nat.mul_add_mod, Nat.mod_eq_of_lt (by omega)]
  · intro h
    have := Nat.div_add_mod i r
    exact ⟨i / r, by omega⟩

theorem chunk_number_step (r i : Nat) (hr : 2 ≤ r) (hi : 1 ≤ i) :
    (i - 1) / r = (i - 2) / r + if i % r = 1 ∧ i ≠ 1 then 1 else 0 := by
  by_cases h1 : i = 1
  · subst h1
    simp
  · have hsucc : i - 1 = (i - 2) + 1 := by omega
    have hdvd := dvd_pred_iff r i hr hi
    rw [hsucc] at hdvd ⊢
    rw [Nat.succ_div]
    by_cases hmod : i % r = 1
    · rw [if_pos (hdvd.mpr hmod), if_pos ⟨hmod, h1⟩]
    · rw [if_neg (fun h => hmod (hdvd.mp h)), if_neg (fun h => hmod h.1)]

/-- The names of the files after the record loop, for `records >= 2`: the loop
returns a nil error and creates the numbered chunk files that follow the open one, up
to the number of the chunk of the last record. -/
theorem HistoryToFiles_loop_names (dir : GoString) (r : Nat) (hr : 2 ≤ r)
    (rest : List Payment) :
    ∀ (file : GoString) (x i : Nat) (fs : FileSystem), 1 ≤ i → x = (i - 2) / r + 1 →
      (∀ nm ∈ fs.map Prod.fst, ∀ y : Nat, x < y →
        nm ≠ dir ++ "/payments".toList ++ strconv.FormatInt (y : Int) ++ ".dump".toList) →
      (HistoryToFiles.loop dir (r : Int) rest file x i fs).1 = .ok ∧
        (HistoryToFiles.loop dir (r : Int) rest file x i fs).2.map Prod.fst =
          fs.map Prod.fst ++
            (List.range' (x + 1) ((i + rest.length - 2) / r + 1 - x)).map
              (fun n : Nat =>
                dir ++ "/payments".toList ++ strconv.FormatInt (n : Int) ++ ".dump".toList) := by
  induction rest with
  | nil =>
    intro file x i fs hi hx _
    refine ⟨rfl, ?_⟩
    have : (i + ([] : List Payment).length - 2) / r + 1 - x = 0 := by
      simp only [List.length_nil, Nat.add_zero]
      omega
    rw [this]
    simp [HistoryToFiles.loop]
  | cons payment rest ih =>
    intro file x i fs hi hx hfresh
    have hr0 : ¬ ((r : Int) = 0) := by omega
    have hcond : (Int.tmod (i : Int) (r : Int) = 1 ∧ i ≠ 1) ↔ (i % r = 1 ∧ i ≠ 1) := by
      rw [← Int.ofNat_tmod]
      constructor
      · rintro ⟨h1, h2⟩
        exact ⟨by exact_mod_cast h1, h2⟩
      · rintro ⟨h1, h2⟩
        exact ⟨by exact_mod_cast h1, h2⟩
    have hstep := chunk_number_step r i hr hi
    have hlen : i + (payment :: rest).length - 2 = i + 1 + rest.length - 2 := by
      simp only [List.length_cons]
      omega
    have hmono : (i - 1) / r ≤ (i + 1 + rest.length - 2) / r :=
      Nat.div_le_div_right (by omega)
    unfold HistoryToFiles.loop
    rw [if_neg hr0, hlen]
    by_cases hnew : i % r = 1 ∧ i ≠ 1
    · rw [if_pos (hcond.mpr hnew)]
      rw [if_pos hnew] at hstep
      dsimp only
      have hcreate : os.Create fs
          (dir ++ "/payments".toList ++ strconv.FormatInt ((x + 1 : Nat) : Int) ++
            ".dump".toList) =
          fs ++ [(dir ++ "/payments".toList ++ strconv.FormatInt ((x + 1 : Nat) : Int) ++
            ".dump".toList, [])] := by
        apply os.Create_new
        intro f hf
        exact hfresh f.1 (List.mem_map_of_mem _ hf) (x + 1) (Nat.lt_succ_self x)
      have hih := ih
        (dir ++ "/payments".toList ++ strconv.FormatInt ((x + 1 : Nat) : Int) ++ ".dump".toList)
        (x + 1) (i + 1)
        (os.Write (os.Create fs
          (dir ++ "/payments".toList ++ strconv.FormatInt ((x + 1 : Nat) : Int) ++
            ".dump".toList))
          (dir ++ "/payments".toList ++ strconv.FormatInt ((x + 1 : Nat) : Int) ++
            ".dump".toList) (paymentLine payment))
        (by omega)
        (by
          have : i + 1 - 2 = i - 1 := by omega
          rw [this, hstep, hx])
        (by
          intro nm hnm y hy
          rw [os.Write_names, hcreate, List.map_append] at hnm
          rcases List.mem_append.mp hnm with hnm | hnm
          · exact hfresh nm hnm y (by omega)
          · simp only [List.map_cons, List.map_nil, List.mem_singleton] at hnm
            subst hnm
            intro heq
            have := chunk_name_inj dir (x + 1) y heq
            omega)
      refine ⟨hih.1, ?_⟩
      rw [hih.2, os.Write_names, hcreate, List.map_append, List.append_assoc]
      congr 1
      have hsplit : (i + 1 + rest.length - 2) / r + 1 - x =
          ((i + 1 + rest.length - 2) / r + 1 - (x + 1)) + 1 := by omega
      rw [hsplit, List.range'_succ]
      simp
    · rw [if_neg (fun h => hnew (hcond.mp h))]
      rw [if_neg hnew] at hstep
      have hih := ih file x (i + 1) (os.Write fs file (paymentLine payment)) (by omega)
        (by
          have : i + 1 - 2 = i - 1 := by omega
          rw [this, hstep, hx])
        (by
          intro nm hnm y hy
          rw [os.Write_names] at hnm
          exact hfresh nm hnm y hy)
      refine ⟨hih.1, ?_⟩
      rw [hih.2, os.Write_names]

/-- C16, the claim as stated fails.  With three payments and `records = 2` the files
`HistoryToFiles` creates are, in creation order, `payments1.dump` and `payments2.dump`:
the first chunk file is not the unsuffixed `payments.dump`. -/
theorem HistoryToFiles_first_chunk_suffixed_counterexample :
    (Service.HistoryToFiles Service.empty
        [⟨"p1".toList, 1, 1000, "a".toList, "in_progress".toList⟩,
          ⟨"p2".toList, 1, 2000, "b".toList, "fail".toList⟩,
          ⟨"p3".toList, 1, 500, "c".toList, "in_progress".toList⟩] [] "d".toList 2).2.map
        Prod.fst =
        ["d/payments1.dump".toList, "d/payments2.dump".toList] ∧
      "d/payments1.dump".toList ≠ "d/payments.dump".toList := by
  decide

/-- C16, amended.  For a non-empty payment list and `records >= 1`, in an empty
output directory: when the list has at most `records` payments, `HistoryToFiles`
returns a nil error and creates the single file `payments.dump`; when it has more than
`records` payments and `records >= 2`, it returns a nil error and the files it creates
are, in creation order, `payments1.dump`, `payments2.dump`, ..., `payments<N>.dump`
with `N = ceil(len / records)`: the first chunk file carries the suffix 1. -/
theorem HistoryToFiles_names (s : Service) (payments : List Payment) (dir : GoString)
    (records : Int) (hne : payments ≠ []) (hrecords : 1 ≤ records) :
    ((payments.length : Int) ≤ records →
      (s.HistoryToFiles payments [] dir records).1 = .ok ∧
        (s.HistoryToFiles payments [] dir records).2.map Prod.fst =
          [dir ++ "/payments.dump".toList]) ∧
    (records < (payments.length : Int) → 2 ≤ records →
      (s.HistoryToFiles payments [] dir records).1 = .ok ∧
        (s.HistoryToFiles payments [] dir records).2.map Prod.fst =
          (List.range' 1 ((payments.length - 1) / records.toNat + 1)).map
            (fun n : Nat =>
              dir ++ "/payments".toList ++ strconv.FormatInt (n : Int) ++ ".dump".toList)) := by
  lift records to ℕ using (by omega) with r
  have hr1 : 1 ≤ r := by exact_mod_cast hrecords
  have hlenpos : 1 ≤ payments.length := by
    cases payments with
    | nil => exact absurd rfl hne
    | cons p ps => simp
  unfold Service.HistoryToFiles
  rw [if_neg hne]
  dsimp only
  constructor
  · intro hle
    have hle' : payments.length ≤ r := by exact_mod_cast hle
    rw [if_pos hle]
    have hcreate : os.Create [] (dir ++ "/payments.dump".toList) =
        [(dir ++ "/payments.dump".toList, [])] := os.Create_new _ _ (by simp)
    rw [hcreate]
    by_cases hr : 2 ≤ r
    · have h := HistoryToFiles_loop_names dir r hr payments (dir ++ "/payments.dump".toList) 1 1
        [(dir ++ "/payments.dump".toList, [])] (le_refl 1) (by simp)
        (by
          intro nm hnm y _
          simp only [List.map_cons, List.map_nil, List.mem_singleton] at hnm
          subst hnm
          exact unsuffixed_ne_chunk_name dir y)
      refine ⟨h.1, ?_⟩
      rw [h.2]
      have hzero : (1 + payments.length - 2) / r + 1 - 1 = 0 := by
        have : (1 + payments.length - 2) / r = 0 := Nat.div_eq_of_lt (by omega)
        omega
      rw [hzero]
      simp
    · have hr' : r = 1 := by omega
      subst hr'
      cases payments with
      | nil => exact absurd rfl hne
      | cons p ps =>
        cases ps with
        | nil => simp [HistoryToFiles.loop, os.Write]
        | cons q qs =>
          simp only [List.length_cons] at hle'
          omega
  · intro hlt hr2
    have hlt' : r < payments.length := by exact_mod_cast hlt
    have hr : 2 ≤ r := by exact_mod_cast hr2
    rw [if_neg (by omega)]
    have hcreate : os.Create [] (dir ++ "/payments1.dump".toList) =
        [(dir ++ "/payments1.dump".toList, [])] := os.Create_new _ _ (by simp)
    rw [hcreate]
    have h := HistoryToFiles_loop_names dir r hr payments (dir ++ "/payments1.dump".toList) 1 1
      [(dir ++ "/payments1.dump".toList, [])] (le_refl 1) (by simp)
      (by
        intro nm hnm y hy
        simp only [List.map_cons, List.map_nil, List.mem_singleton] at hnm
        subst hnm
        rw [chunk_name_one]
        intro heq
        have := chunk_name_inj dir 1 y heq
        omega)
    refine ⟨h.1, ?_⟩
    rw [h.2, Int.toNat_ofNat]
    have hn : 1 + payments.length - 2 = payments.length - 1 := by omega
    rw [hn, Nat.add_sub_cancel, List.range'_succ 1 ((payments.length - 1) / r),
      List.map_cons]
    simp only [List.map_cons, List.map_nil, List.singleton_append]
    rw [← chunk_name_one]

/-- Five payments with `records = 2` give `payments1.dump`, `payments2.dump` and
`payments3.dump`; two payments with `records = 2` give `payments.dump`. -/
theorem HistoryToFiles_names_witness :
    (Service.HistoryToFiles Service.empty
        [⟨"p1".toList, 1, 1000, [], []⟩, ⟨"p2".toList, 1, 2000, [], []⟩,
          ⟨"p3".toList, 1, 500, [], []⟩, ⟨"p4".toList, 1, 10, [], []⟩,
          ⟨"p5".toList, 1, 20, [], []⟩] [] "d".toList 2).2.map Prod.fst =
        ["d/payments1.dump".toList, "d/payments2.dump".toList, "d/payments3.dump".toList] ∧
      (Service.HistoryToFiles Service.empty
        [⟨"p1".toList, 1, 1000, [], []⟩, ⟨"p2".toList, 1, 2000, [], []⟩]
        [] "d".toList 2).2.map Prod.fst = ["d/payments.dump".toList] := by
  have h1 := ((HistoryToFiles_names Service.empty
      [⟨"p1".toList, 1, 1000, [], []⟩, ⟨"p2".toList, 1, 2000, [], []⟩,
        ⟨"p3".toList, 1, 500, [], []⟩, ⟨"p4".toList, 1, 10, [], []⟩,
        ⟨"p5".toList, 1, 20, [], []⟩] "d".toList 2 (by decide) (by decide)).2
    (by decide) (by decide)).2
  have h2 := ((HistoryToFiles_names Service.empty
      [⟨"p1".toList, 1, 1000, [], []⟩, ⟨"p2".toList, 1, 2000, [], []⟩]
      "d".toList 2 (by decide) (by decide)).1 (by decide)).2
  refine ⟨?_, h2⟩
  rw [h1]
  decide

/-! ## The id counter across an import -/

/-- The accounts loop of `Import` does not touch the id counter, however it ends. -/
theorem Import_accounts_counter (lines : List GoString) (s : Service) :
    (Import.accounts lines s).2.nextAccountID = s.nextAccountID := by
  induction lines generalizing s with
  | nil => rfl
  | cons line rest ih =>
    unfold Import.accounts
    cases Import.account line with
    | error o => rfl
    | ok account => exact ih _

/-- The payments loop of `Import` does not touch the id counter, however it ends. -/
theorem Import_payments_counter (lines : List GoString) (s : Service) :
    (Import.payments lines s).2.nextAccountID = s.nextAccountID := by
  induction lines generalizing s with
  | nil => rfl
  | cons line rest ih =>
    unfold Import.payments
    cases Import.payment line with
    | error o => rfl
    | ok payment => exact ih _

/-- The favorites loop of `Import` does not touch the id counter, however it ends. -/
theorem Import_favorites_counter (lines : List GoString) (s : Service) :
    (Import.favorites lines s).2.nextAccountID = s.nextAccountID := by
  induction lines generalizing s with
  | nil => rfl
  | cons line rest ih =>
    unfold Import.favorites
    cases Import.favorite line with
    | error o => rfl
    | ok favorite => exact ih _

/-- `Import` leaves the id counter of the store as it is, whatever the files hold and
however the call ends: no statement of it assigns `nextAccountID`. -/
theorem Import_counter (s : Service) (fs : FileSystem) (dir : GoString) :
    (s.Import fs dir).2.nextAccountID = s.nextAccountID := by
  unfold Service.Import
  cases os.Open fs (dir ++ "/accounts.dump".toList) with
  | none => rfl
  | some srcAcc =>
    dsimp only
    have hA := Import_accounts_counter (bufio.readLines srcAcc) s
    cases hloopA : Import.accounts (bufio.readLines srcAcc) s with
    | mk oA sA =>
      rw [hloopA] at hA
      cases oA with
      | err e => exact hA
      | panic => exact hA
      | ok =>
        dsimp only
        cases os.Open fs (dir ++ "/payments.dump".toList) with
        | none => exact hA
        | some srcPay =>
          dsimp only
          have hP := Import_payments_counter (bufio.readLines srcPay) sA
          cases hloopP : Import.payments (bufio.readLines srcPay) sA with
          | mk oP sP =>
            rw [hloopP] at hP
            cases oP with
            | err e => exact hP.trans hA
            | panic => exact hP.trans hA
            | ok =>
              dsimp only
              cases os.Open fs (dir ++ "/favorites.dump".toList) with
              | none => exact hP.trans hA
              | some srcFav =>
                exact (Import_favorites_counter (bufio.readLines srcFav) sP).trans
                  (hP.trans hA)

/-- After an `Import` into the empty store, a successful `RegisterAccount` returns the
account with `ID` 1, whatever ids the imported accounts have. -/
theorem RegisterAccount_after_Import (fs : FileSystem) (dir : GoString) (phone : Phone)
    (account : Account) (s' : Service)
    (h : (Service.empty.Import fs dir).2.RegisterAccount phone = (.ok account, s')) :
    account.ID = 1 := by
  rcases RegisterAccount_cases (Service.empty.Import fs dir).2 phone with hc | hc
  · rw [hc] at h
    cases h
  · rw [hc] at h
    simp only [Prod.mk.injEq, Except.ok.injEq] at h
    rw [← h.1]
    show (Service.empty.Import fs dir).2.nextAccountID + 1 = 1
    rw [Import_counter]
    rfl

/-- C21, the code at the store of the tests.  The store `S` reached by
`RegisterAccount("+992000000001")`, `Deposit(1, 1000000)` and `Pay(1, 100000, "auto")`
holds the account 1 and one payment.  `Export` writes it, `Import` into the empty store
returns a nil error and yields the account `{1, "+992000000001", 900000}` with the id
counter still 0, and `RegisterAccount("92087397")`, a phone no account has, then
returns the account `{1, "92087397", 0}`: its `ID` is the `ID` of the imported
account. -/
theorem RegisterAccount_after_Import_duplicate_id :
    Service.empty.run
        [.RegisterAccount "+992000000001".toList, .Deposit 1 1000000,
          .Pay 1 100000 "auto".toList "p1".toList] =
        ⟨1, [⟨1, "+992000000001".toList, 900000⟩],
          [⟨"p1".toList, 1, 100000, "auto".toList, "in_progress".toList⟩], []⟩ ∧
      Service.Export ⟨1, [⟨1, "+992000000001".toList, 900000⟩],
          [⟨"p1".toList, 1, 100000, "auto".toList, "in_progress".toList⟩], []⟩
          [] "data".toList =
        (.ok, [("data/accounts.dump".toList, "1;+992000000001;900000\n".toList),
          ("data/payments.dump".toList, "p1;1;100000;auto;in_progress\n".toList)]) ∧
      Service.Import Service.empty
          [("data/accounts.dump".toList, "1;+992000000001;900000\n".toList),
            ("data/payments.dump".toList, "p1;1;100000;auto;in_progress\n".toList)]
          "data".toList =
        (.ok, ⟨0, [⟨1, "+992000000001".toList, 900000⟩],
          [⟨"p1".toList, 1, 100000, "auto".toList, "in_progress".toList⟩], []⟩) ∧
      Service.RegisterAccount ⟨0, [⟨1, "+992000000001".toList, 900000⟩],
          [⟨"p1".toList, 1, 100000, "auto".toList, "in_progress".toList⟩], []⟩
          "92087397".toList =
        (.ok ⟨1, "92087397".toList, 0⟩,
          ⟨1, [⟨1, "+992000000001".toList, 900000⟩, ⟨1, "92087397".toList, 0⟩],
            [⟨"p1".toList, 1, 100000, "auto".toList, "in_progress".toList⟩], []⟩) := by
  decide

end wallet
